import Mathlib

/-!
# FSPsMealPlanner: quantity aggregation, serving scaling, ingredient lookup,
grocery list generation and display, recipe library, ingredient directory,
editing of stored meals, export and import

A shallow embedding of `src/app.js`.

Modelling conventions.

* A JavaScript number is modelled by the rational number that it holds
  (`ℚ`); NaN, the infinities and negative zero are not modelled.  The
  arithmetic of the host is not exact: the sum, the product and the quotient
  that the source computes, and the printing of a number by a template
  literal or by `toFixed`, are the functions of a `NumberHost`, which is a
  parameter of every function that computes or prints.  Comparison,
  `Math.floor` and the remainder `%` are exact on the numbers held and are
  computed here.  A decimal literal of the source is written as that
  decimal; as the operand of a host operation it stands for the number the
  host reads it as.
* JavaScript strings are `String`; arrays are `List`; an object property
  that may be absent is an `Option`.
* Module-level variables that a function mutates are passed in and returned
  explicitly.
* An object used as a map is a list of key-value pairs in the order of key
  creation; `Object.entries`, `Object.keys` and `Object.values` visit the keys
  that are array indices first, in ascending order, then the other keys in
  that order of creation.
* Host facilities that the source only calls (the arithmetic and the number
  formatting, `toLowerCase`, `localeCompare`, the `Date` functions) are
  parameters of the functions that use them; `JSON.parse` enters through its
  result.  A theorem with a host parameter holds for every host.  Concrete
  inputs are evaluated with the stand-ins `exactNumbers`, `asciiToLowerCase`
  and `codePointCompare`, which on the inputs evaluated return what the host
  returns, and with `sampleDateHost`.
-/

namespace MealPlanner

/-! ## Numbers (the JavaScript built-ins used by the source) -/

/-- The arithmetic and the number formatting of the host: the operators `+`,
`*` and `/` on numbers, the conversion of a number to a string in a template
literal, and the method `toFixed`.  For IEEE double precision the three
operators return the representable number nearest to the exact result. -/
structure NumberHost where
  add : ℚ → ℚ → ℚ
  mul : ℚ → ℚ → ℚ
  div : ℚ → ℚ → ℚ
  toString : ℚ → String
  toFixed : ℚ → Nat → String

/-- The remainder operator `x % y`: the result has the sign of the dividend,
the quotient is truncated towards zero.  The remainder of two numbers is a
number that binary floating point holds without rounding. -/
def jsRem (x y : ℚ) : ℚ :=
  let q := x / y
  let t : Int := if q < 0 then ⌈q⌉ else ⌊q⌋
  x - y * t

/-! ## Unit tables (`src/app.js` lines 10-42 and 791-795) -/

/-- The table `unitConversions`: factor of each unit to the base unit of its
family. -/
def unitConversions : List (String × ℚ) :=
  [ ("gram", 1), ("kilogram", 1000), ("milligram", 0.001), ("ounce", 28.3495),
    ("pound", 453.592),
    ("milliliter", 1), ("liter", 1000), ("cup", 236.588), ("tablespoon", 14.7868),
    ("teaspoon", 4.92892), ("fluid-ounce", 29.5735), ("pint", 473.176),
    ("quart", 946.353), ("gallon", 3785.41),
    ("piece", 1), ("dozen", 12), ("bunch", 1), ("head", 1), ("clove", 1), ("can", 1),
    ("jar", 1), ("bottle", 1), ("package", 1), ("box", 1), ("bag", 1), ("container", 1) ]

/-- The three measurement families, the keys of `groups`. -/
inductive MeasurementType where
  | weight
  | volume
  | count
  deriving DecidableEq, Repr

/-- The table `groups` of `aggregateQuantities`: the units of each family. -/
def groups : MeasurementType → List String
  | .weight => ["gram", "kilogram", "milligram", "ounce", "pound"]
  | .volume => ["milliliter", "liter", "cup", "tablespoon", "teaspoon", "fluid-ounce",
      "pint", "quart", "gallon"]
  | .count => ["piece", "dozen", "bunch", "head", "clove", "can", "jar", "bottle",
      "package", "box", "bag", "container"]

/-- One `{quantity, unit}` entry collected for an ingredient. -/
structure Quantity where
  quantity : ℚ
  unit : String
  deriving DecidableEq

/-- The expression `unitConversions[q.unit] || 1`: the table's factor, and 1
when the unit has no entry or its factor is zero. -/
def conversionOrOne (unit : String) : ℚ :=
  match unitConversions.lookup unit with
  | some f => if f = 0 then 1 else f
  | none => 1

/-- The loop "Find the measurement type": the first family, in the order
weight, volume, count, whose unit list includes the first unit; `count` when
none does. -/
def findMeasurementType (firstUnit : String) : MeasurementType :=
  match [MeasurementType.weight, MeasurementType.volume, MeasurementType.count].find?
      (fun type => (groups type).contains firstUnit) with
  | some type => type
  | none => .count

/-- One step of the loop "Convert all to base unit and sum": the pair is
`(total, mixedUnits)`. -/
def sumStep (numbers : NumberHost) (measurementType : MeasurementType) (acc : ℚ × Bool)
    (q : Quantity) : ℚ × Bool :=
  if (groups measurementType).contains q.unit then
    (numbers.add acc.1 (numbers.mul q.quantity (conversionOrOne q.unit)), acc.2)
  else
    (acc.1, true)

/-- The function `aggregateQuantities` of `src/app.js` (lines 787-852). -/
def aggregateQuantities (numbers : NumberHost) (quantities : List Quantity) : String :=
  match quantities with
  | [] => "0"
  | first :: _ =>
    let firstUnit := first.unit
    let measurementType := findMeasurementType firstUnit
    let acc := quantities.foldl (sumStep numbers measurementType) (0, false)
    let total := acc.1
    let mixedUnits := acc.2
    if mixedUnits then
      String.intercalate " + "
        (quantities.map fun q => numbers.toString q.quantity ++ " " ++ q.unit)
    else
      match measurementType with
      | .weight =>
        if total ≥ 1000 then numbers.toFixed (numbers.div total 1000) 2 ++ " kg"
        else numbers.toFixed total 0 ++ " g"
      | .volume =>
        if total ≥ 1000 then numbers.toFixed (numbers.div total 1000) 2 ++ " L"
        else if total ≥ 250 then numbers.toFixed (numbers.div total 236.588) 2 ++ " cups"
        else numbers.toFixed total 0 ++ " ml"
      | .count =>
        if firstUnit = "dozen" ∧ total ≥ 12 then
          let dozens : ℚ := ⌊numbers.div total 12⌋
          let remainder := jsRem total 12
          if remainder = 0 then numbers.toString dozens ++ " dozen"
          else
            numbers.toString dozens ++ " dozen + " ++ numbers.toString remainder ++ " pieces"
        else
          numbers.toString total ++ " " ++ firstUnit ++ (if total ≠ 1 then "s" else "")

/-! ## String built-ins used by the source -/

/-- The white space and line terminator characters that `parseInt` and `trim`
skip. -/
def isJsWhiteSpace (c : Char) : Bool :=
  [0x9, 0xA, 0xB, 0xC, 0xD, 0x20, 0xA0, 0x1680, 0x2000, 0x2001, 0x2002, 0x2003, 0x2004,
    0x2005, 0x2006, 0x2007, 0x2008, 0x2009, 0x200A, 0x2028, 0x2029, 0x202F, 0x205F,
    0x3000, 0xFEFF].contains c.toNat

/-- Value of a character as a digit in the given radix (10 or 16). -/
def digitValue (radix : Nat) (c : Char) : Option Nat :=
  if '0' ≤ c ∧ c ≤ '9' then some (c.toNat - '0'.toNat)
  else if radix = 16 ∧ 'a' ≤ c ∧ c ≤ 'f' then some (c.toNat - 'a'.toNat + 10)
  else if radix = 16 ∧ 'A' ≤ c ∧ c ≤ 'F' then some (c.toNat - 'A'.toNat + 10)
  else none

/-- The longest prefix of digits, read in the given radix; `none` when the
first character is not a digit. -/
def readDigits (radix : Nat) : List Char → Option Nat → Option Nat
  | [], acc => acc
  | c :: cs, acc =>
    match digitValue radix c with
    | some d => readDigits radix cs (some (acc.getD 0 * radix + d))
    | none => acc

/-- The function `parseInt(string)` without a radix argument: leading white
space is skipped, a sign is read, a `0x` prefix selects radix 16, and the
longest prefix of digits is the value; `none` stands for `NaN`. -/
def parseInt (s : String) : Option Int :=
  let cs := s.data.dropWhile isJsWhiteSpace
  let (sign, cs) : Int × List Char :=
    match cs with
    | '-' :: rest => (-1, rest)
    | '+' :: rest => (1, rest)
    | _ => (1, cs)
  let (radix, cs) : Nat × List Char :=
    match cs with
    | '0' :: 'x' :: rest => (16, rest)
    | '0' :: 'X' :: rest => (16, rest)
    | _ => (10, cs)
  match readDigits radix cs none with
  | some n => some (sign * n)
  | none => none

/-- The expression `parseInt(value) || 4`: `NaN` and `0` are replaced by 4. -/
def parseIntOrFour (value : String) : Int :=
  match parseInt value with
  | some n => if n = 0 then 4 else n
  | none => 4

/-- Splitting at every comma, `value.split(',')`. -/
def splitOnComma : List Char → List (List Char)
  | [] => [[]]
  | c :: cs =>
    match splitOnComma cs with
    | [] => [[]]
    | piece :: pieces => if c = ',' then [] :: piece :: pieces else (c :: piece) :: pieces

/-- The method `trim`. -/
def trim (cs : List Char) : List Char :=
  ((cs.dropWhile isJsWhiteSpace).reverse.dropWhile isJsWhiteSpace).reverse

/-- The expression `value.split(',').map(tag => tag.trim()).filter(tag => tag)`. -/
def parseTags (value : String) : List String :=
  ((splitOnComma value.data).map fun piece => String.mk (trim piece)).filter fun tag => tag ≠ ""

/-! ## Data model -/

/-- An entry of `ingredientDirectory`.  Entries created by `saveMeal` carry
only `name`, `category` and `defaultUnit`; the entry `getIngredientInfo`
makes up carries no `defaultUnit`. -/
structure IngredientEntry where
  name : String
  category : String
  defaultUnit : Option String
  location : Option String
  stores : Option (List String)
  isFrozen : Option Bool
  isRefrigerated : Option Bool
  deriving DecidableEq

/-- An ingredient of a scheduled meal. -/
structure MealIngredient where
  name : String
  quantity : ℚ
  unit : String
  baseQuantity : ℚ
  deriving DecidableEq

/-- The object `meal` built by `saveMeal`. -/
structure Meal where
  name : String
  type : String
  prepTime : Option String
  defaultServings : Int
  actualServings : Int
  needsDefrost : Bool
  canPrepSunday : Bool
  canPartialPrep : Bool
  tags : List String
  instructions : String
  ingredients : List MealIngredient
  deriving DecidableEq

/-- An ingredient of a recipe. -/
structure RecipeIngredient where
  name : String
  quantity : ℚ
  unit : String
  deriving DecidableEq

/-- The object `recipe` built by `saveMeal`. -/
structure Recipe where
  name : String
  prepTime : Option String
  defaultServings : Int
  needsDefrost : Bool
  canPrepSunday : Bool
  canPartialPrep : Bool
  tags : List String
  instructions : String
  ingredients : List RecipeIngredient
  deriving DecidableEq

/-- One `.ingredient-row` of the meal form: the text input, the number input
(`none` when it is empty; a number input holds either nothing or a valid
number, which `parseFloat` reads back) and the unit select. -/
structure IngredientRow where
  name : String
  quantity : Option ℚ
  unit : String
  deriving DecidableEq

/-- The fields of the meal form read by `saveMeal`. -/
structure MealForm where
  mealName : String
  mealType : String
  prepTime : String
  defaultServings : String
  actualServings : String
  needsDefrost : Bool
  canPrepSunday : Bool
  canPartialPrep : Bool
  mealTags : String
  recipeInstructions : String
  ingredientRows : List IngredientRow
  deriving DecidableEq

/-- The module-level variables read and written by `saveMeal`.  The object
`mealPlan` is a list of key-value pairs in insertion order. -/
structure AppState where
  mealPlan : List (String × Meal)
  ingredientDirectory : List IngredientEntry
  recipeLibrary : List Recipe
  currentEditingSlot : Option String
  deriving DecidableEq

/-! ## Ingredient lookup (`src/app.js` lines 773-784) -/

/-- The function `getIngredientInfo`: the first directory entry whose
lower-cased name is the lower-cased query, or else a made-up entry.  The
second component is `ingredientDirectory` after the call.  The parameter
`toLowerCase` stands for the method `String.prototype.toLowerCase` of the
host. -/
def getIngredientInfo (toLowerCase : String → String)
    (ingredientDirectory : List IngredientEntry) (ingredientName : String) :
    IngredientEntry × List IngredientEntry :=
  let ingredient :=
    ingredientDirectory.find? fun ing => toLowerCase ing.name == toLowerCase ingredientName
  match ingredient with
  | some ing => (ing, ingredientDirectory)
  | none =>
    ({ name := ingredientName, category := "other", defaultUnit := none,
       location := some "", stores := some [], isFrozen := some false,
       isRefrigerated := some false }, ingredientDirectory)

/-! ## Saving a meal (`src/app.js` lines 398-479) -/

/-- The assignment `obj[key] = value` on an object kept as a list of pairs:
an existing key keeps its position, a new key goes last. -/
def setKey {α : Type} (key : String) (value : α) : List (String × α) → List (String × α)
  | [] => [(key, value)]
  | (k, v) :: rest => if k = key then (key, value) :: rest else (k, v) :: setKey key value rest

/-- The body of `ingredientRows.forEach` in `saveMeal`; the pair is
`(meal.ingredients, ingredientDirectory)`. -/
def collectRow (numbers : NumberHost) (servingRatio : ℚ)
    (acc : List MealIngredient × List IngredientEntry) (row : IngredientRow) :
    List MealIngredient × List IngredientEntry :=
  match row.quantity with
  | none => acc
  | some value =>
    if row.name ≠ "" ∧ row.unit ≠ "" then
      let baseQuantity := value
      let adjustedQuantity := numbers.mul baseQuantity servingRatio
      let ingredients := acc.1 ++
        [{ name := row.name, quantity := adjustedQuantity, unit := row.unit,
           baseQuantity := baseQuantity }]
      let directory :=
        if (acc.2.find? fun ing => ing.name == row.name).isNone then
          acc.2 ++ [{ name := row.name, category := "other", defaultUnit := some row.unit,
                      location := none, stores := none, isFrozen := none,
                      isRefrigerated := none }]
        else acc.2
      (ingredients, directory)
    else acc

/-- The expression `ing.baseQuantity || ing.quantity`. -/
def baseOrQuantity (ing : MealIngredient) : ℚ :=
  if ing.baseQuantity = 0 then ing.quantity else ing.baseQuantity

/-- The object `recipe` that `saveMeal` derives from `meal`. -/
def recipeOfMeal (meal : Meal) : Recipe :=
  { name := meal.name, prepTime := meal.prepTime, defaultServings := meal.defaultServings,
    needsDefrost := meal.needsDefrost, canPrepSunday := meal.canPrepSunday,
    canPartialPrep := meal.canPartialPrep, tags := meal.tags,
    instructions := meal.instructions,
    ingredients := meal.ingredients.map fun ing =>
      { name := ing.name, quantity := baseOrQuantity ing, unit := ing.unit } }

/-- The object `meal` of `saveMeal` after the ingredient rows are collected,
together with `ingredientDirectory` after the loop. -/
def buildMeal (numbers : NumberHost) (ingredientDirectory : List IngredientEntry)
    (form : MealForm) : Meal × List IngredientEntry :=
  let defaultServings := parseIntOrFour form.defaultServings
  let actualServings := parseIntOrFour form.actualServings
  let servingRatio : ℚ := numbers.div (actualServings : ℚ) (defaultServings : ℚ)
  let acc :=
    form.ingredientRows.foldl (collectRow numbers servingRatio) ([], ingredientDirectory)
  ({ name := form.mealName, type := form.mealType,
     prepTime := if form.prepTime = "" then none else some form.prepTime,
     defaultServings := defaultServings, actualServings := actualServings,
     needsDefrost := form.needsDefrost, canPrepSunday := form.canPrepSunday,
     canPartialPrep := form.canPartialPrep, tags := parseTags form.mealTags,
     instructions := form.recipeInstructions, ingredients := acc.1 }, acc.2)

/-- The recipe library after the block "Optionally save to recipe library". -/
def upsertRecipe (recipeLibrary : List Recipe) (meal : Meal) : List Recipe :=
  if meal.instructions ≠ "" ∨ meal.ingredients.length > 0 then
    let existingRecipe := recipeLibrary.findIdx? fun r => r.name == meal.name
    let recipe := recipeOfMeal meal
    match existingRecipe with
    | some i => recipeLibrary.set i recipe
    | none => recipeLibrary ++ [recipe]
  else recipeLibrary

/-- The function `saveMeal` on the module state; persistence and rendering
are outside the model, `closeMealModal` resets `currentEditingSlot`. -/
def saveMeal (numbers : NumberHost) (st : AppState) (form : MealForm) : AppState :=
  let built := buildMeal numbers st.ingredientDirectory form
  let meal := built.1
  let mealPlan :=
    match st.currentEditingSlot with
    | some slot => if slot ≠ "" then setKey slot meal st.mealPlan else st.mealPlan
    | none => st.mealPlan
  { mealPlan := mealPlan, ingredientDirectory := built.2,
    recipeLibrary := upsertRecipe st.recipeLibrary meal, currentEditingSlot := none }

/-! ## Objects used as maps

An object literal `{}` filled by assignments `obj[key] = value` is a list of
key-value pairs with distinct keys, in the order in which the keys were
created.  An object literal also inherits the members of `Object.prototype`:
for a key in `objectPrototypeKeys` the expression `obj[key]` is the inherited
member, not `undefined`.  The functions below give the statements of the
source for the keys outside that list. -/

/-- The names of the members of `Object.prototype`, which every object
literal inherits. -/
def objectPrototypeKeys : List String :=
  ["constructor", "hasOwnProperty", "isPrototypeOf", "propertyIsEnumerable", "toLocaleString",
    "toString", "valueOf", "__proto__", "__defineGetter__", "__defineSetter__",
    "__lookupGetter__", "__lookupSetter__"]

/-- The array index that a property key denotes, if any: the key is the
decimal numeral, without leading zeros, of a number below `2^32 - 1`. -/
def arrayIndex? (key : String) : Option Nat :=
  match key.data with
  | [] => none
  | c :: cs =>
    if (c :: cs).all Char.isDigit ∧ (c = '0' → cs = []) then
      let n := (c :: cs).foldl (fun acc d => acc * 10 + (d.toNat - '0'.toNat)) 0
      if n < 2 ^ 32 - 1 then some n else none
    else none

/-- The order of `Object.entries(obj)`, `Object.keys(obj)` and
`Object.values(obj)`: first the keys that are array indices, in ascending
numeric order, then all other keys in the order of their creation. -/
def objectEntries {α : Type} (obj : List (String × α)) : List (String × α) :=
  (obj.filter fun p => (arrayIndex? p.1).isSome).insertionSort
      (fun p q => (arrayIndex? p.1).getD 0 ≤ (arrayIndex? q.1).getD 0)
    ++ obj.filter fun p => (arrayIndex? p.1).isNone

/-- The call `Object.keys(obj)`. -/
def objectKeys {α : Type} (obj : List (String × α)) : List String :=
  (objectEntries obj).map Prod.fst

/-- The call `Object.values(obj)`. -/
def objectValues {α : Type} (obj : List (String × α)) : List α :=
  (objectEntries obj).map Prod.snd

/-- The statements `if (!obj[key]) obj[key] = []; obj[key].push(item)` for a
key outside `objectPrototypeKeys`.  For a key in that list the test finds the
inherited member and the call of `push` throws a `TypeError`; that path has no
counterpart here. -/
def pushTo {α : Type} (key : String) (item : α) :
    List (String × List α) → List (String × List α)
  | [] => [(key, [item])]
  | (k, v) :: rest =>
    if k = key then (k, v ++ [item]) :: rest else (k, v) :: pushTo key item rest

/-- The call `array.sort(comparefn)`: a stable sort that puts `a` before `b`
when `comparefn(a, b)` is negative.  For a consistent comparator every stable
sorting algorithm returns this list. -/
def sortBy {α : Type} (comparefn : α → α → Int) (array : List α) : List α :=
  array.insertionSort fun a b => comparefn a b ≤ 0

/-! ## Grocery list display (`src/app.js` lines 45-63 and 855-967) -/

/-- The array `locationOrder`. -/
def locationOrder : List String :=
  ["produce", "bakery", "deli", "meat", "canned", "pasta", "cereal", "snacks", "baking",
    "spices", "condiments", "international", "health", "beverages", "dairy", "frozen",
    "household"]

/-- An item of the aggregated grocery list. -/
structure GroceryItem where
  name : String
  category : String
  location : Option String
  stores : Option (List String)
  isFrozen : Option Bool
  isRefrigerated : Option Bool
  totalQuantity : String
  deriving DecidableEq

/-- One `location-group` block of a store section: the location key, the
header text and the item rows in the order in which they are emitted. -/
structure LocationGroup where
  location : String
  locationName : String
  items : List GroceryItem
  deriving DecidableEq

/-- One `store-section` block emitted by `renderStoreSection`: the store
name, whether it carries the best-option mark, the displayed item count and
the location groups in the order in which they are emitted. -/
structure StoreSection where
  storeName : String
  isBestStore : Bool
  itemCount : Nat
  locationGroups : List LocationGroup
  deriving DecidableEq

/-- The expression `item.location || 'other'`. -/
def locationOrOther (item : GroceryItem) : String :=
  match item.location with
  | some location => if location = "" then "other" else location
  | none => "other"

/-- The object `locationGroups` of `renderStoreSection`. -/
def groupByLocation (items : List GroceryItem) : List (String × List GroceryItem) :=
  items.foldl (fun locationGroups item => pushTo (locationOrOther item) item locationGroups) []

/-- The expression `aIndex === -1 ? 999 : aIndex` for
`aIndex = locationOrder.indexOf(a)`. -/
def locationRank (a : String) : Int :=
  if a ∈ locationOrder then (locationOrder.indexOf a : Int) else 999

/-- The comparator passed to `sort` for the locations. -/
def compareLocations (a b : String) : Int :=
  locationRank a - locationRank b

/-- The expression `location.charAt(0).toUpperCase() + location.slice(1)`,
with `toUpperCase` on the letters `a`-`z`. -/
def capitalize (location : String) : String :=
  match location.data with
  | [] => ""
  | c :: cs => String.mk (c.toUpper :: cs)

/-- The function `renderStoreSection`, with the markup reduced to its
content.  The parameter `localeCompare` stands for the method
`String.prototype.localeCompare` of the host. -/
def renderStoreSection (localeCompare : String → String → Int) (storeName : String)
    (items : List GroceryItem) (isBestStore : Bool) : StoreSection :=
  let locationGroups := groupByLocation items
  let sortedLocations := sortBy compareLocations (objectKeys locationGroups)
  { storeName := storeName, isBestStore := isBestStore, itemCount := items.length,
    locationGroups := sortedLocations.map fun location =>
      let locationItems := (locationGroups.lookup location).getD []
      { location := location, locationName := capitalize location,
        items := sortBy (fun a b => localeCompare a.name b.name) locationItems } }

/-- The body of the loop "Group by store"; the pair is
`(storeGroups, noStoreItems)`. -/
def groupStep (acc : List (String × List GroceryItem) × List GroceryItem)
    (item : GroceryItem) : List (String × List GroceryItem) × List GroceryItem :=
  match item.stores with
  | some (store :: stores) =>
    ((store :: stores).foldl (fun storeGroups store => pushTo store item storeGroups) acc.1,
      acc.2)
  | _ => (acc.1, acc.2 ++ [item])

/-- The object `storeGroups` after the loop "Group by store". -/
def storeGroupsOf (groceryList : List (String × GroceryItem)) :
    List (String × List GroceryItem) :=
  ((objectValues groceryList).foldl groupStep ([], [])).1

/-- The array `noStoreItems` after the loop "Group by store". -/
def noStoreItemsOf (groceryList : List (String × GroceryItem)) : List GroceryItem :=
  ((objectValues groceryList).foldl groupStep ([], [])).2

/-- The body of the loop "Find the best store"; the pair is
`(bestStore, maxItems)`. -/
def bestStep (acc : String × Nat) (entry : String × List GroceryItem) : String × Nat :=
  if entry.2.length > acc.2 then (entry.1, entry.2.length) else acc

/-- The variable `bestStore` after the loop "Find the best store". -/
def bestStoreOf (storeGroups : List (String × List GroceryItem)) : String :=
  ((objectEntries storeGroups).foldl bestStep ("", 0)).1

/-- The function `displayGroceryList`: the store sections in the order in
which they are appended to `listHTML`. -/
def displayGroceryList (localeCompare : String → String → Int)
    (groceryList : List (String × GroceryItem)) : List StoreSection :=
  let storeGroups := storeGroupsOf groceryList
  let noStoreItems := noStoreItemsOf groceryList
  let bestStore := bestStoreOf storeGroups
  (if bestStore ≠ "" then
      renderStoreSection localeCompare bestStore ((storeGroups.lookup bestStore).getD []) true
        :: ((objectEntries storeGroups).filter fun entry => entry.1 ≠ bestStore).map
            fun entry => renderStoreSection localeCompare entry.1 entry.2 false
    else [])
  ++ (if noStoreItems.length > 0 then
      [renderStoreSection localeCompare "Other Items" noStoreItems false]
    else [])

/-! ## Grocery list generation (`src/app.js` lines 716-771) -/

/-- A value of the object `groceryList` of `generateGroceryList`. -/
structure GroceryEntry where
  name : String
  quantities : List Quantity
  category : String
  location : Option String
  stores : Option (List String)
  isFrozen : Option Bool
  isRefrigerated : Option Bool
  deriving DecidableEq

/-- The array of meal types that `generateGroceryList` loops over. -/
def mealTypes : List String := ["breakfast", "lunch", "dinner", "snack"]

/-- The body of `meal.ingredients.forEach`: the entry of the lower-cased name
is created on first sight, from the directory information of the spelling at
hand, and the quantity is pushed onto it. -/
def collectIngredient (toLowerCase : String → String)
    (ingredientDirectory : List IngredientEntry)
    (groceryList : List (String × GroceryEntry)) (ing : MealIngredient) :
    List (String × GroceryEntry) :=
  let key := toLowerCase ing.name
  let groceryList :=
    if (groceryList.lookup key).isNone then
      let ingredientInfo := (getIngredientInfo toLowerCase ingredientDirectory ing.name).1
      groceryList ++
        [(key, { name := ing.name, quantities := [], category := ingredientInfo.category,
                 location := ingredientInfo.location, stores := ingredientInfo.stores,
                 isFrozen := ingredientInfo.isFrozen,
                 isRefrigerated := ingredientInfo.isRefrigerated })]
    else groceryList
  groceryList.map fun entry =>
    if entry.1 = key then
      (entry.1, { entry.2 with
        quantities := entry.2.quantities ++ [{ quantity := ing.quantity, unit := ing.unit }] })
    else entry

/-- The body of the loop over the meal types for one date key. -/
def collectSlot (toLowerCase : String → String) (ingredientDirectory : List IngredientEntry)
    (mealPlan : List (String × Meal)) (dateKey : String)
    (groceryList : List (String × GroceryEntry)) (mealType : String) :
    List (String × GroceryEntry) :=
  let slotKey := dateKey ++ "-" ++ mealType
  match mealPlan.lookup slotKey with
  | some meal =>
    meal.ingredients.foldl (collectIngredient toLowerCase ingredientDirectory) groceryList
  | none => groceryList

/-- The object `groceryList` after the loop "Collect all ingredients from
meal plan".  The parameter `dateKey` gives the date key of day `i` of the
horizon, the string `currentDate.toISOString().split('T')[0]` that the host
computes from `currentWeekStart`. -/
def collectGroceryList (toLowerCase : String → String) (dateKey : Nat → String)
    (planDuration : Nat) (mealPlan : List (String × Meal))
    (ingredientDirectory : List IngredientEntry) : List (String × GroceryEntry) :=
  (List.range (planDuration * 7)).foldl
    (fun groceryList i =>
      mealTypes.foldl (collectSlot toLowerCase ingredientDirectory mealPlan (dateKey i))
        groceryList)
    []

/-- The item that the loop "Aggregate quantities" builds from an entry. -/
def aggregatedItem (numbers : NumberHost) (item : GroceryEntry) : GroceryItem :=
  { name := item.name, category := item.category, location := item.location,
    stores := item.stores, isFrozen := item.isFrozen, isRefrigerated := item.isRefrigerated,
    totalQuantity := aggregateQuantities numbers item.quantities }

/-- The object `aggregatedList` that `generateGroceryList` passes to
`displayGroceryList`. -/
def aggregatedListOf (numbers : NumberHost) (toLowerCase : String → String)
    (dateKey : Nat → String) (planDuration : Nat)
    (mealPlan : List (String × Meal)) (ingredientDirectory : List IngredientEntry) :
    List (String × GroceryItem) :=
  (objectValues
      (collectGroceryList toLowerCase dateKey planDuration mealPlan ingredientDirectory)).foldl
    (fun aggregatedList item => setKey item.name (aggregatedItem numbers item) aggregatedList)
    []

/-- The function `generateGroceryList`. -/
def generateGroceryList (numbers : NumberHost) (toLowerCase : String → String)
    (localeCompare : String → String → Int) (dateKey : Nat → String)
    (planDuration : Nat) (mealPlan : List (String × Meal))
    (ingredientDirectory : List IngredientEntry) : List StoreSection :=
  displayGroceryList localeCompare
    (aggregatedListOf numbers toLowerCase dateKey planDuration mealPlan ingredientDirectory)

/-! ## The ingredient directory (`src/app.js` lines 600-713) -/

/-- The fields of the ingredient form read by `addNewIngredient`. -/
structure IngredientForm where
  newIngredientName : String
  newIngredientCategory : String
  newIngredientUnit : String
  newIngredientLocation : String
  newIngredientStores : String
  newIngredientFrozen : Bool
  newIngredientRefrigerated : Bool
  deriving DecidableEq

/-- The function `addNewIngredient` on `ingredientDirectory`: the entry is
pushed unless an entry with exactly the same name exists. -/
def addNewIngredient (ingredientDirectory : List IngredientEntry) (form : IngredientForm) :
    List IngredientEntry :=
  let ingredient : IngredientEntry :=
    { name := form.newIngredientName, category := form.newIngredientCategory,
      defaultUnit := some form.newIngredientUnit,
      location := some form.newIngredientLocation,
      stores := some (parseTags form.newIngredientStores),
      isFrozen := some form.newIngredientFrozen,
      isRefrigerated := some form.newIngredientRefrigerated }
  if (ingredientDirectory.find? fun ing => ing.name == ingredient.name).isNone then
    ingredientDirectory ++ [ingredient]
  else ingredientDirectory

/-- The function `displayIngredientDirectory`: the entries of a sorted copy of
the directory, each with the index that its Edit and Delete buttons pass on.
The parameter `localeCompare` stands for the host method. -/
def displayIngredientDirectory (localeCompare : String → String → Int)
    (ingredientDirectory : List IngredientEntry) : List (IngredientEntry × Nat) :=
  let sortedIngredients := sortBy (fun a b => localeCompare a.name b.name) ingredientDirectory
  (sortedIngredients.enum).map fun p => (p.2, p.1)

/-- The function `deleteIngredient` on `ingredientDirectory`; `confirmed` is
the answer to the confirmation dialog. -/
def deleteIngredient (confirmed : Bool) (ingredientDirectory : List IngredientEntry)
    (index : Nat) : List IngredientEntry :=
  if confirmed then ingredientDirectory.eraseIdx index else ingredientDirectory

/-- The variable `mixedUnits` of `aggregateQuantities` at the test
`if (mixedUnits)`: whether the mixed-unit listing is returned.  The empty
sequence returns before the loop. -/
def mixedUnitsOf (numbers : NumberHost) (quantities : List Quantity) : Bool :=
  match quantities with
  | [] => false
  | first :: _ =>
    (quantities.foldl (sumStep numbers (findMeasurementType first.unit)) (0, false)).2

/-! ## Editing a stored meal (`src/app.js` lines 263-382 and 566-572) -/

/-- The values of the options of the unit select of an ingredient row
(`src/app.js` lines 351-376); the first option has the empty value. -/
def unitOptions : List String :=
  groups .weight ++ groups .volume ++ groups .count

/-- The function `addIngredientRow(existingIngredient)`: the row shows the
name and the `quantity` of the ingredient, and the unit when it is one of the
options of the select. -/
def addIngredientRow (existingIngredient : MealIngredient) : IngredientRow :=
  { name := existingIngredient.name, quantity := some existingIngredient.quantity,
    unit := if existingIngredient.unit ∈ unitOptions then existingIngredient.unit else "" }

/-- The branch `else if (existingMeal)` of `showMealModal`: the form as it is
populated from a stored meal. -/
def showMealModal (numbers : NumberHost) (existingMeal : Meal) : MealForm :=
  { mealName := existingMeal.name, mealType := existingMeal.type,
    prepTime := existingMeal.prepTime.getD "",
    defaultServings :=
      numbers.toString
        (if existingMeal.defaultServings = 0 then 4 else existingMeal.defaultServings),
    actualServings :=
      numbers.toString
        (if existingMeal.actualServings = 0 then 4 else existingMeal.actualServings),
    needsDefrost := existingMeal.needsDefrost, canPrepSunday := existingMeal.canPrepSunday,
    canPartialPrep := existingMeal.canPartialPrep,
    mealTags := String.intercalate ", " existingMeal.tags,
    recipeInstructions := existingMeal.instructions,
    ingredientRows := existingMeal.ingredients.map addIngredientRow }

/-- The function `editMeal`: the slot becomes the slot being edited and the
form is populated from its meal; there is no result when the slot holds no
meal. -/
def editMeal (numbers : NumberHost) (st : AppState) (slotKey : String) :
    Option (AppState × MealForm) :=
  match st.mealPlan.lookup slotKey with
  | some meal =>
    some ({ st with currentEditingSlot := some slotKey }, showMealModal numbers meal)
  | none => none

/-! ## Export and import (`src/app.js` lines 1015-1081) -/

/-- The module state with the planning horizon: `currentWeekStart` is the
time value of the date in milliseconds, `none` for an invalid date. -/
structure PlanState extends AppState where
  currentWeekStart : Option Int
  planDuration : Nat
  deriving DecidableEq

/-- The object `planData` that `saveMealPlan` serialises and that
`loadMealPlan` reads; a field is `none` when the document lacks it. -/
structure PlanData where
  mealPlan : Option (List (String × Meal))
  ingredientDirectory : Option (List IngredientEntry)
  weekStart : Option String
  planDuration : Option Nat
  deriving DecidableEq

/-- The date facilities of the host: `toISOString` on a valid time value,
`new Date(string)` (`none` for an invalid date) and the current time. -/
structure DateHost where
  toISOString : Int → String
  parse : String → Option Int
  now : Int

/-- The result of `JSON.parse` on the text of the file: a syntax error, the
value `null`, another value without properties (a number, a string, a
boolean), or an object.  On the text that `JSON.stringify` produces from an
object `planData` the result is that object: JSON represents strings, finite
numbers, booleans, `null`, arrays and objects exactly. -/
inductive ParsedJson where
  | syntaxError
  | null
  | primitive
  | object (planData : PlanData)
  deriving DecidableEq

/-- The alert that the import handler shows. -/
inductive ImportOutcome where
  | loaded
  | formatError
  deriving DecidableEq

/-- The function `saveMealPlan`: the object handed to `JSON.stringify`;
there is none when the week start is an invalid date, for which
`toISOString` throws. -/
def saveMealPlan (host : DateHost) (st : PlanState) : Option PlanData :=
  match st.currentWeekStart with
  | some t =>
    some { mealPlan := some st.mealPlan, ingredientDirectory := some st.ingredientDirectory,
           weekStart := some (host.toISOString t), planDuration := some st.planDuration }
  | none => none

/-- The statements of the `try` block of `loadMealPlan` after `JSON.parse`:
the four assignments, and then `saveToLocalStorage`, whose call of
`currentWeekStart.toISOString()` throws for an invalid date and is caught
as a format error. -/
def loadPlanData (host : DateHost) (st : PlanState) (planData : PlanData) :
    PlanState × ImportOutcome :=
  let mealPlan := planData.mealPlan.getD []
  let ingredientDirectory := planData.ingredientDirectory.getD []
  let currentWeekStart :=
    match planData.weekStart with
    | some weekStart => if weekStart = "" then some host.now else host.parse weekStart
    | none => some host.now
  let planDuration :=
    match planData.planDuration with
    | some n => if n = 0 then 1 else n
    | none => 1
  let st' : PlanState :=
    { st with mealPlan := mealPlan, ingredientDirectory := ingredientDirectory,
              currentWeekStart := currentWeekStart, planDuration := planDuration }
  match currentWeekStart with
  | some _ => (st', .loaded)
  | none => (st', .formatError)

/-- The handler `reader.onload` of `loadMealPlan`, applied to the result of
`JSON.parse`: a syntax error and the value `null` (whose property access
throws) are caught before any assignment; a value without properties reads
every field as missing. -/
def loadMealPlan (host : DateHost) (st : PlanState) (parsed : ParsedJson) :
    PlanState × ImportOutcome :=
  match parsed with
  | .syntaxError => (st, .formatError)
  | .null => (st, .formatError)
  | .primitive =>
    loadPlanData host st
      { mealPlan := none, ingredientDirectory := none, weekStart := none, planDuration := none }
  | .object planData => loadPlanData host st planData

/-! ## Specification-side quantities for the aggregator -/

/-- The factor the table `unitConversions` lists for a unit (0 for a unit
the table does not list). -/
def tableFactor (unit : String) : ℚ :=
  (unitConversions.lookup unit).getD 0

/-- The sum of quantity times table factor over all entries, the total in the
base unit of the family: the products are added up in input order, starting
from 0, with the product and the sum of the host. -/
def baseTotal (numbers : NumberHost) (quantities : List Quantity) : ℚ :=
  quantities.foldl (fun total q => numbers.add total (numbers.mul q.quantity (tableFactor q.unit)))
    0

/-- The listing returned on the mixed-unit path: every entry as
`<quantity> <unit>`, in input order, joined by `" + "`. -/
def mixedListing (numbers : NumberHost) (quantities : List Quantity) : String :=
  String.intercalate " + "
    (quantities.map fun q => numbers.toString q.quantity ++ " " ++ q.unit)

/-- A unit that none of the three family lists contains. -/
def unrecognised (unit : String) : Prop :=
  ∀ type : MeasurementType, unit ∉ groups type

instance decidableUnrecognised (unit : String) : Decidable (unrecognised unit) :=
  decidable_of_iff (unit ∉ groups .weight ∧ unit ∉ groups .volume ∧ unit ∉ groups .count)
    ⟨fun h type => by cases type <;> simp [h.1, h.2.1, h.2.2],
     fun h => ⟨h .weight, h .volume, h .count⟩⟩

/-- The factor of a count unit in the words of the specification: a dozen
is 12, every other count unit is 1. -/
def countFactor (unit : String) : ℚ :=
  if unit = "dozen" then 12 else 1

/-- The sum of quantity times count factor over all entries: the products
are added up in input order, starting from 0, with the product and the sum of
the host. -/
def countTotal (numbers : NumberHost) (quantities : List Quantity) : ℚ :=
  quantities.foldl (fun total q => numbers.add total (numbers.mul q.quantity (countFactor q.unit)))
    0

/-- The ingredient rows that `saveMeal` keeps, as entered: name, quantity and
unit of every row whose three fields are all filled in, in row order. -/
def enteredIngredients (rows : List IngredientRow) : List (String × ℚ × String) :=
  rows.filterMap fun row =>
    match row.quantity with
    | some value => if row.name ≠ "" ∧ row.unit ≠ "" then some (row.name, value, row.unit) else none
    | none => none

/-- The meal ingredient that one row contributes, if any. -/
def rowIngredient (numbers : NumberHost) (servingRatio : ℚ) (row : IngredientRow) :
    Option MealIngredient :=
  match row.quantity with
  | some value =>
    if row.name ≠ "" ∧ row.unit ≠ "" then
      some { name := row.name, quantity := numbers.mul value servingRatio, unit := row.unit,
             baseQuantity := value }
    else none
  | none => none

/-! ## Stand-ins for the host in evaluations

The concrete inputs below are evaluated with exact arithmetic and with the
decimal printing of the exact number.  They have small integer or short
decimal values: on them the sums, products and quotients of the host print
the same digits. -/

/-- Decimal digits of a natural number, most significant first. -/
def natToString (n : Nat) : String := Nat.repr n

/-- Fractional digits of `r` (with `0 ≤ r < 1`), at most `fuel` of them,
stopping as soon as the expansion terminates. -/
def fracDigits : Nat → ℚ → List Char
  | 0, _ => []
  | fuel + 1, r =>
    let d := ⌊r * 10⌋.toNat
    let r' := r * 10 - d
    Nat.digitChar d :: (if r' = 0 then [] else fracDigits fuel r')

/-- Decimal printing of a non-negative rational: the integer part, then, when
the value is not an integer, a point and the fractional digits, cut after
twenty of them. -/
def posToString (x : ℚ) : String :=
  let ip := ⌊x⌋.toNat
  let fr := x - ip
  if fr = 0 then natToString ip
  else natToString ip ++ "." ++ String.mk (fracDigits 20 fr)

/-- A stand-in for the conversion of a number to a string: the decimal
printing of the rational.  The host prints the same for an integer below
`10^21` and for a number with a short decimal expansion that it holds
exactly or to within its precision. -/
def exactToString (x : ℚ) : String :=
  if x < 0 then "-" ++ posToString (-x) else posToString x

/-- The digits of the integer `n`, padded with zeros to `f + 1` digits, with a
point before the last `f`. -/
def toFixedDigits (n f : Nat) : String :=
  let m := (natToString n).data
  if f = 0 then String.mk m
  else
    let m := if m.length ≤ f then List.replicate (f + 1 - m.length) '0' ++ m else m
    String.mk (m.take (m.length - f) ++ '.' :: m.drop (m.length - f))

/-- A stand-in for `toFixed`: the rational rounded to `f` decimals, half away
from zero.  The host rounds the number it holds, which differs from this at
a decimal tie that the host does not hold exactly. -/
def exactToFixed (x : ℚ) (f : Nat) : String :=
  let s := if x < 0 then "-" else ""
  let x := if x < 0 then -x else x
  if x ≥ 10 ^ 21 then s ++ posToString x
  else s ++ toFixedDigits ⌊x * 10 ^ f + 1 / 2⌋.toNat f

/-- A stand-in for the numbers of the host: exact sum, product and quotient,
and the two printing functions above. -/
def exactNumbers : NumberHost :=
  { add := fun x y => x + y, mul := fun x y => x * y, div := fun x y => x / y,
    toString := exactToString, toFixed := exactToFixed }

/-- A stand-in for `toLowerCase`: the letters `A`-`Z` are mapped, which is
what the host does on the ASCII names used below. -/
def asciiToLowerCase (s : String) : String :=
  String.mk (s.data.map Char.toLower)

/-- A stand-in for `toLowerCase` on names with the letter `É`: that letter
and the letters `A`-`Z` are mapped, as the host maps them. -/
def accentToLowerCase (s : String) : String :=
  String.mk (s.data.map fun c => if c = 'É' then 'é' else c.toLower)

/-! ## Sample inputs -/

/-- A state with an empty plan, directory and library, editing one slot. -/
def sampleState : AppState :=
  { mealPlan := [], ingredientDirectory := [], recipeLibrary := [],
    currentEditingSlot := some "2024-03-04-dinner" }

/-- A meal form with one row, 1 cup of rice, and the given contents of the
two servings fields. -/
def sampleForm (defaultServings actualServings : String) : MealForm :=
  { mealName := "Rice", mealType := "dinner", prepTime := "",
    defaultServings := defaultServings, actualServings := actualServings,
    needsDefrost := false, canPrepSunday := false, canPartialPrep := false,
    mealTags := "", recipeInstructions := "",
    ingredientRows := [{ name := "rice", quantity := some 1, unit := "cup" }] }

/-- A directory of two entries. -/
def sampleDirectory : List IngredientEntry :=
  [ { name := "Milk", category := "dairy", defaultUnit := some "gallon",
      location := some "dairy", stores := some ["Walmart"], isFrozen := none,
      isRefrigerated := some true },
    { name := "milk", category := "other", defaultUnit := some "cup", location := none,
      stores := none, isFrozen := none, isRefrigerated := none } ]

/-! ## Specification-side notions for the grocery list display -/

/-- The store names that an item lists: its `stores` array, empty when the
property is missing. -/
def storesOrEmpty (item : GroceryItem) : List String :=
  match item.stores with
  | some stores => stores
  | none => []

/-- The bucket of a key in an object of arrays, `obj[key]`, empty when the
key is absent. -/
def bucketOf {α : Type} (key : String) (obj : List (String × List α)) : List α :=
  (obj.lookup key).getD []

/-- A stand-in for `localeCompare` in evaluations: comparison of the code
points, which orders the plain lower-case words used below as every
locale does. -/
def codePointCompare (a b : String) : Int :=
  if a < b then -1 else if a = b then 0 else 1

/-- A grocery item with the given name, location and stores. -/
def sampleItem (name : String) (location : Option String) (stores : Option (List String)) :
    GroceryItem :=
  { name := name, category := "other", location := location, stores := stores,
    isFrozen := none, isRefrigerated := none, totalQuantity := "1" }

/-- The aggregated list object holding the given items under their names. -/
def sampleList (items : List GroceryItem) : List (String × GroceryItem) :=
  items.map fun item => (item.name, item)

/-- An aggregated list of four items over the stores `A` and `B`. -/
def sampleGroceryList : List (String × GroceryItem) :=
  sampleList
    [ sampleItem "milk" (some "dairy") (some ["B", "A"]),
      sampleItem "apple" (some "produce") (some ["A"]),
      sampleItem "salt" none none,
      sampleItem "bread" (some "bakery") (some ["A", "B"]) ]

/-- The distinct members of a list in the order of their first occurrence:
the order in which keys are first encountered. -/
def firstOccurrences : List String → List String
  | [] => []
  | a :: l => a :: (firstOccurrences l).filter fun b => b ≠ a

/-- Adding a key to a list of distinct keys: a new key goes last. -/
def addKey (keys : List String) (key : String) : List String :=
  if key ∈ keys then keys else keys ++ [key]

/-- Five items of one store: two canonical locations, two unknown ones and a
missing one. -/
def sampleStoreItems : List GroceryItem :=
  [ sampleItem "milk" (some "dairy") (some ["A"]),
    sampleItem "nuts" (some "bulk") (some ["A"]),
    sampleItem "apple" (some "produce") (some ["A"]),
    sampleItem "salt" none (some ["A"]),
    sampleItem "wine" (some "cellar") (some ["A"]),
    sampleItem "cheese" (some "dairy") (some ["A"]),
    sampleItem "butter" (some "dairy") (some ["A"]) ]

/-! ## Specification-side notions for the grocery list generation -/

/-- All ingredient occurrences of the horizon: day by day, within a day in
the order breakfast, lunch, dinner, snack, within a meal in ingredient
order. -/
def horizonIngredients (dateKey : Nat → String) (planDuration : Nat)
    (mealPlan : List (String × Meal)) : List MealIngredient :=
  (List.range (planDuration * 7)).flatMap fun i =>
    mealTypes.flatMap fun mealType =>
      match mealPlan.lookup (dateKey i ++ "-" ++ mealType) with
      | some meal => meal.ingredients
      | none => []

/-- The occurrences of one lower-cased name, in order. -/
def occurrencesOf (toLowerCase : String → String) (occurrences : List MealIngredient)
    (key : String) : List MealIngredient :=
  occurrences.filter fun ing => toLowerCase ing.name = key

/-- The spelling of the first occurrence of a lower-cased name. -/
def firstSpelling (toLowerCase : String → String) (occurrences : List MealIngredient)
    (key : String) : String :=
  match occurrences.find? fun ing => toLowerCase ing.name = key with
  | some ing => ing.name
  | none => ""

/-- The entry expected for a lower-cased name: the first spelling, the
directory information looked up under that spelling, and the quantities of
all occurrences in order. -/
def expectedEntry (toLowerCase : String → String) (ingredientDirectory : List IngredientEntry)
    (occurrences : List MealIngredient) (key : String) : GroceryEntry :=
  let ingredientInfo :=
    (getIngredientInfo toLowerCase ingredientDirectory
      (firstSpelling toLowerCase occurrences key)).1
  { name := firstSpelling toLowerCase occurrences key,
    quantities := (occurrencesOf toLowerCase occurrences key).map fun ing =>
      { quantity := ing.quantity, unit := ing.unit },
    category := ingredientInfo.category, location := ingredientInfo.location,
    stores := ingredientInfo.stores, isFrozen := ingredientInfo.isFrozen,
    isRefrigerated := ingredientInfo.isRefrigerated }

/-- The aggregated item expected for a lower-cased name: the first spelling
with the total of all occurrences. -/
def expectedItem (numbers : NumberHost) (toLowerCase : String → String)
    (ingredientDirectory : List IngredientEntry)
    (occurrences : List MealIngredient) (key : String) : GroceryItem :=
  aggregatedItem numbers (expectedEntry toLowerCase ingredientDirectory occurrences key)

/-- A stand-in for the date keys of the horizon: day `i` has the key
`day<i>`. -/
def sampleDateKey (i : Nat) : String := "day" ++ natToString i

/-- A meal with the given name and ingredients `(name, quantity, unit)`,
saved with 4 default and 4 actual servings. -/
def sampleMeal (name : String) (ingredients : List (String × ℚ × String)) : Meal :=
  { name := name, type := "dinner", prepTime := none, defaultServings := 4,
    actualServings := 4, needsDefrost := false, canPrepSunday := false,
    canPartialPrep := false, tags := [], instructions := "",
    ingredients := ingredients.map fun p =>
      { name := p.1, quantity := p.2.1, unit := p.2.2, baseQuantity := p.2.1 } }

/-- A plan with two meals in the first week and one in the second. -/
def sampleMealPlan : List (String × Meal) :=
  [ ("day1-dinner", sampleMeal "Pancakes" [("Milk", 2, "cup"), ("flour", 500, "gram")]),
    ("day0-breakfast", sampleMeal "Porridge" [("milk", 1, "cup"), ("oats", 100, "gram")]),
    ("day9-lunch", sampleMeal "Soup" [("milk", 5, "cup")]) ]

/-- The directory property that names are a unique key when case is ignored. -/
def uniqueIgnoringCase (toLowerCase : String → String)
    (ingredientDirectory : List IngredientEntry) : Prop :=
  (ingredientDirectory.map fun ing => toLowerCase ing.name).Nodup

instance decidableUniqueIgnoringCase (toLowerCase : String → String)
    (ingredientDirectory : List IngredientEntry) :
    Decidable (uniqueIgnoringCase toLowerCase ingredientDirectory) :=
  inferInstanceAs (Decidable (List.Nodup _))

/-- An entry of the default directory of `loadFromLocalStorage`, which sets
no cold-chain flag to false. -/
def defaultIngredient (name category defaultUnit location : String) (stores : List String)
    (isFrozen isRefrigerated : Option Bool) : IngredientEntry :=
  { name := name, category := category, defaultUnit := some defaultUnit,
    location := some location, stores := some stores, isFrozen := isFrozen,
    isRefrigerated := isRefrigerated }

/-- The default directory of `loadFromLocalStorage` (`src/app.js` lines
1098-1119). -/
def defaultIngredients : List IngredientEntry :=
  [ defaultIngredient "Chicken Breast" "meat" "pound" "meat" ["Walmart", "King Soopers"] none none,
    defaultIngredient "Rice" "pantry" "cup" "pasta" ["Walmart", "King Soopers"] none none,
    defaultIngredient "Broccoli" "produce" "bunch" "produce" ["Walmart", "Whole Foods"] none none,
    defaultIngredient "Milk" "dairy" "cup" "dairy" ["Walmart", "King Soopers"] none (some true),
    defaultIngredient "Eggs" "dairy" "piece" "dairy" ["Walmart", "King Soopers"] none (some true),
    defaultIngredient "Bread" "bakery" "piece" "bakery" ["Walmart", "King Soopers"] none none,
    defaultIngredient "Olive Oil" "pantry" "tablespoon" "condiments" ["Walmart", "Whole Foods"]
      none none,
    defaultIngredient "Salt" "pantry" "teaspoon" "spices" ["Walmart", "King Soopers"] none none,
    defaultIngredient "Black Pepper" "pantry" "teaspoon" "spices" ["Walmart", "King Soopers"]
      none none,
    defaultIngredient "Garlic" "produce" "clove" "produce" ["Walmart", "Whole Foods"] none none,
    defaultIngredient "Frozen Peas" "frozen" "cup" "frozen" ["Walmart", "King Soopers"]
      (some true) none,
    defaultIngredient "Ground Beef" "meat" "pound" "meat" ["Walmart", "King Soopers"] none
      (some true),
    defaultIngredient "Pasta" "pantry" "package" "pasta" ["Walmart", "King Soopers"] none none,
    defaultIngredient "Tomato Sauce" "pantry" "can" "canned" ["Walmart", "King Soopers"] none
      none,
    defaultIngredient "Cheese" "dairy" "cup" "dairy" ["Walmart", "King Soopers"] none (some true),
    defaultIngredient "Yogurt" "dairy" "container" "dairy" ["Walmart", "Whole Foods"] none
      (some true),
    defaultIngredient "Bananas" "produce" "piece" "produce" ["Walmart", "King Soopers"] none none,
    defaultIngredient "Apples" "produce" "piece" "produce" ["Walmart", "Whole Foods"] none none,
    defaultIngredient "Spinach" "produce" "bunch" "produce" ["Walmart", "Whole Foods"] none none,
    defaultIngredient "Chicken Stock" "pantry" "cup" "canned" ["Walmart", "King Soopers"] none
      none ]

/-- A directory of two entries whose names differ in case only, in letters
outside ASCII. -/
def sampleAccentDirectory : List IngredientEntry :=
  [ defaultIngredient "ÉCLAIR" "bakery" "piece" "bakery" ["Walmart"] none none,
    defaultIngredient "éclair" "other" "piece" "" [] none none ]

/-- An ingredient form for the name `milk`. -/
def sampleIngredientForm : IngredientForm :=
  { newIngredientName := "milk", newIngredientCategory := "dairy", newIngredientUnit := "cup",
    newIngredientLocation := "dairy", newIngredientStores := "Walmart, Whole Foods",
    newIngredientFrozen := false, newIngredientRefrigerated := true }

/-- A stand-in for the date facilities of the host in evaluations: a time
value is written as `t` followed by its decimal digits, and only such strings
are dates. -/
def sampleDateHost : DateHost :=
  { toISOString := fun t => "t" ++ exactToString t,
    parse := fun s =>
      match s.data with
      | 't' :: digits => parseInt (String.mk digits)
      | _ => none,
    now := 1700000000000 }

/-- A state whose plan holds the first two sample meals, with the directory
of two entries, a valid week start and a horizon of two weeks. -/
def samplePlanState : PlanState :=
  { mealPlan := sampleMealPlan.take 2, ingredientDirectory := sampleDirectory,
    recipeLibrary := [], currentEditingSlot := none,
    currentWeekStart := some 1709510400000, planDuration := 2 }

/-! ## Lemmas on the aggregator -/

theorem findMeasurementType_of_mem (type : MeasurementType) :
    ∀ unit ∈ groups type, findMeasurementType unit = type := by
  cases type <;> decide

theorem conversionOrOne_of_mem (type : MeasurementType) :
    ∀ unit ∈ groups type, conversionOrOne unit = tableFactor unit := by
  cases type <;> decide!

theorem foldl_sumStep_snd (numbers : NumberHost) (type : MeasurementType) (qs : List Quantity)
    (acc : ℚ × Bool) :
    (qs.foldl (sumStep numbers type) acc).2
      = (acc.2 || qs.any fun q => !(groups type).contains q.unit) := by
  induction qs generalizing acc with
  | nil => simp
  | cons q qs ih =>
    rw [List.foldl_cons, ih]
    by_cases h : q.unit ∈ groups type
    · simp [sumStep, h]
    · simp [sumStep, h]

/-- Two factor tables that agree on the units of a sequence give the same
running total. -/
theorem foldl_factor_congr (numbers : NumberHost) (f g : String → ℚ) (qs : List Quantity)
    (h : ∀ q ∈ qs, f q.unit = g q.unit) (init : ℚ) :
    qs.foldl (fun total q => numbers.add total (numbers.mul q.quantity (f q.unit))) init
      = qs.foldl (fun total q => numbers.add total (numbers.mul q.quantity (g q.unit))) init := by
  induction qs generalizing init with
  | nil => rfl
  | cons q qs ih =>
    rw [List.foldl_cons, List.foldl_cons, h q (List.mem_cons_self _ _),
      ih (fun x hx => h x (List.mem_cons_of_mem _ hx))]

/-- On a sequence whose units all lie in the family, the loop adds up the
products with the table factors and leaves the flag as it is. -/
theorem foldl_sumStep_of_all_mem (numbers : NumberHost) (type : MeasurementType)
    (qs : List Quantity) (hall : ∀ q ∈ qs, q.unit ∈ groups type) (acc : ℚ × Bool) :
    qs.foldl (sumStep numbers type) acc
      = (qs.foldl
          (fun total q => numbers.add total (numbers.mul q.quantity (tableFactor q.unit)))
          acc.1, acc.2) := by
  induction qs generalizing acc with
  | nil => rfl
  | cons q qs ih =>
    have hq : q.unit ∈ groups type := hall q (List.mem_cons_self _ _)
    rw [List.foldl_cons, ih (fun x hx => hall x (List.mem_cons_of_mem _ hx)), List.foldl_cons]
    simp [sumStep, hq, conversionOrOne_of_mem type _ hq]

theorem foldl_sumStep_of_exists_not_mem (numbers : NumberHost) (type : MeasurementType)
    (qs : List Quantity) (hex : ∃ q ∈ qs, q.unit ∉ groups type) (acc : ℚ × Bool) :
    (qs.foldl (sumStep numbers type) acc).2 = true := by
  obtain ⟨q, hq, hnot⟩ := hex
  have hany : (qs.any fun q => !(groups type).contains q.unit) = true :=
    List.any_eq_true.mpr ⟨q, hq, by simpa using hnot⟩
  rw [foldl_sumStep_snd numbers, hany, Bool.or_true]

/-- The result on a sequence whose units all lie in one family `type`: the
rendering of that family applied to the base total. -/
theorem aggregateQuantities_of_all_mem (numbers : NumberHost) (type : MeasurementType)
    (first : Quantity) (rest : List Quantity)
    (hall : ∀ q ∈ first :: rest, q.unit ∈ groups type) :
    aggregateQuantities numbers (first :: rest) =
      (match type with
      | .weight =>
        if baseTotal numbers (first :: rest) ≥ 1000 then
          numbers.toFixed (numbers.div (baseTotal numbers (first :: rest)) 1000) 2 ++ " kg"
        else numbers.toFixed (baseTotal numbers (first :: rest)) 0 ++ " g"
      | .volume =>
        if baseTotal numbers (first :: rest) ≥ 1000 then
          numbers.toFixed (numbers.div (baseTotal numbers (first :: rest)) 1000) 2 ++ " L"
        else if baseTotal numbers (first :: rest) ≥ 250 then
          numbers.toFixed (numbers.div (baseTotal numbers (first :: rest)) 236.588) 2 ++ " cups"
        else numbers.toFixed (baseTotal numbers (first :: rest)) 0 ++ " ml"
      | .count =>
        if first.unit = "dozen" ∧ baseTotal numbers (first :: rest) ≥ 12 then
          if jsRem (baseTotal numbers (first :: rest)) 12 = 0 then
            numbers.toString (⌊numbers.div (baseTotal numbers (first :: rest)) 12⌋ : ℚ)
              ++ " dozen"
          else
            numbers.toString (⌊numbers.div (baseTotal numbers (first :: rest)) 12⌋ : ℚ)
              ++ " dozen + "
              ++ numbers.toString (jsRem (baseTotal numbers (first :: rest)) 12) ++ " pieces"
        else
          numbers.toString (baseTotal numbers (first :: rest)) ++ " " ++ first.unit
            ++ (if baseTotal numbers (first :: rest) ≠ 1 then "s" else "")) := by
  have hfirst : findMeasurementType first.unit = type :=
    findMeasurementType_of_mem type _ (hall first (List.mem_cons_self _ _))
  have hfold := foldl_sumStep_of_all_mem numbers type (first :: rest) hall (0, false)
  have htotal : (first :: rest).foldl
      (fun total q => numbers.add total (numbers.mul q.quantity (tableFactor q.unit))) 0
        = baseTotal numbers (first :: rest) := rfl
  unfold aggregateQuantities
  simp only [hfirst, hfold, htotal]
  cases type <;> simp

/-- The result on a sequence with an entry outside the family of the first
entry: the mixed listing. -/
theorem aggregateQuantities_of_exists_not_mem (numbers : NumberHost) (first : Quantity)
    (rest : List Quantity)
    (hex : ∃ q ∈ first :: rest, q.unit ∉ groups (findMeasurementType first.unit)) :
    aggregateQuantities numbers (first :: rest) = mixedListing numbers (first :: rest) := by
  have hfold := foldl_sumStep_of_exists_not_mem numbers (findMeasurementType first.unit)
    (first :: rest) hex (0, false)
  unfold aggregateQuantities
  simp only [hfold, if_true, mixedListing]

/-- For a dividend of at least 12 the remainder `total % 12` is the
mathematical one. -/
theorem jsRem_twelve (total : ℚ) (h : 12 ≤ total) :
    jsRem total 12 = total - 12 * (⌊total / 12⌋ : ℚ) := by
  have hq : ¬ total / 12 < 0 := by
    have h0 : (0 : ℚ) ≤ total := le_trans (by norm_num) h
    exact not_lt.mpr (div_nonneg h0 (by norm_num))
  simp [jsRem, hq]

theorem tableFactor_of_mem_count :
    ∀ unit ∈ groups .count, tableFactor unit = countFactor unit := by
  decide!

theorem baseTotal_eq_countTotal (numbers : NumberHost) (qs : List Quantity)
    (hall : ∀ q ∈ qs, q.unit ∈ groups .count) :
    baseTotal numbers qs = countTotal numbers qs :=
  foldl_factor_congr numbers tableFactor countFactor qs
    (fun q hq => tableFactor_of_mem_count q.unit (hall q hq)) 0

/-! ## The claims on `aggregateQuantities` -/

/-- C1: on a non-empty sequence whose units are all weight units, with `T`
the sum of quantity times conversion factor (in grams) as the host computes
it, the result is the quotient `T/1000` of the host printed by `toFixed(2)`
followed by `" kg"` when `T ≥ 1000`, and otherwise `T` printed by `toFixed(0)`
followed by `" g"`; 500 g and 600 g give `"1.10 kg"`. -/
theorem aggregateQuantities_weight (numbers : NumberHost) (qs : List Quantity) (hne : qs ≠ [])
    (hall : ∀ q ∈ qs, q.unit ∈ groups .weight) :
    aggregateQuantities numbers qs =
        (if baseTotal numbers qs ≥ 1000 then
          numbers.toFixed (numbers.div (baseTotal numbers qs) 1000) 2 ++ " kg"
         else numbers.toFixed (baseTotal numbers qs) 0 ++ " g")
      ∧ aggregateQuantities exactNumbers [⟨500, "gram"⟩, ⟨600, "gram"⟩] = "1.10 kg" := by
  refine ⟨?_, by decide!⟩
  cases qs with
  | nil => exact absurd rfl hne
  | cons first rest => exact aggregateQuantities_of_all_mem numbers .weight first rest hall

/-- The weight rule applied to 300 grams and 1 pound, 753.592 g in total. -/
theorem aggregateQuantities_weight_witness :
    ([⟨300, "gram"⟩, ⟨1, "pound"⟩] : List Quantity) ≠ []
      ∧ (∀ q ∈ ([⟨300, "gram"⟩, ⟨1, "pound"⟩] : List Quantity), q.unit ∈ groups .weight)
      ∧ aggregateQuantities exactNumbers [⟨300, "gram"⟩, ⟨1, "pound"⟩] = "754 g" :=
  ⟨by decide, by decide,
    (aggregateQuantities_weight exactNumbers [⟨300, "gram"⟩, ⟨1, "pound"⟩] (by decide)
      (by decide)).1.trans (by decide!)⟩

/-- C2: on a non-empty sequence whose units are all volume units, with `T`
the sum of quantity times conversion factor (in milliliters) as the host
computes it, the result is the quotient `T/1000` of the host by `toFixed(2)`
and `" L"` when `T ≥ 1000`, the quotient `T/236.588` of the host by
`toFixed(2)` and `" cups"` when `250 ≤ T < 1000`, and `T` by `toFixed(0)` and
`" ml"` when `T < 250`; 2 cups and 1 cup give `"3.00 cups"`. -/
theorem aggregateQuantities_volume (numbers : NumberHost) (qs : List Quantity) (hne : qs ≠ [])
    (hall : ∀ q ∈ qs, q.unit ∈ groups .volume) :
    (baseTotal numbers qs ≥ 1000 →
        aggregateQuantities numbers qs
          = numbers.toFixed (numbers.div (baseTotal numbers qs) 1000) 2 ++ " L")
      ∧ (250 ≤ baseTotal numbers qs → baseTotal numbers qs < 1000 →
        aggregateQuantities numbers qs
          = numbers.toFixed (numbers.div (baseTotal numbers qs) 236.588) 2 ++ " cups")
      ∧ (baseTotal numbers qs < 250 →
        aggregateQuantities numbers qs = numbers.toFixed (baseTotal numbers qs) 0 ++ " ml")
      ∧ aggregateQuantities exactNumbers [⟨2, "cup"⟩, ⟨1, "cup"⟩] = "3.00 cups" := by
  cases qs with
  | nil => exact absurd rfl hne
  | cons first rest =>
    have h := aggregateQuantities_of_all_mem numbers .volume first rest hall
    simp only at h
    refine ⟨fun h1 => ?_, fun h1 h2 => ?_, fun h1 => ?_, by decide!⟩
    · rw [h, if_pos h1]
    · rw [h, if_neg (not_le.mpr h2), if_pos h1]
    · rw [h, if_neg (not_le.mpr (lt_trans h1 (by norm_num))), if_neg (not_le.mpr h1)]

/-- The volume rule applied to 1 liter and 2 cups, 1473.176 ml in total. -/
theorem aggregateQuantities_volume_witness :
    ([⟨1, "liter"⟩, ⟨2, "cup"⟩] : List Quantity) ≠ []
      ∧ (∀ q ∈ ([⟨1, "liter"⟩, ⟨2, "cup"⟩] : List Quantity), q.unit ∈ groups .volume)
      ∧ baseTotal exactNumbers [⟨1, "liter"⟩, ⟨2, "cup"⟩] ≥ 1000
      ∧ aggregateQuantities exactNumbers [⟨1, "liter"⟩, ⟨2, "cup"⟩] = "1.47 L" :=
  ⟨by decide, by decide, by decide!,
    ((aggregateQuantities_volume exactNumbers [⟨1, "liter"⟩, ⟨2, "cup"⟩] (by decide)
      (by decide)).1 (by decide!)).trans (by decide!)⟩

/-- C3: on a non-empty sequence whose units are all count units, with `T` the
sum of quantity times factor (dozen 12, any other count unit 1) as the host
computes it and `u` the unit of the first entry: when `u` is `dozen` and
`T ≥ 12` the result is `<floor(T/12)> dozen` if `T mod 12 = 0` and
`<floor(T/12)> dozen + <T mod 12> pieces` otherwise, where the floor is taken
of the quotient of the host, the remainder `T mod 12` is exact, and each
number is printed by the host; in every other case it is `<T> <u>` with an
`s` appended exactly when `T ≠ 1`.  Two dozens give `"2 dozen"` and 13 pieces
give `"13 pieces"`. -/
theorem aggregateQuantities_count (numbers : NumberHost) (first : Quantity)
    (rest : List Quantity) (hall : ∀ q ∈ first :: rest, q.unit ∈ groups .count) :
    aggregateQuantities numbers (first :: rest) =
        (if first.unit = "dozen" ∧ countTotal numbers (first :: rest) ≥ 12 then
          if countTotal numbers (first :: rest)
              - 12 * (⌊countTotal numbers (first :: rest) / 12⌋ : ℚ) = 0 then
            numbers.toString (⌊numbers.div (countTotal numbers (first :: rest)) 12⌋ : ℚ)
              ++ " dozen"
          else
            numbers.toString (⌊numbers.div (countTotal numbers (first :: rest)) 12⌋ : ℚ)
              ++ " dozen + "
              ++ numbers.toString
                (countTotal numbers (first :: rest)
                  - 12 * (⌊countTotal numbers (first :: rest) / 12⌋ : ℚ))
              ++ " pieces"
        else
          numbers.toString (countTotal numbers (first :: rest)) ++ " " ++ first.unit
            ++ (if countTotal numbers (first :: rest) ≠ 1 then "s" else ""))
      ∧ aggregateQuantities exactNumbers [⟨1, "dozen"⟩, ⟨1, "dozen"⟩] = "2 dozen"
      ∧ aggregateQuantities exactNumbers [⟨13, "piece"⟩] = "13 pieces" := by
  refine ⟨?_, by decide!, by decide!⟩
  have h := aggregateQuantities_of_all_mem numbers .count first rest hall
  simp only at h
  rw [h, baseTotal_eq_countTotal numbers _ hall]
  by_cases hd : first.unit = "dozen" ∧ countTotal numbers (first :: rest) ≥ 12
  · rw [if_pos hd, if_pos hd, jsRem_twelve _ hd.2]
  · rw [if_neg hd, if_neg hd]

/-- The count rule applied to 1 dozen and 3 pieces, 15 in total. -/
theorem aggregateQuantities_count_witness :
    (∀ q ∈ ([⟨1, "dozen"⟩, ⟨3, "piece"⟩] : List Quantity), q.unit ∈ groups .count)
      ∧ aggregateQuantities exactNumbers [⟨1, "dozen"⟩, ⟨3, "piece"⟩]
          = "1 dozen + 3 pieces" :=
  ⟨by decide,
    (aggregateQuantities_count exactNumbers ⟨1, "dozen"⟩ [⟨3, "piece"⟩] (by decide)).1.trans
      (by decide!)⟩

/-- C4: on a non-empty sequence in which some entry has a unit outside the
family determined by the unit of the first entry, the result is the strings
`<quantity> <unit>` of all entries, in input order, joined by `" + "`, with no
conversion, each quantity printed by the host; 2 pieces and 3 grams give
`"2 piece + 3 gram"`. -/
theorem aggregateQuantities_mixed (numbers : NumberHost) (first : Quantity)
    (rest : List Quantity)
    (hex : ∃ q ∈ first :: rest, q.unit ∉ groups (findMeasurementType first.unit)) :
    aggregateQuantities numbers (first :: rest) =
        String.intercalate " + "
          ((first :: rest).map fun q => numbers.toString q.quantity ++ " " ++ q.unit)
      ∧ aggregateQuantities exactNumbers [⟨2, "piece"⟩, ⟨3, "gram"⟩]
          = "2 piece + 3 gram" :=
  ⟨aggregateQuantities_of_exists_not_mem numbers first rest hex, by decide!⟩

/-- The mixed listing for a kilogram, two cups and 500 grams. -/
theorem aggregateQuantities_mixed_witness :
    (∃ q ∈ ([⟨1, "kilogram"⟩, ⟨2, "cup"⟩, ⟨500, "gram"⟩] : List Quantity),
        q.unit ∉ groups (findMeasurementType "kilogram"))
      ∧ aggregateQuantities exactNumbers [⟨1, "kilogram"⟩, ⟨2, "cup"⟩, ⟨500, "gram"⟩]
          = "1 kilogram + 2 cup + 500 gram" :=
  ⟨by decide,
    (aggregateQuantities_mixed exactNumbers ⟨1, "kilogram"⟩ [⟨2, "cup"⟩, ⟨500, "gram"⟩]
      (by decide)).1.trans (by decide!)⟩

/-- C5, as stated, fails: an entry with an unrecognised unit is not added to
the rendered total with factor 1.  With 2 grams and 3 of the unknown unit
`pinch` the result is the listing, not the total 5 g; a lone entry of 2
`pinch` is listed as `"2 pinch"`, not rendered as a count total. -/
theorem aggregateQuantities_unrecognised_counterexample :
    unrecognised "pinch"
      ∧ aggregateQuantities exactNumbers [⟨2, "gram"⟩, ⟨3, "pinch"⟩] = "2 gram + 3 pinch"
      ∧ aggregateQuantities exactNumbers [⟨2, "gram"⟩, ⟨3, "pinch"⟩]
          ≠ exactToFixed (2 * 1 + 3 * 1) 0 ++ " g"
      ∧ aggregateQuantities exactNumbers [⟨2, "pinch"⟩] = "2 pinch"
      ∧ aggregateQuantities exactNumbers [⟨2, "pinch"⟩]
          ≠ exactToString (2 * 1) ++ " pinchs" := by
  decide!

/-- C5, amended: no entry is rejected, and a sequence containing an entry
whose unit is in none of the three family lists always takes the mixed-unit
path: the result lists every entry as `<quantity> <unit>`, unconverted, joined
by `" + "`; the unrecognised entry is never added to a total. -/
theorem aggregateQuantities_unrecognised (numbers : NumberHost) (qs : List Quantity)
    (hex : ∃ q ∈ qs, unrecognised q.unit) :
    aggregateQuantities numbers qs = mixedListing numbers qs := by
  cases qs with
  | nil =>
    obtain ⟨q, hq, _⟩ := hex
    exact absurd hq (List.not_mem_nil q)
  | cons first rest =>
    obtain ⟨q, hq, hun⟩ := hex
    exact aggregateQuantities_of_exists_not_mem numbers first rest ⟨q, hq, hun _⟩

/-- The listing for a cup and a handful, a unit of no family. -/
theorem aggregateQuantities_unrecognised_witness :
    (∃ q ∈ ([⟨1, "cup"⟩, ⟨1, "handful"⟩] : List Quantity), unrecognised q.unit)
      ∧ aggregateQuantities exactNumbers [⟨1, "cup"⟩, ⟨1, "handful"⟩]
          = "1 cup + 1 handful" :=
  ⟨by decide,
    (aggregateQuantities_unrecognised exactNumbers [⟨1, "cup"⟩, ⟨1, "handful"⟩]
      (by decide)).trans (by decide!)⟩

/-- C6, as stated, fails: 2 cans and 3 bags, two different count units other
than the pair dozen and piece, are added into the single total 5, rendered
under the unit of the first entry. -/
theorem aggregateQuantities_count_units_counterexample :
    "can" ∈ groups .count ∧ "bag" ∈ groups .count
      ∧ aggregateQuantities exactNumbers [⟨2, "can"⟩, ⟨3, "bag"⟩] = "5 cans"
      ∧ aggregateQuantities exactNumbers [⟨2, "can"⟩, ⟨3, "bag"⟩]
          = exactToString (2 + 3) ++ " cans" := by
  decide!

/-- C6, amended: count units form one family.  On a non-empty sequence whose
units are all count units and whose first unit is not `dozen`, the quantities
of all entries, whatever their count units, are added into one total (a dozen
counting 12, any other unit 1), which is rendered under the unit of the first
entry with an `s` appended when the total is not 1. -/
theorem aggregateQuantities_count_units_summed (numbers : NumberHost) (first : Quantity)
    (rest : List Quantity) (hall : ∀ q ∈ first :: rest, q.unit ∈ groups .count)
    (hfirst : first.unit ≠ "dozen") :
    aggregateQuantities numbers (first :: rest) =
      numbers.toString (countTotal numbers (first :: rest)) ++ " " ++ first.unit
        ++ (if countTotal numbers (first :: rest) ≠ 1 then "s" else "") := by
  have h := aggregateQuantities_of_all_mem numbers .count first rest hall
  simp only at h
  rw [h, baseTotal_eq_countTotal numbers _ hall, if_neg (fun hd => hfirst hd.1)]

/-- One jar, two boxes and a dozen are added to 15 and shown as jars. -/
theorem aggregateQuantities_count_units_summed_witness :
    (∀ q ∈ ([⟨1, "jar"⟩, ⟨2, "box"⟩, ⟨1, "dozen"⟩] : List Quantity), q.unit ∈ groups .count)
      ∧ "jar" ≠ "dozen"
      ∧ aggregateQuantities exactNumbers [⟨1, "jar"⟩, ⟨2, "box"⟩, ⟨1, "dozen"⟩]
          = "15 jars" :=
  ⟨by decide, by decide,
    (aggregateQuantities_count_units_summed exactNumbers ⟨1, "jar"⟩
      [⟨2, "box"⟩, ⟨1, "dozen"⟩] (by decide) (by decide)).trans (by decide!)⟩

/-! ## Lemmas on `saveMeal` and `getIngredientInfo` -/

theorem foldl_collectRow_fst (numbers : NumberHost) (servingRatio : ℚ)
    (rows : List IngredientRow) (acc : List MealIngredient × List IngredientEntry) :
    (rows.foldl (collectRow numbers servingRatio) acc).1
      = acc.1 ++ rows.filterMap (rowIngredient numbers servingRatio) := by
  induction rows generalizing acc with
  | nil => simp
  | cons row rows ih =>
    rw [List.foldl_cons, ih]
    cases hq : row.quantity with
    | none => simp [collectRow, rowIngredient, hq]
    | some value =>
      by_cases hf : row.name ≠ "" ∧ row.unit ≠ ""
      · simp [collectRow, rowIngredient, hq, hf]
      · simp [collectRow, rowIngredient, hq, hf]

theorem buildMeal_ingredients (numbers : NumberHost) (directory : List IngredientEntry)
    (form : MealForm) :
    (buildMeal numbers directory form).1.ingredients
      = form.ingredientRows.filterMap
          (rowIngredient numbers (numbers.div (parseIntOrFour form.actualServings : ℚ)
            (parseIntOrFour form.defaultServings : ℚ))) := by
  simp [buildMeal, foldl_collectRow_fst numbers]

theorem rowIngredient_scaled (numbers : NumberHost) (servingRatio : ℚ) (row : IngredientRow)
    (ing : MealIngredient) (h : rowIngredient numbers servingRatio row = some ing) :
    ing.quantity = numbers.mul ing.baseQuantity servingRatio := by
  unfold rowIngredient at h
  cases hq : row.quantity with
  | none => simp [hq] at h
  | some value =>
    rw [hq] at h
    by_cases hf : row.name ≠ "" ∧ row.unit ≠ ""
    · dsimp only at h
      rw [if_pos hf] at h
      injection h with h
      subst h
      rfl
    · simp [hf] at h

theorem map_rowIngredient (numbers : NumberHost) (servingRatio : ℚ) (rows : List IngredientRow) :
    (rows.filterMap (rowIngredient numbers servingRatio)).map
        (fun ing => (ing.name, ing.baseQuantity, ing.unit))
      = enteredIngredients rows := by
  induction rows with
  | nil => rfl
  | cons row rows ih =>
    cases hq : row.quantity with
    | none => simpa [enteredIngredients, rowIngredient, List.filterMap_cons, hq] using ih
    | some value =>
      by_cases hf : row.name ≠ "" ∧ row.unit ≠ ""
      · simpa [enteredIngredients, rowIngredient, List.filterMap_cons, hq, hf] using ih
      · simpa [enteredIngredients, rowIngredient, List.filterMap_cons, hq, hf] using ih

theorem lookup_setKey {α : Type} (key : String) (value : α) (l : List (String × α)) :
    (setKey key value l).lookup key = some value := by
  induction l with
  | nil => simp [setKey, List.lookup]
  | cons p l ih =>
    obtain ⟨k, v⟩ := p
    by_cases hk : k = key
    · simp [setKey, hk, List.lookup]
    · have hne : (key == k) = false := by simpa using fun h => hk h.symm
      simp [setKey, hk, List.lookup, hne, ih]

theorem saveMeal_lookup (numbers : NumberHost) (st : AppState) (form : MealForm) (slot : String)
    (hslot : st.currentEditingSlot = some slot) (hne : slot ≠ "") :
    (saveMeal numbers st form).mealPlan.lookup slot
      = some (buildMeal numbers st.ingredientDirectory form).1 := by
  simp [saveMeal, hslot, hne, lookup_setKey]

theorem buildMeal_scaled (numbers : NumberHost) (directory : List IngredientEntry)
    (form : MealForm) :
    ∀ ing ∈ (buildMeal numbers directory form).1.ingredients,
      ing.quantity = numbers.mul ing.baseQuantity
        (numbers.div ((buildMeal numbers directory form).1.actualServings : ℚ)
          ((buildMeal numbers directory form).1.defaultServings : ℚ)) := by
  intro ing hing
  rw [buildMeal_ingredients numbers, List.mem_filterMap] at hing
  obtain ⟨row, _, hrow⟩ := hing
  exact rowIngredient_scaled numbers _ row ing hrow

/-! ## The claims on `saveMeal` -/

/-- C7: the meal that `saveMeal` stores in the slot being edited has default
servings `d` and actual servings `a` read from the form, every stored
ingredient satisfies `quantity = baseQuantity * (a / d)`, the product and the
quotient being those that the host computes, and the stored names, base
quantities and units are those entered on the complete ingredient rows.  With
`d = 4` and `a = 8` the quantity of an ingredient is twice its base quantity,
on a host whose quotient of 8 by 4 is 2 and whose product of that base
quantity by 2 is its double, as they are in binary floating point. -/
theorem saveMeal_scales_ingredients (numbers : NumberHost) (st : AppState) (form : MealForm)
    (slot : String) (hslot : st.currentEditingSlot = some slot) (hne : slot ≠ "") :
    ∃ meal, (saveMeal numbers st form).mealPlan.lookup slot = some meal
      ∧ meal.defaultServings = parseIntOrFour form.defaultServings
      ∧ meal.actualServings = parseIntOrFour form.actualServings
      ∧ (∀ ing ∈ meal.ingredients,
          ing.quantity
            = numbers.mul ing.baseQuantity
                (numbers.div (meal.actualServings : ℚ) (meal.defaultServings : ℚ)))
      ∧ meal.ingredients.map (fun ing => (ing.name, ing.baseQuantity, ing.unit))
          = enteredIngredients form.ingredientRows
      ∧ (meal.defaultServings = 4 → meal.actualServings = 8 → numbers.div 8 4 = 2 →
          ∀ ing ∈ meal.ingredients, numbers.mul ing.baseQuantity 2 = 2 * ing.baseQuantity →
            ing.quantity = 2 * ing.baseQuantity) := by
  refine ⟨(buildMeal numbers st.ingredientDirectory form).1,
    saveMeal_lookup numbers st form slot hslot hne, rfl, rfl, buildMeal_scaled numbers _ form,
    ?_, ?_⟩
  · rw [buildMeal_ingredients numbers, map_rowIngredient numbers]
  · intro hd ha hdiv ing hing hmul
    rw [buildMeal_scaled numbers _ form ing hing, hd, ha]
    norm_num
    rw [hdiv, hmul]

/-- Saving the sample form, 1 cup of rice, with 4 default and 8 actual
servings stores 2 cups with base quantity 1. -/
theorem saveMeal_scales_ingredients_witness :
    sampleState.currentEditingSlot = some "2024-03-04-dinner" ∧ "2024-03-04-dinner" ≠ ""
      ∧ exactNumbers.div 8 4 = 2 ∧ exactNumbers.mul 1 2 = 2 * 1
      ∧ ((saveMeal exactNumbers sampleState (sampleForm "4" "8")).mealPlan.lookup
            "2024-03-04-dinner").map
          (fun meal => meal.ingredients.map fun ing => (ing.baseQuantity, ing.quantity))
          = some [(1, 2)]
      ∧ ∃ meal, (saveMeal exactNumbers sampleState (sampleForm "4" "8")).mealPlan.lookup
            "2024-03-04-dinner" = some meal
        ∧ meal.defaultServings = parseIntOrFour (sampleForm "4" "8").defaultServings
        ∧ meal.actualServings = parseIntOrFour (sampleForm "4" "8").actualServings
        ∧ (∀ ing ∈ meal.ingredients,
            ing.quantity
              = exactNumbers.mul ing.baseQuantity
                  (exactNumbers.div (meal.actualServings : ℚ) (meal.defaultServings : ℚ)))
        ∧ meal.ingredients.map (fun ing => (ing.name, ing.baseQuantity, ing.unit))
            = enteredIngredients (sampleForm "4" "8").ingredientRows
        ∧ (meal.defaultServings = 4 → meal.actualServings = 8 → exactNumbers.div 8 4 = 2 →
            ∀ ing ∈ meal.ingredients,
              exactNumbers.mul ing.baseQuantity 2 = 2 * ing.baseQuantity →
              ing.quantity = 2 * ing.baseQuantity) :=
  ⟨rfl, by decide, by decide!, by decide!, by decide!,
    saveMeal_scales_ingredients exactNumbers sampleState (sampleForm "4" "8")
      "2024-03-04-dinner" rfl (by decide)⟩

/-- C8, as stated, fails: with the default-servings field empty or `0` and 8
actual servings, 1 cup is stored as 2 cups (denominator 4), not 8; with the
field `-2` and 4 actual servings it is stored as -2 cups, a negative
quantity. -/
theorem saveMeal_default_servings_counterexample :
    ((saveMeal exactNumbers sampleState (sampleForm "" "8")).mealPlan.lookup
          "2024-03-04-dinner").map
        (fun meal => meal.ingredients.map fun ing => (ing.baseQuantity, ing.quantity))
        = some [(1, 2)]
      ∧ ((saveMeal exactNumbers sampleState (sampleForm "0" "8")).mealPlan.lookup
          "2024-03-04-dinner").map
        (fun meal => meal.ingredients.map fun ing => (ing.baseQuantity, ing.quantity))
        = some [(1, 2)]
      ∧ ((saveMeal exactNumbers sampleState (sampleForm "-2" "4")).mealPlan.lookup
          "2024-03-04-dinner").map
        (fun meal => meal.ingredients.map fun ing => (ing.baseQuantity, ing.quantity))
        = some [(1, -2)]
      ∧ (2 : ℚ) ≠ 1 * 8 ∧ (-2 : ℚ) < 0 := by
  decide!

/-- C8, amended: when the default-servings field is missing, not a number or
zero, the stored meal has default servings 4 and every quantity is
`baseQuantity * (actualServings / 4)`; when the field holds a negative integer
`n`, the stored meal has default servings `n` and every quantity is
`baseQuantity * (actualServings / n)`; the product and the quotient are those
that the host computes. -/
theorem saveMeal_default_servings (numbers : NumberHost) (st : AppState) (form : MealForm)
    (slot : String) (hslot : st.currentEditingSlot = some slot) (hne : slot ≠ "") :
    ∃ meal, (saveMeal numbers st form).mealPlan.lookup slot = some meal
      ∧ (parseInt form.defaultServings = none ∨ parseInt form.defaultServings = some 0 →
          meal.defaultServings = 4
            ∧ ∀ ing ∈ meal.ingredients,
                ing.quantity
                  = numbers.mul ing.baseQuantity (numbers.div (meal.actualServings : ℚ) 4))
      ∧ (∀ n : Int, parseInt form.defaultServings = some n → n < 0 →
          meal.defaultServings = n
            ∧ ∀ ing ∈ meal.ingredients,
                ing.quantity
                  = numbers.mul ing.baseQuantity
                      (numbers.div (meal.actualServings : ℚ) (n : ℚ))) := by
  refine ⟨(buildMeal numbers st.ingredientDirectory form).1,
    saveMeal_lookup numbers st form slot hslot hne, ?_, ?_⟩
  · intro h
    have hd : (buildMeal numbers st.ingredientDirectory form).1.defaultServings = 4 := by
      show parseIntOrFour form.defaultServings = 4
      rcases h with h | h <;> simp [parseIntOrFour, h]
    refine ⟨hd, fun ing hing => ?_⟩
    rw [buildMeal_scaled numbers _ form ing hing, hd]
    norm_num
  · intro n h hn
    have hd : (buildMeal numbers st.ingredientDirectory form).1.defaultServings = n := by
      show parseIntOrFour form.defaultServings = n
      simp [parseIntOrFour, h, ne_of_lt hn]
    refine ⟨hd, fun ing hing => ?_⟩
    rw [buildMeal_scaled numbers _ form ing hing, hd]

/-- Saving the sample form with an empty and with a negative default-servings field. -/
theorem saveMeal_default_servings_witness :
    sampleState.currentEditingSlot = some "2024-03-04-dinner" ∧ "2024-03-04-dinner" ≠ ""
      ∧ parseInt (sampleForm "" "8").defaultServings = none
      ∧ parseInt (sampleForm "-2" "4").defaultServings = some (-2)
      ∧ (∃ meal, (saveMeal exactNumbers sampleState (sampleForm "" "8")).mealPlan.lookup
            "2024-03-04-dinner" = some meal ∧ meal.defaultServings = 4)
      ∧ (∃ meal, (saveMeal exactNumbers sampleState (sampleForm "-2" "4")).mealPlan.lookup
            "2024-03-04-dinner" = some meal ∧ meal.defaultServings = -2) :=
  ⟨rfl, by decide, by decide, by decide,
    (saveMeal_default_servings exactNumbers sampleState (sampleForm "" "8")
      "2024-03-04-dinner" rfl (by decide)).imp
        fun _ h => ⟨h.1, (h.2.1 (Or.inl (by decide))).1⟩,
    (saveMeal_default_servings exactNumbers sampleState (sampleForm "-2" "4")
      "2024-03-04-dinner" rfl (by decide)).imp
        fun _ h => ⟨h.1, (h.2.2 (-2) (by decide) (by decide)).1⟩⟩

/-! ## The claims on `getIngredientInfo` -/

/-- C9: when no directory entry has a name equal to the query ignoring case,
that is after lower-casing both by the host, `getIngredientInfo` returns an
entry with the queried name, category `other`, empty location, empty stores,
`isFrozen` false and `isRefrigerated` false, and the directory is unchanged
(same entries, same order). -/
theorem getIngredientInfo_miss (toLowerCase : String → String)
    (directory : List IngredientEntry) (name : String)
    (hmiss : ∀ entry ∈ directory, toLowerCase entry.name ≠ toLowerCase name) :
    (getIngredientInfo toLowerCase directory name).1.name = name
      ∧ (getIngredientInfo toLowerCase directory name).1.category = "other"
      ∧ (getIngredientInfo toLowerCase directory name).1.location = some ""
      ∧ (getIngredientInfo toLowerCase directory name).1.stores = some []
      ∧ (getIngredientInfo toLowerCase directory name).1.isFrozen = some false
      ∧ (getIngredientInfo toLowerCase directory name).1.isRefrigerated = some false
      ∧ (getIngredientInfo toLowerCase directory name).2 = directory := by
  have hfind : directory.find? (fun ing => toLowerCase ing.name == toLowerCase name) = none := by
    rw [List.find?_eq_none]
    intro entry hentry
    simpa using hmiss entry hentry
  simp [getIngredientInfo, hfind]

/-- Looking up a name that the sample directory lacks. -/
theorem getIngredientInfo_miss_witness :
    (∀ entry ∈ sampleDirectory, asciiToLowerCase entry.name ≠ asciiToLowerCase "Oat Milk")
      ∧ (getIngredientInfo asciiToLowerCase sampleDirectory "Oat Milk").1.name = "Oat Milk"
      ∧ (getIngredientInfo asciiToLowerCase sampleDirectory "Oat Milk").1.category = "other"
      ∧ (getIngredientInfo asciiToLowerCase sampleDirectory "Oat Milk").1.location = some ""
      ∧ (getIngredientInfo asciiToLowerCase sampleDirectory "Oat Milk").1.stores = some []
      ∧ (getIngredientInfo asciiToLowerCase sampleDirectory "Oat Milk").1.isFrozen = some false
      ∧ (getIngredientInfo asciiToLowerCase sampleDirectory "Oat Milk").1.isRefrigerated
          = some false
      ∧ (getIngredientInfo asciiToLowerCase sampleDirectory "Oat Milk").2 = sampleDirectory :=
  ⟨by decide, getIngredientInfo_miss asciiToLowerCase sampleDirectory "Oat Milk" (by decide)⟩

/-- C10: when some directory entry has a name equal to the query after
lower-casing both, by whatever lower-casing the host performs,
`getIngredientInfo` returns the first such entry in directory order: the
directory splits as `before ++ entry :: after` where no entry of `before`
matches, `entry` matches and `entry` is the result.  In particular the result
is never an entry whose lower-cased name differs from the lower-cased
query. -/
theorem getIngredientInfo_hit (toLowerCase : String → String)
    (directory : List IngredientEntry) (name : String)
    (hhit : ∃ entry ∈ directory, toLowerCase entry.name = toLowerCase name) :
    ∃ before entry after, directory = before ++ entry :: after
      ∧ (∀ other ∈ before, toLowerCase other.name ≠ toLowerCase name)
      ∧ toLowerCase entry.name = toLowerCase name
      ∧ (getIngredientInfo toLowerCase directory name).1 = entry := by
  cases hfind : directory.find? (fun ing => toLowerCase ing.name == toLowerCase name) with
  | none =>
    obtain ⟨entry, hentry, hname⟩ := hhit
    rw [List.find?_eq_none] at hfind
    exact absurd (by simpa using hname) (hfind entry hentry)
  | some entry =>
    obtain ⟨hp, before, after, hsplit, hbefore⟩ := List.find?_eq_some.mp hfind
    refine ⟨before, entry, after, hsplit, fun other hother => ?_, by simpa using hp, ?_⟩
    · simpa using hbefore other hother
    · simp [getIngredientInfo, hfind]

/-- Looking up `MILK` in the sample directory returns its first entry, `Milk`;
looking up `éclair` in a directory that holds `ÉCLAIR` before `éclair` returns
the entry `ÉCLAIR`. -/
theorem getIngredientInfo_hit_witness :
    (∃ entry ∈ sampleDirectory, asciiToLowerCase entry.name = asciiToLowerCase "MILK")
      ∧ (getIngredientInfo asciiToLowerCase sampleDirectory "MILK").1.name = "Milk"
      ∧ (∃ entry ∈ sampleAccentDirectory,
          accentToLowerCase entry.name = accentToLowerCase "éclair")
      ∧ (getIngredientInfo accentToLowerCase sampleAccentDirectory "éclair").1.name = "ÉCLAIR"
      ∧ (∃ before entry after, sampleDirectory = before ++ entry :: after
        ∧ (∀ other ∈ before, asciiToLowerCase other.name ≠ asciiToLowerCase "MILK")
        ∧ asciiToLowerCase entry.name = asciiToLowerCase "MILK"
        ∧ (getIngredientInfo asciiToLowerCase sampleDirectory "MILK").1 = entry)
      ∧ ∃ before entry after, sampleAccentDirectory = before ++ entry :: after
        ∧ (∀ other ∈ before, accentToLowerCase other.name ≠ accentToLowerCase "éclair")
        ∧ accentToLowerCase entry.name = accentToLowerCase "éclair"
        ∧ (getIngredientInfo accentToLowerCase sampleAccentDirectory "éclair").1 = entry :=
  ⟨by decide, by decide, by decide, by decide,
    getIngredientInfo_hit asciiToLowerCase sampleDirectory "MILK" (by decide),
    getIngredientInfo_hit accentToLowerCase sampleAccentDirectory "éclair" (by decide)⟩

/-! ## Lemmas on the grocery list display -/

theorem bucketOf_pushTo {α : Type} (key key' : String) (item : α)
    (obj : List (String × List α)) :
    bucketOf key' (pushTo key item obj)
      = bucketOf key' obj ++ (if key' = key then [item] else []) := by
  induction obj with
  | nil =>
    by_cases h : key' = key
    · simp [pushTo, bucketOf, List.lookup, h]
    · have hb : (key' == key) = false := by simpa using h
      simp [pushTo, bucketOf, List.lookup, h, hb]
  | cons p obj ih =>
    obtain ⟨k, v⟩ := p
    unfold bucketOf at ih ⊢
    by_cases hk : k = key
    · by_cases h : key' = key
      · simp [pushTo, List.lookup, hk, h]
      · have hb : (key' == key) = false := by simpa using h
        simp [pushTo, List.lookup, hk, h, hb]
    · by_cases h' : key' = k
      · have hne : ¬ key' = key := fun h => hk (h' ▸ h)
        simp [pushTo, List.lookup, hk, h', hne]
      · have hb : (key' == k) = false := by simpa using h'
        simp only [pushTo, hk, if_false, List.lookup, hb]
        exact ih

theorem bucketOf_foldl_pushTo {α : Type} (key' : String) (item : α) (stores : List String)
    (obj : List (String × List α)) :
    bucketOf key' (stores.foldl (fun storeGroups store => pushTo store item storeGroups) obj)
      = bucketOf key' obj ++ List.replicate (stores.count key') item := by
  induction stores generalizing obj with
  | nil => simp
  | cons s stores ih =>
    rw [List.foldl_cons, ih, bucketOf_pushTo, List.count_cons]
    by_cases h : key' = s
    · subst h
      simp [List.replicate_succ']
      rw [← List.replicate_succ', List.replicate_succ]
    · have hs : (s == key') = false := by simpa using fun h' => h h'.symm
      simp [h, hs]

theorem groupStep_fst (key : String) (acc : List (String × List GroceryItem) × List GroceryItem)
    (item : GroceryItem) :
    bucketOf key (groupStep acc item).1
      = bucketOf key acc.1 ++ List.replicate ((storesOrEmpty item).count key) item := by
  unfold groupStep storesOrEmpty
  cases hs : item.stores with
  | none => simp
  | some stores =>
    cases stores with
    | nil => simp
    | cons store stores => exact bucketOf_foldl_pushTo key item (store :: stores) acc.1

theorem groupStep_snd (acc : List (String × List GroceryItem) × List GroceryItem)
    (item : GroceryItem) :
    (groupStep acc item).2 = acc.2 ++ (if storesOrEmpty item = [] then [item] else []) := by
  unfold groupStep storesOrEmpty
  cases hs : item.stores with
  | none => simp
  | some stores =>
    cases stores with
    | nil => simp
    | cons store stores => simp

theorem foldl_groupStep_fst (key : String) (items : List GroceryItem)
    (acc : List (String × List GroceryItem) × List GroceryItem) :
    bucketOf key (items.foldl groupStep acc).1
      = bucketOf key acc.1
        ++ items.flatMap fun item => List.replicate ((storesOrEmpty item).count key) item := by
  induction items generalizing acc with
  | nil => simp
  | cons item items ih =>
    rw [List.foldl_cons, ih, groupStep_fst, List.flatMap_cons, List.append_assoc]

theorem foldl_groupStep_snd (items : List GroceryItem)
    (acc : List (String × List GroceryItem) × List GroceryItem) :
    (items.foldl groupStep acc).2
      = acc.2 ++ items.filter fun item => storesOrEmpty item = [] := by
  induction items generalizing acc with
  | nil => simp
  | cons item items ih =>
    rw [List.foldl_cons, ih, groupStep_snd, List.append_assoc]
    by_cases h : storesOrEmpty item = []
    · simp [h]
    · simp [h]

theorem flatMap_replicate_count_of_nodup (key : String) (items : List GroceryItem)
    (hnodup : ∀ item ∈ items, (storesOrEmpty item).Nodup) :
    (items.flatMap fun item => List.replicate ((storesOrEmpty item).count key) item)
      = items.filter fun item => key ∈ storesOrEmpty item := by
  induction items with
  | nil => rfl
  | cons item items ih =>
    have hitem := hnodup item (List.mem_cons_self _ _)
    rw [List.flatMap_cons, ih (fun x hx => hnodup x (List.mem_cons_of_mem _ hx))]
    by_cases h : key ∈ storesOrEmpty item
    · rw [List.count_eq_one_of_mem hitem h]
      simp [h]
    · rw [List.count_eq_zero_of_not_mem h]
      simp [h]

/-! ## The claims on `displayGroceryList` -/

/-- C11, as stated, fails: an item whose stores list names the store `A`
twice is added twice to the bucket of `A`, and the section of `A` counts two
items. -/
theorem displayGroceryList_partition_counterexample :
    bucketOf "A" (storeGroupsOf (sampleList [sampleItem "rice" none (some ["A", "A"])]))
        = [sampleItem "rice" none (some ["A", "A"]), sampleItem "rice" none (some ["A", "A"])]
      ∧ (displayGroceryList codePointCompare
          (sampleList [sampleItem "rice" none (some ["A", "A"])])).map
            (fun sec => (sec.storeName, sec.itemCount)) = [("A", 2)] := by
  decide!

/-- C11, amended: for a collection in which no item lists a store named like
a member of `Object.prototype` (for such a name the loop throws), scanning the
items in the order of `Object.values`, each item is added to the bucket of
each store once per occurrence of that store in its stores list, hence exactly
once to the bucket of each store it lists when no stores list repeats a name,
and to no other bucket; the items whose stores list is empty or missing, and
no others, are added once to the no-store bucket.  The hypothesis confines
the statement to the collections on which `pushTo` gives the statements of
the source. -/
theorem displayGroceryList_partition (groceryList : List (String × GroceryItem))
    (store : String)
    (_hown : ∀ item ∈ objectValues groceryList, ∀ name ∈ storesOrEmpty item,
      name ∉ objectPrototypeKeys) :
    bucketOf store (storeGroupsOf groceryList)
        = (objectValues groceryList).flatMap
            (fun item => List.replicate ((storesOrEmpty item).count store) item)
      ∧ ((∀ item ∈ objectValues groceryList, (storesOrEmpty item).Nodup) →
          bucketOf store (storeGroupsOf groceryList)
            = (objectValues groceryList).filter fun item => store ∈ storesOrEmpty item)
      ∧ noStoreItemsOf groceryList
          = (objectValues groceryList).filter fun item => storesOrEmpty item = [] := by
  have h1 := foldl_groupStep_fst store (objectValues groceryList) ([], [])
  have h2 := foldl_groupStep_snd (objectValues groceryList) ([], [])
  refine ⟨?_, fun hnodup => ?_, ?_⟩
  · simpa [storeGroupsOf, bucketOf] using h1
  · rw [← flatMap_replicate_count_of_nodup store _ hnodup]
    simpa [storeGroupsOf, bucketOf] using h1
  · simpa [noStoreItemsOf] using h2

/-- The three parts of the partition on the sample list: the bucket of `A`
holds the three items listing `A`, the no-store bucket holds the salt. -/
theorem displayGroceryList_partition_witness :
    (∀ item ∈ objectValues sampleGroceryList, ∀ name ∈ storesOrEmpty item,
        name ∉ objectPrototypeKeys)
      ∧ (∀ item ∈ objectValues sampleGroceryList, (storesOrEmpty item).Nodup)
      ∧ bucketOf "A" (storeGroupsOf sampleGroceryList)
          = [sampleItem "milk" (some "dairy") (some ["B", "A"]),
             sampleItem "apple" (some "produce") (some ["A"]),
             sampleItem "bread" (some "bakery") (some ["A", "B"])]
      ∧ noStoreItemsOf sampleGroceryList = [sampleItem "salt" none none] :=
  ⟨by decide!, by decide!,
    ((displayGroceryList_partition sampleGroceryList "A" (by decide!)).2.1 (by decide!)).trans
      (by decide!),
    (displayGroceryList_partition sampleGroceryList "A" (by decide!)).2.2.trans (by decide!)⟩

/-! ## Lemmas on objects and on the choice of the best store -/

theorem objectEntries_perm {α : Type} (obj : List (String × α)) :
    (objectEntries obj).Perm obj := by
  unfold objectEntries
  refine ((List.perm_insertionSort _ _).append_right _).trans ?_
  have h := List.filter_append_perm (fun p : String × α => (arrayIndex? p.1).isSome) obj
  have hnot : (fun p : String × α => !(arrayIndex? p.1).isSome)
      = fun p : String × α => (arrayIndex? p.1).isNone := by
    funext p
    cases arrayIndex? p.1 <;> simp
  rw [hnot] at h
  exact h

theorem mem_objectEntries {α : Type} (obj : List (String × α)) (entry : String × α) :
    entry ∈ objectEntries obj ↔ entry ∈ obj :=
  (objectEntries_perm obj).mem_iff

theorem objectEntries_eq_self {α : Type} (obj : List (String × α))
    (h : ∀ entry ∈ obj, arrayIndex? entry.1 = none) : objectEntries obj = obj := by
  unfold objectEntries
  have h1 : obj.filter (fun p => (arrayIndex? p.1).isSome) = [] := by
    rw [List.filter_eq_nil_iff]
    intro p hp
    simp [h p hp]
  have h2 : obj.filter (fun p => (arrayIndex? p.1).isNone) = obj := by
    rw [List.filter_eq_self]
    intro p hp
    simp [h p hp]
  rw [h1, h2]
  rfl

theorem keys_pushTo {α : Type} (key : String) (item : α) (obj : List (String × List α)) :
    (pushTo key item obj).map Prod.fst
      = if key ∈ obj.map Prod.fst then obj.map Prod.fst else obj.map Prod.fst ++ [key] := by
  induction obj with
  | nil => simp [pushTo]
  | cons p obj ih =>
    obtain ⟨k, v⟩ := p
    by_cases hk : k = key
    · simp [pushTo, hk]
    · have hk' : ¬ key = k := fun h => hk h.symm
      by_cases hmem : key ∈ obj.map Prod.fst
      · simp only [pushTo, hk, if_false, List.map_cons, ih, hmem, if_true, List.mem_cons, or_true]
      · simp only [pushTo, hk, if_false, List.map_cons, ih, hmem, List.mem_cons, hk', or_self,
          List.cons_append]

theorem lookup_of_mem_of_nodup {α : Type} (obj : List (String × α))
    (hnodup : (obj.map Prod.fst).Nodup) (key : String) (value : α) (hmem : (key, value) ∈ obj) :
    obj.lookup key = some value := by
  induction obj with
  | nil => exact absurd hmem (List.not_mem_nil _)
  | cons p obj ih =>
    obtain ⟨k, v⟩ := p
    rw [List.map_cons, List.nodup_cons] at hnodup
    rcases List.mem_cons.mp hmem with h | h
    · injection h with h1 h2
      subst h1 h2
      simp [List.lookup]
    · have hne : ¬ key = k := by
        intro hk
        have hfst := List.mem_map_of_mem Prod.fst h
        exact hnodup.1 (by simpa [hk] using hfst)
      have hb : (key == k) = false := by simpa using hne
      simp only [List.lookup, hb]
      exact ih hnodup.2 h

theorem mem_of_lookup {α : Type} (obj : List (String × α)) (key : String) (value : α)
    (h : obj.lookup key = some value) : (key, value) ∈ obj := by
  induction obj with
  | nil => simp [List.lookup] at h
  | cons p obj ih =>
    obtain ⟨k, v⟩ := p
    by_cases hk : key = k
    · subst hk
      simp [List.lookup] at h
      simp [h]
    · have hb : (key == k) = false := by simpa using hk
      simp only [List.lookup, hb] at h
      exact List.mem_cons_of_mem _ (ih h)

/-- The loop "Find the best store" picks the first entry, in the order of the
loop, among those of greatest length, provided some entry is longer than the
initial maximum. -/
theorem foldl_bestStep (entries : List (String × List GroceryItem)) (acc : String × Nat)
    (hex : ∃ entry ∈ entries, acc.2 < entry.2.length) :
    ∃ before best after, entries = before ++ best :: after
      ∧ entries.foldl bestStep acc = (best.1, best.2.length)
      ∧ acc.2 < best.2.length
      ∧ (∀ entry ∈ before, entry.2.length < best.2.length)
      ∧ (∀ entry ∈ after, entry.2.length ≤ best.2.length) := by
  induction entries generalizing acc with
  | nil =>
    obtain ⟨entry, hmem, _⟩ := hex
    exact absurd hmem (List.not_mem_nil _)
  | cons e entries ih =>
    by_cases hrest : ∃ entry ∈ entries, (bestStep acc e).2 < entry.2.length
    · obtain ⟨before, best, after, hsplit, hfold, hlt, hbefore, hafter⟩ :=
        ih (bestStep acc e) hrest
      refine ⟨e :: before, best, after, by rw [hsplit]; rfl, by rw [List.foldl_cons, hfold],
        ?_, ?_, hafter⟩
      · unfold bestStep at hlt
        split at hlt
        · exact lt_trans ‹_› hlt
        · exact hlt
      · intro entry hentry
        rcases List.mem_cons.mp hentry with h | h
        · subst h
          unfold bestStep at hlt
          split at hlt
          · exact hlt
          · exact lt_of_le_of_lt (not_lt.mp ‹_›) hlt
        · exact hbefore entry h
    · have hall : ∀ entry ∈ entries, entry.2.length ≤ (bestStep acc e).2 := by
        intro entry hentry
        exact not_lt.mp fun h => hrest ⟨entry, hentry, h⟩
      have hstay : ∀ (l : List (String × List GroceryItem)) (a : String × Nat),
          (∀ entry ∈ l, entry.2.length ≤ a.2) → l.foldl bestStep a = a := by
        intro l
        induction l with
        | nil => intro a _; rfl
        | cons x l ihl =>
          intro a ha
          have hx : ¬ x.2.length > a.2 := not_lt.mpr (ha x (List.mem_cons_self _ _))
          rw [List.foldl_cons]
          simp only [bestStep, hx, if_false]
          exact ihl a fun entry hentry => ha entry (List.mem_cons_of_mem _ hentry)
      have he : acc.2 < e.2.length := by
        obtain ⟨entry, hentry, hlt⟩ := hex
        rcases List.mem_cons.mp hentry with h | h
        · exact h ▸ hlt
        · by_contra hcon
          apply hrest
          refine ⟨entry, h, ?_⟩
          simp only [bestStep, hcon, if_false]
          exact hlt
      have hstep : bestStep acc e = (e.1, e.2.length) := by
        simp only [bestStep, gt_iff_lt, he, if_true]
      refine ⟨[], e, entries, rfl, ?_, he, fun _ h => absurd h (List.not_mem_nil _), ?_⟩
      · rw [List.foldl_cons, hstay entries _ hall, hstep]
      · intro entry hentry
        have := hall entry hentry
        rw [hstep] at this
        exact this

theorem mem_firstOccurrences (l : List String) (a : String) :
    a ∈ firstOccurrences l ↔ a ∈ l := by
  induction l with
  | nil => simp [firstOccurrences]
  | cons b l ih =>
    by_cases h : a = b
    · simp [firstOccurrences, h]
    · simp [firstOccurrences, h, ih]

theorem nodup_firstOccurrences (l : List String) : (firstOccurrences l).Nodup := by
  induction l with
  | nil => simp [firstOccurrences]
  | cons b l ih =>
    rw [firstOccurrences, List.nodup_cons]
    exact ⟨by simp, ih.filter _⟩

theorem foldl_addKey (l keys : List String) :
    l.foldl addKey keys = keys ++ (firstOccurrences l).filter fun b => b ∉ keys := by
  induction l generalizing keys with
  | nil => simp [firstOccurrences]
  | cons a l ih =>
    rw [List.foldl_cons, ih]
    by_cases h : a ∈ keys
    · have hfilter : ((firstOccurrences l).filter fun b => b ≠ a).filter (fun b => b ∉ keys)
          = (firstOccurrences l).filter fun b => b ∉ keys := by
        rw [List.filter_filter]
        apply List.filter_congr
        intro b _
        by_cases hb : b ∈ keys
        · simp [hb]
        · have : b ≠ a := fun hba => hb (hba ▸ h)
          simp [hb, this]
      simp only [addKey, h, if_true, firstOccurrences, List.filter_cons, not_true_eq_false,
        decide_False, hfilter]
      simp
    · have hfilter : (firstOccurrences l).filter (fun b => b ∉ keys ++ [a])
          = ((firstOccurrences l).filter fun b => b ≠ a).filter fun b => b ∉ keys := by
        rw [List.filter_filter]
        apply List.filter_congr
        intro b _
        by_cases hb : b ∈ keys <;> by_cases hba : b = a <;> simp [hb, hba]
      simp only [addKey, h, if_false, firstOccurrences, List.filter_cons, not_false_eq_true,
        decide_True, if_true, hfilter]
      simp

theorem keys_foldl_pushTo {α : Type} (item : α) (stores : List String)
    (obj : List (String × List α)) :
    (stores.foldl (fun storeGroups store => pushTo store item storeGroups) obj).map Prod.fst
      = stores.foldl addKey (obj.map Prod.fst) := by
  induction stores generalizing obj with
  | nil => rfl
  | cons s stores ih =>
    rw [List.foldl_cons, ih, keys_pushTo, List.foldl_cons]
    rfl

theorem keys_groupStep (acc : List (String × List GroceryItem) × List GroceryItem)
    (item : GroceryItem) :
    (groupStep acc item).1.map Prod.fst
      = (storesOrEmpty item).foldl addKey (acc.1.map Prod.fst) := by
  unfold groupStep storesOrEmpty
  cases hs : item.stores with
  | none => rfl
  | some stores =>
    cases stores with
    | nil => rfl
    | cons store stores => exact keys_foldl_pushTo item (store :: stores) acc.1

theorem keys_foldl_groupStep (items : List GroceryItem)
    (acc : List (String × List GroceryItem) × List GroceryItem) :
    (items.foldl groupStep acc).1.map Prod.fst
      = (items.flatMap storesOrEmpty).foldl addKey (acc.1.map Prod.fst) := by
  induction items generalizing acc with
  | nil => rfl
  | cons item items ih =>
    rw [List.foldl_cons, ih, keys_groupStep, List.flatMap_cons, List.foldl_append]

/-- The keys of `storeGroups`, in the order of their creation, are the store
names in the order in which they are first encountered. -/
theorem keys_storeGroupsOf (groceryList : List (String × GroceryItem)) :
    (storeGroupsOf groceryList).map Prod.fst
      = firstOccurrences ((objectValues groceryList).flatMap storesOrEmpty) := by
  unfold storeGroupsOf
  rw [keys_foldl_groupStep, foldl_addKey]
  simp

theorem nodup_keys_storeGroupsOf (groceryList : List (String × GroceryItem)) :
    ((storeGroupsOf groceryList).map Prod.fst).Nodup := by
  rw [keys_storeGroupsOf]
  exact nodup_firstOccurrences _

theorem nodup_objectKeys {α : Type} (obj : List (String × α))
    (h : (obj.map Prod.fst).Nodup) : (objectKeys obj).Nodup :=
  (((objectEntries_perm obj).map Prod.fst).nodup_iff).mpr h

theorem bucketOf_storeGroupsOf (groceryList : List (String × GroceryItem)) (store : String) :
    bucketOf store (storeGroupsOf groceryList)
      = (objectValues groceryList).flatMap
          (fun item => List.replicate ((storesOrEmpty item).count store) item) := by
  have h := foldl_groupStep_fst store (objectValues groceryList) ([], [])
  simpa [storeGroupsOf, bucketOf] using h

theorem exists_entry_of_store (groceryList : List (String × GroceryItem))
    (hstore : ∃ item ∈ objectValues groceryList, storesOrEmpty item ≠ []) :
    ∃ entry ∈ objectEntries (storeGroupsOf groceryList), 0 < entry.2.length := by
  obtain ⟨item, hitem, hne⟩ := hstore
  obtain ⟨store, hstoreMem⟩ := List.exists_mem_of_ne_nil _ hne
  have hmem : item ∈ bucketOf store (storeGroupsOf groceryList) := by
    rw [bucketOf_storeGroupsOf, List.mem_flatMap]
    refine ⟨item, hitem, ?_⟩
    rw [List.mem_replicate]
    exact ⟨Nat.pos_iff_ne_zero.mp (List.count_pos_iff.mpr hstoreMem), rfl⟩
  unfold bucketOf at hmem
  cases hl : (storeGroupsOf groceryList).lookup store with
  | none => simp [hl] at hmem
  | some items =>
    rw [hl] at hmem
    refine ⟨(store, items), (mem_objectEntries _ _).mpr (mem_of_lookup _ _ _ hl), ?_⟩
    exact List.length_pos_of_mem hmem

theorem displayGroceryList_of_best (localeCompare : String → String → Int)
    (groceryList : List (String × GroceryItem))
    (hbest : bestStoreOf (storeGroupsOf groceryList) ≠ "") :
    displayGroceryList localeCompare groceryList
      = renderStoreSection localeCompare (bestStoreOf (storeGroupsOf groceryList))
          (bucketOf (bestStoreOf (storeGroupsOf groceryList)) (storeGroupsOf groceryList)) true
        :: (((objectEntries (storeGroupsOf groceryList)).filter
              fun entry => entry.1 ≠ bestStoreOf (storeGroupsOf groceryList)).map
              (fun entry => renderStoreSection localeCompare entry.1 entry.2 false)
            ++ (if (noStoreItemsOf groceryList).length > 0 then
                [renderStoreSection localeCompare "Other Items" (noStoreItemsOf groceryList)
                  false]
              else [])) := by
  unfold displayGroceryList
  simp only [hbest, ne_eq, not_false_eq_true, if_true, bucketOf, List.cons_append]

/-- C12, as stated, fails.  With one item at store `B` and then one at store
`1`, both buckets hold one item and `B` is discovered first, yet the best
store is `1`, because store names that are array indices are visited first.
With a store whose name is the empty string no store section is rendered at
all. -/
theorem displayGroceryList_best_store_counterexample :
    (storeGroupsOf (sampleList [sampleItem "bread" none (some ["B"]),
        sampleItem "milk" none (some ["1"])])).map Prod.fst = ["B", "1"]
      ∧ bestStoreOf (storeGroupsOf (sampleList [sampleItem "bread" none (some ["B"]),
          sampleItem "milk" none (some ["1"])])) = "1"
      ∧ (displayGroceryList codePointCompare (sampleList [sampleItem "bread" none (some ["B"]),
          sampleItem "milk" none (some ["1"])])).map
            (fun sec => (sec.storeName, sec.isBestStore)) = [("1", true), ("B", false)]
      ∧ displayGroceryList codePointCompare
          (sampleList [sampleItem "bread" none (some [""])]) = [] := by
  decide!

/-- C12, amended: when at least one item has a store, the best store is the
first entry, in the order of `Object.entries(storeGroups)`, among the buckets
of greatest item count: its count is greater than that of every bucket before
it and at least that of every bucket after it.  That order is the order of
discovery when no store name is an array index.  When the name of the best
store is not empty, its section is rendered first and is the only one flagged
as best.  With three items at `A` and two at `B`, `A` is best and first
whichever store is discovered first. -/
theorem displayGroceryList_best_store (localeCompare : String → String → Int)
    (groceryList : List (String × GroceryItem))
    (hstore : ∃ item ∈ objectValues groceryList, storesOrEmpty item ≠ []) :
    (∃ before bestItems after,
        objectEntries (storeGroupsOf groceryList)
          = before ++ (bestStoreOf (storeGroupsOf groceryList), bestItems) :: after
        ∧ 0 < bestItems.length
        ∧ (∀ entry ∈ before, entry.2.length < bestItems.length)
        ∧ (∀ entry ∈ after, entry.2.length ≤ bestItems.length)
        ∧ (bestStoreOf (storeGroupsOf groceryList) ≠ "" →
            ∃ rest, displayGroceryList localeCompare groceryList
                = renderStoreSection localeCompare (bestStoreOf (storeGroupsOf groceryList))
                    bestItems true :: rest
              ∧ ∀ sec ∈ rest, sec.isBestStore = false))
      ∧ ((∀ item ∈ objectValues groceryList, ∀ store ∈ storesOrEmpty item,
            arrayIndex? store = none) →
          (objectEntries (storeGroupsOf groceryList)).map Prod.fst
            = firstOccurrences ((objectValues groceryList).flatMap storesOrEmpty))
      ∧ (displayGroceryList codePointCompare
          (sampleList [sampleItem "a" none (some ["A", "B"]), sampleItem "b" none (some ["A", "B"]),
            sampleItem "c" none (some ["A"])])).map
            (fun sec => (sec.storeName, sec.isBestStore, sec.itemCount))
          = [("A", true, 3), ("B", false, 2)]
      ∧ (displayGroceryList codePointCompare
          (sampleList [sampleItem "a" none (some ["B", "A"]), sampleItem "b" none (some ["B", "A"]),
            sampleItem "c" none (some ["A"])])).map
            (fun sec => (sec.storeName, sec.isBestStore, sec.itemCount))
          = [("A", true, 3), ("B", false, 2)] := by
  refine ⟨?_, ?_, by decide!, by decide!⟩
  · obtain ⟨before, best, after, hsplit, hfold, hpos, hbefore, hafter⟩ :=
      foldl_bestStep (objectEntries (storeGroupsOf groceryList)) ("", 0)
        (exists_entry_of_store groceryList hstore)
    have hname : bestStoreOf (storeGroupsOf groceryList) = best.1 := by
      unfold bestStoreOf
      rw [hfold]
    refine ⟨before, best.2, after, by rw [hsplit, hname], hpos, hbefore, hafter, fun hne => ?_⟩
    have hmem : (best.1, best.2) ∈ storeGroupsOf groceryList := by
      apply (mem_objectEntries _ _).mp
      rw [hsplit]
      exact List.mem_append_right _ (List.mem_cons_self _ _)
    have hlookup := lookup_of_mem_of_nodup _ (nodup_keys_storeGroupsOf groceryList) _ _ hmem
    have hbucket : bucketOf (bestStoreOf (storeGroupsOf groceryList))
        (storeGroupsOf groceryList) = best.2 := by
      rw [hname]
      unfold bucketOf
      rw [hlookup]
      rfl
    refine ⟨_, by rw [displayGroceryList_of_best localeCompare groceryList hne, hbucket], ?_⟩
    intro sec hsec
    rcases List.mem_append.mp hsec with h | h
    · obtain ⟨entry, _, rfl⟩ := List.mem_map.mp h
      rfl
    · split at h
      · rw [List.mem_singleton.mp h]
        rfl
      · exact absurd h (List.not_mem_nil _)
  · intro hnone
    have hkeys := keys_storeGroupsOf groceryList
    rw [objectEntries_eq_self, hkeys]
    intro entry hentry
    have hfst : entry.1 ∈ (storeGroupsOf groceryList).map Prod.fst :=
      List.mem_map_of_mem Prod.fst hentry
    rw [hkeys, mem_firstOccurrences, List.mem_flatMap] at hfst
    obtain ⟨item, hitem, hs⟩ := hfst
    exact hnone item hitem _ hs

/-- The best store of the sample list is `A`, with three items, and its
section comes first. -/
theorem displayGroceryList_best_store_witness :
    (∃ item ∈ objectValues sampleGroceryList, storesOrEmpty item ≠ [])
      ∧ bestStoreOf (storeGroupsOf sampleGroceryList) = "A"
      ∧ ∃ before bestItems after,
          objectEntries (storeGroupsOf sampleGroceryList)
            = before ++ (bestStoreOf (storeGroupsOf sampleGroceryList), bestItems) :: after
          ∧ 0 < bestItems.length
          ∧ (∀ entry ∈ before, entry.2.length < bestItems.length)
          ∧ (∀ entry ∈ after, entry.2.length ≤ bestItems.length)
          ∧ (bestStoreOf (storeGroupsOf sampleGroceryList) ≠ "" →
              ∃ rest, displayGroceryList codePointCompare sampleGroceryList
                  = renderStoreSection codePointCompare
                      (bestStoreOf (storeGroupsOf sampleGroceryList)) bestItems true :: rest
                ∧ ∀ sec ∈ rest, sec.isBestStore = false) :=
  ⟨by decide!, by decide!,
    (displayGroceryList_best_store codePointCompare sampleGroceryList (by decide!)).1⟩

theorem noStoreItemsOf_eq (groceryList : List (String × GroceryItem)) :
    noStoreItemsOf groceryList
      = (objectValues groceryList).filter fun item => storesOrEmpty item = [] := by
  have h := foldl_groupStep_snd (objectValues groceryList) ([], [])
  simpa [noStoreItemsOf] using h

theorem storeGroupsOf_eq_nil (groceryList : List (String × GroceryItem))
    (hnone : ∀ item ∈ objectValues groceryList, storesOrEmpty item = []) :
    storeGroupsOf groceryList = [] := by
  have hkeys := keys_storeGroupsOf groceryList
  have hflat : (objectValues groceryList).flatMap storesOrEmpty = [] := by
    rw [List.flatMap_eq_nil_iff]
    exact hnone
  rw [hflat] at hkeys
  exact List.map_eq_nil_iff.mp hkeys

theorem objectKeys_filter_isNone {α : Type} (obj : List (String × α)) :
    (objectKeys obj).filter (fun key => (arrayIndex? key).isNone)
      = (obj.map Prod.fst).filter fun key => (arrayIndex? key).isNone := by
  unfold objectKeys objectEntries
  rw [List.map_append, List.filter_append]
  have h1 : List.filter (fun key => (arrayIndex? key).isNone)
      (((obj.filter fun p => (arrayIndex? p.1).isSome).insertionSort
        (fun p q => (arrayIndex? p.1).getD 0 ≤ (arrayIndex? q.1).getD 0)).map Prod.fst)
        = [] := by
    rw [List.filter_eq_nil_iff]
    intro key hkey
    obtain ⟨p, hp, rfl⟩ := List.mem_map.mp hkey
    have hp' := (List.mem_insertionSort _).mp hp
    have hsome := (List.mem_filter.mp hp').2
    cases h : arrayIndex? p.1 with
    | none => simp [h] at hsome
    | some n => simp
  rw [h1, List.nil_append, List.filter_map, List.filter_filter, List.filter_map]
  congr 1
  apply List.filter_congr
  intro p _
  simp

/-- C13, as stated, fails.  The stores are discovered in the order `B`, `A`,
`1` and `A` is best, yet the section of `1` comes before that of `B`, because
store names that are array indices are visited first.  With two items at a
store whose name is the empty string and one at `A`, no store section is
rendered. -/
theorem displayGroceryList_sections_counterexample :
    firstOccurrences ((objectValues (sampleList [sampleItem "x" none (some ["B", "A"]),
        sampleItem "y" none (some ["A", "1"]), sampleItem "z" none (some ["A"])])).flatMap
          storesOrEmpty) = ["B", "A", "1"]
      ∧ (displayGroceryList codePointCompare (sampleList [sampleItem "x" none (some ["B", "A"]),
          sampleItem "y" none (some ["A", "1"]), sampleItem "z" none (some ["A"])])).map
            (fun sec => sec.storeName) = ["A", "1", "B"]
      ∧ displayGroceryList codePointCompare (sampleList [sampleItem "x" none (some ["", "A"]),
          sampleItem "y" none (some [""])]) = [] := by
  decide!

/-- C13, amended: when the name of the best store is not empty, the sections
after the best store are all other store buckets in the order of
`Object.keys(storeGroups)`, each exactly once, followed by the `Other Items`
section; when no item has a store, that section is the only one.  The
`Other Items` section is present exactly when some item has no store.  The
order of `Object.keys(storeGroups)` lists the store names that are not array
indices in the order in which they are first encountered, and is that order
of discovery throughout when no store name is an array index. -/
theorem displayGroceryList_sections (localeCompare : String → String → Int)
    (groceryList : List (String × GroceryItem)) :
    (bestStoreOf (storeGroupsOf groceryList) ≠ "" →
        displayGroceryList localeCompare groceryList
          = renderStoreSection localeCompare (bestStoreOf (storeGroupsOf groceryList))
              (bucketOf (bestStoreOf (storeGroupsOf groceryList)) (storeGroupsOf groceryList))
              true
            :: (((objectEntries (storeGroupsOf groceryList)).filter
                  fun entry => entry.1 ≠ bestStoreOf (storeGroupsOf groceryList)).map
                  (fun entry => renderStoreSection localeCompare entry.1 entry.2 false)
                ++ (if (noStoreItemsOf groceryList).length > 0 then
                    [renderStoreSection localeCompare "Other Items"
                      (noStoreItemsOf groceryList) false]
                  else [])))
      ∧ ((∀ item ∈ objectValues groceryList, storesOrEmpty item = []) →
        displayGroceryList localeCompare groceryList
          = if (noStoreItemsOf groceryList).length > 0 then
              [renderStoreSection localeCompare "Other Items" (noStoreItemsOf groceryList) false]
            else [])
      ∧ ((noStoreItemsOf groceryList).length > 0
          ↔ ∃ item ∈ objectValues groceryList, storesOrEmpty item = [])
      ∧ (objectKeys (storeGroupsOf groceryList)).Nodup
      ∧ (objectKeys (storeGroupsOf groceryList)).filter (fun key => (arrayIndex? key).isNone)
          = (firstOccurrences ((objectValues groceryList).flatMap storesOrEmpty)).filter
              (fun key => (arrayIndex? key).isNone)
      ∧ ((∀ item ∈ objectValues groceryList, ∀ store ∈ storesOrEmpty item,
            arrayIndex? store = none) →
          objectKeys (storeGroupsOf groceryList)
            = firstOccurrences ((objectValues groceryList).flatMap storesOrEmpty)) := by
  refine ⟨displayGroceryList_of_best localeCompare groceryList, ?_, ?_,
    nodup_objectKeys _ (nodup_keys_storeGroupsOf groceryList), ?_, ?_⟩
  · intro hnone
    have hnil := storeGroupsOf_eq_nil groceryList hnone
    unfold displayGroceryList
    rw [hnil]
    simp [bestStoreOf, objectEntries]
  · rw [noStoreItemsOf_eq, gt_iff_lt, List.length_pos, ne_eq, List.filter_eq_nil_iff]
    simp
  · rw [objectKeys_filter_isNone, keys_storeGroupsOf]
  · intro hnone
    have hkeys := keys_storeGroupsOf groceryList
    unfold objectKeys
    rw [objectEntries_eq_self, hkeys]
    intro entry hentry
    have hfst : entry.1 ∈ (storeGroupsOf groceryList).map Prod.fst :=
      List.mem_map_of_mem Prod.fst hentry
    rw [hkeys, mem_firstOccurrences, List.mem_flatMap] at hfst
    obtain ⟨item, hitem, hs⟩ := hfst
    exact hnone item hitem _ hs

/-- On the sample list the sections are `A`, `B`, `Other Items`, in this
order. -/
theorem displayGroceryList_sections_witness :
    bestStoreOf (storeGroupsOf sampleGroceryList) ≠ ""
      ∧ (displayGroceryList codePointCompare sampleGroceryList).map (fun sec => sec.storeName)
          = ["A", "B", "Other Items"]
      ∧ (∀ item ∈ objectValues sampleGroceryList, ∀ store ∈ storesOrEmpty item,
            arrayIndex? store = none)
      ∧ objectKeys (storeGroupsOf sampleGroceryList) = ["B", "A"] :=
  ⟨by decide!,
    (congrArg (List.map fun sec => sec.storeName)
      ((displayGroceryList_sections codePointCompare sampleGroceryList).1 (by decide!))).trans
      (by decide!),
    by decide!,
    ((displayGroceryList_sections codePointCompare sampleGroceryList).2.2.2.2.2
      (by decide!)).trans (by decide!)⟩

/-! ## Lemmas on sorting -/

theorem filter_orderedInsert {α : Type} (r : α → α → Prop) [DecidableRel r] (p : α → Bool)
    (hp : ∀ a b, p a = true → ¬ r a b → p b = false) (a : α) (l : List α) :
    (l.orderedInsert r a).filter p = (a :: l).filter p := by
  induction l with
  | nil => rfl
  | cons b l ih =>
    by_cases hr : r a b
    · rw [List.orderedInsert, if_pos hr]
    · rw [List.orderedInsert, if_neg hr, List.filter_cons, ih]
      by_cases hpa : p a = true
      · have hpb := hp a b hpa hr
        simp [List.filter_cons, hpa, hpb]
      · have hpa' : p a = false := by simpa using hpa
        simp [List.filter_cons, hpa']

/-- A stable sort keeps the relative order of the elements of any class that
the comparator cannot separate from what it puts before them. -/
theorem filter_insertionSort {α : Type} (r : α → α → Prop) [DecidableRel r] (p : α → Bool)
    (hp : ∀ a b, p a = true → ¬ r a b → p b = false) (l : List α) :
    (l.insertionSort r).filter p = l.filter p := by
  induction l with
  | nil => rfl
  | cons a l ih =>
    rw [List.insertionSort, filter_orderedInsert r p hp, List.filter_cons, List.filter_cons, ih]

theorem sorted_eq_filter_append {α : Type} (r : α → α → Prop) (q : α → Bool)
    (hq : ∀ a b, r a b → q b = true → q a = true) (l : List α) (hsorted : l.Sorted r) :
    l = l.filter q ++ l.filter fun a => !q a := by
  induction l with
  | nil => rfl
  | cons a l ih =>
    rw [List.sorted_cons] at hsorted
    by_cases hqa : q a = true
    · simp only [List.filter_cons, hqa, if_true, Bool.not_true, Bool.false_eq_true, if_false,
        List.cons_append]
      rw [← ih hsorted.2]
    · have hall : ∀ b ∈ l, q b = false := by
        intro b hb
        by_contra hcon
        exact hqa (hq a b (hsorted.1 b hb) (by simpa using hcon))
      have h1 : l.filter q = [] := by
        rw [List.filter_eq_nil_iff]
        intro b hb
        simp [hall b hb]
      have h2 : (l.filter fun a => !q a) = l := by
        rw [List.filter_eq_self]
        intro b hb
        simp [hall b hb]
      have hqa' : q a = false := by simpa using hqa
      simp [List.filter_cons, hqa', h1, h2]

theorem sortBy_perm {α : Type} (comparefn : α → α → Int) (array : List α) :
    (sortBy comparefn array).Perm array :=
  List.perm_insertionSort _ _

theorem sortBy_sorted {α : Type} (comparefn : α → α → Int)
    (htotal : ∀ a b, comparefn a b ≤ 0 ∨ comparefn b a ≤ 0)
    (htrans : ∀ a b c, comparefn a b ≤ 0 → comparefn b c ≤ 0 → comparefn a c ≤ 0)
    (array : List α) :
    (sortBy comparefn array).Sorted fun a b => comparefn a b ≤ 0 := by
  haveI : IsTotal α (fun a b => comparefn a b ≤ 0) := ⟨htotal⟩
  haveI : IsTrans α (fun a b => comparefn a b ≤ 0) := ⟨htrans⟩
  exact List.sorted_insertionSort _ _

/-! ## Lemmas on `renderStoreSection` -/

theorem locationRank_lt_of_mem (a : String) (h : a ∈ locationOrder) : locationRank a < 999 := by
  have hidx := List.indexOf_lt_length.mpr h
  have hlen : locationOrder.length = 17 := rfl
  simp only [locationRank, h, if_true]
  omega

theorem locationRank_of_not_mem (a : String) (h : a ∉ locationOrder) : locationRank a = 999 := by
  simp [locationRank, h]

theorem compareLocations_le (a b : String) :
    compareLocations a b ≤ 0 ↔ locationRank a ≤ locationRank b := by
  unfold compareLocations
  omega

theorem locationRank_inj (a b : String) (ha : a ∈ locationOrder) (hb : b ∈ locationOrder)
    (h : locationRank a = locationRank b) : a = b := by
  simp only [locationRank, ha, hb, if_true] at h
  exact (List.indexOf_inj ha hb).mp (by exact_mod_cast h)

theorem sorted_locationOrder :
    locationOrder.Sorted fun a b => locationRank a < locationRank b := by
  unfold List.Sorted
  decide

/-- Sorting distinct locations with `compareLocations` gives the canonical
locations present, in canonical order, followed by the other locations in
their original order. -/
theorem sortBy_compareLocations (keys : List String) (hnodup : keys.Nodup) :
    sortBy compareLocations keys
      = locationOrder.filter (fun a => a ∈ keys) ++ keys.filter fun a => a ∉ locationOrder := by
  have hsorted : (sortBy compareLocations keys).Sorted
      (fun a b => locationRank a ≤ locationRank b) := by
    have h := sortBy_sorted compareLocations
      (fun a b => by rw [compareLocations_le, compareLocations_le]; exact le_total _ _)
      (fun a b c => by
        rw [compareLocations_le, compareLocations_le, compareLocations_le]
        exact le_trans) keys
    exact h.imp fun hab => (compareLocations_le _ _).mp hab
  have hsplit := sorted_eq_filter_append (fun a b => locationRank a ≤ locationRank b)
    (fun a => decide (a ∈ locationOrder))
    (fun a b hab hb => by
      have hb' : b ∈ locationOrder := by simpa using hb
      have hlt := locationRank_lt_of_mem b hb'
      by_contra ha
      have ha' : a ∉ locationOrder := by simpa using ha
      have hab' : locationRank a ≤ locationRank b := hab
      rw [locationRank_of_not_mem a ha'] at hab'
      omega)
    (sortBy compareLocations keys) hsorted
  have hperm := sortBy_perm compareLocations keys
  have hstable : (sortBy compareLocations keys).filter (fun a => !decide (a ∈ locationOrder))
      = keys.filter fun a => !decide (a ∈ locationOrder) := by
    apply filter_insertionSort
    intro a b ha hab
    have ha' : a ∉ locationOrder := by simpa using ha
    rw [compareLocations_le, locationRank_of_not_mem a ha'] at hab
    have hb' : b ∈ locationOrder := by
      by_contra hb
      rw [locationRank_of_not_mem b hb] at hab
      exact hab le_rfl
    simp [hb']
  have hcanon : (sortBy compareLocations keys).filter (fun a => decide (a ∈ locationOrder))
      = locationOrder.filter fun a => a ∈ keys := by
    haveI : IsAntisymm String (fun a b => locationRank a < locationRank b) :=
      ⟨fun a b h1 h2 => absurd h1 (not_lt_of_lt h2)⟩
    apply List.eq_of_perm_of_sorted (r := fun a b => locationRank a < locationRank b)
    · apply (List.perm_ext_iff_of_nodup ((hperm.nodup_iff.mpr hnodup).filter _)
        ((by decide : locationOrder.Nodup).filter _)).mpr
      intro a
      simp only [List.mem_filter, hperm.mem_iff, decide_eq_true_eq]
      exact and_comm
    · have hpair : ((sortBy compareLocations keys).filter
          (fun a => decide (a ∈ locationOrder))).Pairwise
            (fun a b => locationRank a ≤ locationRank b ∧ a ≠ b) :=
        List.Pairwise.and (List.Pairwise.filter _ hsorted)
          ((hperm.nodup_iff.mpr hnodup).filter _)
      refine List.Pairwise.imp_of_mem ?_ hpair
      intro a b ha hb hab
      have ha' : a ∈ locationOrder := by simpa using (List.mem_filter.mp ha).2
      have hb' : b ∈ locationOrder := by simpa using (List.mem_filter.mp hb).2
      exact lt_of_le_of_ne hab.1 fun heq => hab.2 (locationRank_inj a b ha' hb' heq)
    · exact List.Sorted.filter _ sorted_locationOrder
  rw [hstable, hcanon] at hsplit
  rw [hsplit]
  congr 1
  apply List.filter_congr
  intro a _
  simp

theorem keys_foldl_pushTo_by {α : Type} (f : α → String) (items : List α)
    (obj : List (String × List α)) :
    (items.foldl (fun groups item => pushTo (f item) item groups) obj).map Prod.fst
      = (items.map f).foldl addKey (obj.map Prod.fst) := by
  induction items generalizing obj with
  | nil => rfl
  | cons item items ih =>
    rw [List.foldl_cons, ih, keys_pushTo, List.map_cons, List.foldl_cons]
    rfl

theorem bucketOf_foldl_pushTo_by {α : Type} (f : α → String) (key : String) (items : List α)
    (obj : List (String × List α)) :
    bucketOf key (items.foldl (fun groups item => pushTo (f item) item groups) obj)
      = bucketOf key obj ++ items.filter fun item => f item = key := by
  induction items generalizing obj with
  | nil => simp
  | cons item items ih =>
    rw [List.foldl_cons, ih, bucketOf_pushTo, List.append_assoc]
    by_cases h : key = f item
    · simp [h]
    · have h' : ¬ f item = key := fun heq => h heq.symm
      simp [h, h']

theorem keys_groupByLocation (items : List GroceryItem) :
    (groupByLocation items).map Prod.fst = firstOccurrences (items.map locationOrOther) := by
  unfold groupByLocation
  rw [keys_foldl_pushTo_by, foldl_addKey]
  simp

theorem bucketOf_groupByLocation (items : List GroceryItem) (location : String) :
    bucketOf location (groupByLocation items)
      = items.filter fun item => locationOrOther item = location := by
  unfold groupByLocation
  rw [bucketOf_foldl_pushTo_by]
  simp [bucketOf]

theorem mem_objectKeys_groupByLocation (items : List GroceryItem) (location : String) :
    location ∈ objectKeys (groupByLocation items) ↔ location ∈ items.map locationOrOther := by
  unfold objectKeys
  rw [((objectEntries_perm (groupByLocation items)).map Prod.fst).mem_iff, keys_groupByLocation,
    mem_firstOccurrences]

theorem locations_renderStoreSection (localeCompare : String → String → Int)
    (storeName : String) (items : List GroceryItem) (isBestStore : Bool) :
    (renderStoreSection localeCompare storeName items isBestStore).locationGroups.map
        (fun group => group.location)
      = sortBy compareLocations (objectKeys (groupByLocation items)) := by
  simp [renderStoreSection, Function.comp_def]

/-- C14, as stated, fails.  Two items with the non-canonical locations `b`
and then `7` are emitted with the group `7` before the group `b`, because
`Object.keys` lists keys that are array indices first. -/
theorem renderStoreSection_location_order_counterexample :
    firstOccurrences ([sampleItem "x" (some "b") none, sampleItem "y" (some "7") none].map
        locationOrOther) = ["b", "7"]
      ∧ (renderStoreSection codePointCompare "A"
          [sampleItem "x" (some "b") none, sampleItem "y" (some "7") none] false).locationGroups.map
            (fun group => group.location) = ["7", "b"] := by
  decide!

/-- C14, amended: the location groups are emitted so that the groups whose
location is in `locationOrder` come first, in canonical order, followed by
every group whose location is not in that list (including `other`, used for
an empty or missing location), in the order of `Object.keys(locationGroups)`.
That order lists the locations that are not array indices in the order in
which they are first encountered, and is that order of discovery throughout
when no location is an array index. -/
theorem renderStoreSection_location_order (localeCompare : String → String → Int)
    (storeName : String) (items : List GroceryItem) (isBestStore : Bool) :
    (renderStoreSection localeCompare storeName items isBestStore).locationGroups.map
          (fun group => group.location)
        = locationOrder.filter (fun a => a ∈ items.map locationOrOther)
          ++ (objectKeys (groupByLocation items)).filter (fun a => a ∉ locationOrder)
      ∧ (objectKeys (groupByLocation items)).filter (fun key => (arrayIndex? key).isNone)
          = (firstOccurrences (items.map locationOrOther)).filter
              (fun key => (arrayIndex? key).isNone)
      ∧ ((∀ item ∈ items, arrayIndex? (locationOrOther item) = none) →
          (renderStoreSection localeCompare storeName items isBestStore).locationGroups.map
              (fun group => group.location)
            = locationOrder.filter (fun a => a ∈ items.map locationOrOther)
              ++ (firstOccurrences (items.map locationOrOther)).filter
                  (fun a => a ∉ locationOrder)) := by
  have hnodup : (objectKeys (groupByLocation items)).Nodup :=
    nodup_objectKeys _ (by rw [keys_groupByLocation]; exact nodup_firstOccurrences _)
  have hmain : (renderStoreSection localeCompare storeName items isBestStore).locationGroups.map
          (fun group => group.location)
        = locationOrder.filter (fun a => a ∈ items.map locationOrOther)
          ++ (objectKeys (groupByLocation items)).filter fun a => a ∉ locationOrder := by
    rw [locations_renderStoreSection, sortBy_compareLocations _ hnodup]
    congr 1
    apply List.filter_congr
    intro a _
    simp only [mem_objectKeys_groupByLocation]
  refine ⟨hmain, ?_, fun hnone => ?_⟩
  · rw [objectKeys_filter_isNone, keys_groupByLocation]
  · rw [hmain]
    unfold objectKeys
    rw [objectEntries_eq_self, keys_groupByLocation]
    intro entry hentry
    have hfst : entry.1 ∈ (groupByLocation items).map Prod.fst :=
      List.mem_map_of_mem Prod.fst hentry
    rw [keys_groupByLocation, mem_firstOccurrences] at hfst
    obtain ⟨item, hitem, heq⟩ := List.mem_map.mp hfst
    rw [← heq]
    exact hnone item hitem

/-- The sample items are emitted under produce, dairy, and then the unknown
locations in the order of discovery. -/
theorem renderStoreSection_location_order_witness :
    (∀ item ∈ sampleStoreItems, arrayIndex? (locationOrOther item) = none)
      ∧ (renderStoreSection codePointCompare "A" sampleStoreItems true).locationGroups.map
          (fun group => group.location) = ["produce", "dairy", "bulk", "other", "cellar"] :=
  ⟨by decide!,
    ((renderStoreSection_location_order codePointCompare "A" sampleStoreItems true).2.2
      (by decide!)).trans (by decide!)⟩

theorem codePointCompare_le (a b : String) : codePointCompare a b ≤ 0 ↔ a ≤ b := by
  unfold codePointCompare
  by_cases h1 : a < b
  · simp [h1, le_of_lt h1]
  · by_cases h2 : a = b
    · simp [h1, h2]
    · simp only [h1, h2, if_false]
      constructor
      · intro h; omega
      · intro h
        exact absurd (lt_of_le_of_ne h h2) h1

theorem codePointCompare_total (a b : String) :
    codePointCompare a b ≤ 0 ∨ codePointCompare b a ≤ 0 := by
  rw [codePointCompare_le, codePointCompare_le]
  exact le_total a b

theorem codePointCompare_trans (a b c : String) (hab : codePointCompare a b ≤ 0)
    (hbc : codePointCompare b c ≤ 0) : codePointCompare a c ≤ 0 := by
  rw [codePointCompare_le] at *
  exact le_trans hab hbc

/-- C15: for a name comparison that is total and transitive, in every
location group that `renderStoreSection` emits the items are a permutation of
the input items having that location (an empty or missing location counting
as `other`) and are in non-decreasing order of name under that comparison. -/
theorem renderStoreSection_group_items (localeCompare : String → String → Int)
    (htotal : ∀ a b, localeCompare a b ≤ 0 ∨ localeCompare b a ≤ 0)
    (htrans : ∀ a b c, localeCompare a b ≤ 0 → localeCompare b c ≤ 0 → localeCompare a c ≤ 0)
    (storeName : String) (items : List GroceryItem) (isBestStore : Bool) :
    ∀ group ∈ (renderStoreSection localeCompare storeName items isBestStore).locationGroups,
      group.items.Perm (items.filter fun item => locationOrOther item = group.location)
        ∧ group.items.Sorted fun a b => localeCompare a.name b.name ≤ 0 := by
  intro group hgroup
  simp only [renderStoreSection, List.mem_map] at hgroup
  obtain ⟨location, _, rfl⟩ := hgroup
  refine ⟨?_, ?_⟩
  · show (sortBy (fun a b : GroceryItem => localeCompare a.name b.name)
        (bucketOf location (groupByLocation items))).Perm
          (items.filter fun item => locationOrOther item = location)
    rw [bucketOf_groupByLocation]
    exact sortBy_perm _ _
  · exact sortBy_sorted (fun a b : GroceryItem => localeCompare a.name b.name)
      (fun a b => htotal a.name b.name) (fun a b c => htrans a.name b.name c.name) _

/-- The dairy group of the sample items holds butter, cheese and milk, in
this order. -/
theorem renderStoreSection_group_items_witness :
    (∀ a b, codePointCompare a b ≤ 0 ∨ codePointCompare b a ≤ 0)
      ∧ (∀ a b c, codePointCompare a b ≤ 0 → codePointCompare b c ≤ 0 →
          codePointCompare a c ≤ 0)
      ∧ ((renderStoreSection codePointCompare "A" sampleStoreItems true).locationGroups.map
          fun group => (group.locationName, group.items.map fun item => item.name))
          = [("Produce", ["apple"]), ("Dairy", ["butter", "cheese", "milk"]),
             ("Bulk", ["nuts"]), ("Other", ["salt"]), ("Cellar", ["wine"])]
      ∧ ∀ group ∈ (renderStoreSection codePointCompare "A" sampleStoreItems true).locationGroups,
          group.items.Perm
              (sampleStoreItems.filter fun item => locationOrOther item = group.location)
            ∧ group.items.Sorted fun a b => codePointCompare a.name b.name ≤ 0 :=
  ⟨codePointCompare_total, codePointCompare_trans, by decide!,
    renderStoreSection_group_items codePointCompare codePointCompare_total
      codePointCompare_trans "A" sampleStoreItems true⟩

/-! ## Lemmas on `generateGroceryList` -/

theorem foldl_foldl_eq_foldl_flatMap {α β γ : Type} (f : γ → List β) (g : α → β → α)
    (l : List γ) (init : α) :
    l.foldl (fun acc x => (f x).foldl g acc) init = (l.flatMap f).foldl g init := by
  induction l generalizing init with
  | nil => rfl
  | cons x l ih => rw [List.foldl_cons, ih, List.flatMap_cons, List.foldl_append]

theorem collectGroceryList_eq (toLowerCase : String → String) (dateKey : Nat → String)
    (planDuration : Nat) (mealPlan : List (String × Meal))
    (ingredientDirectory : List IngredientEntry) :
    collectGroceryList toLowerCase dateKey planDuration mealPlan ingredientDirectory
      = (horizonIngredients dateKey planDuration mealPlan).foldl
          (collectIngredient toLowerCase ingredientDirectory) [] := by
  unfold collectGroceryList horizonIngredients
  rw [← foldl_foldl_eq_foldl_flatMap]
  congr 1
  funext groceryList i
  rw [← foldl_foldl_eq_foldl_flatMap]
  congr 1
  funext acc mealType
  unfold collectSlot
  cases h : mealPlan.lookup (dateKey i ++ "-" ++ mealType) <;> simp [h]

theorem firstOccurrences_eq_foldl (l : List String) :
    firstOccurrences l = l.foldl addKey [] := by
  rw [foldl_addKey]
  simp

theorem firstOccurrences_append_singleton (l : List String) (a : String) :
    firstOccurrences (l ++ [a]) = addKey (firstOccurrences l) a := by
  rw [firstOccurrences_eq_foldl, List.foldl_append, ← firstOccurrences_eq_foldl]
  rfl

theorem lookup_map_key {α : Type} (keys : List String) (f : String → α) (key : String) :
    (keys.map fun k => (k, f k)).lookup key = if key ∈ keys then some (f key) else none := by
  induction keys with
  | nil => rfl
  | cons k keys ih =>
    by_cases h : key = k
    · subst h
      simp [List.lookup]
    · have hb : (key == k) = false := by simpa using h
      simp only [List.map_cons, List.lookup, hb, ih, List.mem_cons, h, false_or]

theorem firstSpelling_append (toLowerCase : String → String) (occ : List MealIngredient)
    (x : MealIngredient) (key : String) :
    firstSpelling toLowerCase (occ ++ [x]) key
      = if key ∈ occ.map (fun ing => toLowerCase ing.name) then firstSpelling toLowerCase occ key
        else if toLowerCase x.name = key then x.name else "" := by
  unfold firstSpelling
  rw [List.find?_append]
  cases hfind : occ.find? (fun ing => toLowerCase ing.name = key) with
  | some ing =>
    have hmem : key ∈ occ.map (fun ing => toLowerCase ing.name) := by
      have h1 := List.find?_some hfind
      have h2 := List.mem_of_find?_eq_some hfind
      exact List.mem_map.mpr ⟨ing, h2, by simpa using h1⟩
    simp [hmem]
  | none =>
    have hmem : key ∉ occ.map (fun ing => toLowerCase ing.name) := by
      rw [List.find?_eq_none] at hfind
      intro h
      obtain ⟨ing, hing, heq⟩ := List.mem_map.mp h
      exact hfind ing hing (by simpa using heq)
    by_cases hx : toLowerCase x.name = key
    · simp [hmem, hx]
    · simp [hmem, hx]

theorem occurrencesOf_append (toLowerCase : String → String) (occ : List MealIngredient)
    (x : MealIngredient) (key : String) :
    occurrencesOf toLowerCase (occ ++ [x]) key
      = occurrencesOf toLowerCase occ key ++ (if toLowerCase x.name = key then [x] else []) := by
  unfold occurrencesOf
  rw [List.filter_append]
  by_cases hx : toLowerCase x.name = key
  · simp [hx]
  · simp [hx]

theorem occurrencesOf_eq_nil (toLowerCase : String → String) (occ : List MealIngredient)
    (key : String) (h : key ∉ occ.map (fun ing => toLowerCase ing.name)) :
    occurrencesOf toLowerCase occ key = [] := by
  unfold occurrencesOf
  rw [List.filter_eq_nil_iff]
  intro ing hing heq
  exact h (List.mem_map.mpr ⟨ing, hing, by simpa using heq⟩)

theorem expectedEntry_append_of_ne (toLowerCase : String → String)
    (directory : List IngredientEntry)
    (occ : List MealIngredient) (x : MealIngredient) (key : String)
    (hmem : key ∈ occ.map (fun ing => toLowerCase ing.name))
    (hne : toLowerCase x.name ≠ key) :
    expectedEntry toLowerCase directory (occ ++ [x]) key
      = expectedEntry toLowerCase directory occ key := by
  simp [expectedEntry, firstSpelling_append toLowerCase, occurrencesOf_append toLowerCase, hmem,
    hne]

theorem expectedEntry_append_of_mem (toLowerCase : String → String)
    (directory : List IngredientEntry)
    (occ : List MealIngredient) (x : MealIngredient)
    (hmem : toLowerCase x.name ∈ occ.map (fun ing => toLowerCase ing.name)) :
    expectedEntry toLowerCase directory (occ ++ [x]) (toLowerCase x.name)
      = { expectedEntry toLowerCase directory occ (toLowerCase x.name) with
          quantities := (expectedEntry toLowerCase directory occ (toLowerCase x.name)).quantities
            ++ [{ quantity := x.quantity, unit := x.unit }] } := by
  simp [expectedEntry, firstSpelling_append toLowerCase, occurrencesOf_append toLowerCase, hmem]

theorem expectedEntry_append_of_not_mem (toLowerCase : String → String)
    (directory : List IngredientEntry)
    (occ : List MealIngredient) (x : MealIngredient)
    (hmem : toLowerCase x.name ∉ occ.map (fun ing => toLowerCase ing.name)) :
    expectedEntry toLowerCase directory (occ ++ [x]) (toLowerCase x.name)
      = { name := x.name, quantities := [{ quantity := x.quantity, unit := x.unit }],
          category := (getIngredientInfo toLowerCase directory x.name).1.category,
          location := (getIngredientInfo toLowerCase directory x.name).1.location,
          stores := (getIngredientInfo toLowerCase directory x.name).1.stores,
          isFrozen := (getIngredientInfo toLowerCase directory x.name).1.isFrozen,
          isRefrigerated :=
            (getIngredientInfo toLowerCase directory x.name).1.isRefrigerated } := by
  have hnil := occurrencesOf_eq_nil toLowerCase occ _ hmem
  simp [expectedEntry, firstSpelling_append toLowerCase, occurrencesOf_append toLowerCase, hmem,
    hnil]

/-- The object `groceryList` built from a sequence of occurrences: one entry
per lower-cased name, in the order of first occurrence. -/
theorem foldl_collectIngredient (toLowerCase : String → String) (directory : List IngredientEntry)
    (occ : List MealIngredient) :
    occ.foldl (collectIngredient toLowerCase directory) []
      = (firstOccurrences (occ.map fun ing => toLowerCase ing.name)).map
          fun key => (key, expectedEntry toLowerCase directory occ key) := by
  induction occ using List.reverseRecOn with
  | nil => rfl
  | append_singleton occ x ih =>
    rw [List.foldl_append, List.foldl_cons, List.foldl_nil, ih, List.map_append,
      List.map_singleton, firstOccurrences_append_singleton]
    unfold collectIngredient
    simp only [lookup_map_key, mem_firstOccurrences]
    by_cases hmem : toLowerCase x.name ∈ occ.map (fun ing => toLowerCase ing.name)
    · simp only [hmem, if_true, Option.isNone_some, Bool.false_eq_true, if_false, addKey,
        mem_firstOccurrences, List.map_map]
      apply List.map_congr_left
      intro key hkey
      rw [mem_firstOccurrences] at hkey
      by_cases hk : key = toLowerCase x.name
      · subst hk
        simp [expectedEntry_append_of_mem toLowerCase directory occ x hmem]
      · have hk' : toLowerCase x.name ≠ key := fun h => hk h.symm
        simp [hk, expectedEntry_append_of_ne toLowerCase directory occ x key hkey hk']
    · simp only [hmem, if_false, Option.isNone_none, if_true, addKey, mem_firstOccurrences,
        List.map_append, List.map_map, List.map_singleton]
      congr 1
      · apply List.map_congr_left
        intro key hkey
        rw [mem_firstOccurrences] at hkey
        have hk : key ≠ toLowerCase x.name := fun h => hmem (h ▸ hkey)
        simp [hk,
          expectedEntry_append_of_ne toLowerCase directory occ x key hkey (fun h => hk h.symm)]
      · simp [expectedEntry_append_of_not_mem toLowerCase directory occ x hmem]

theorem setKey_of_not_mem {α : Type} (key : String) (value : α) (l : List (String × α))
    (h : key ∉ l.map Prod.fst) : setKey key value l = l ++ [(key, value)] := by
  induction l with
  | nil => rfl
  | cons p l ih =>
    obtain ⟨k, v⟩ := p
    rw [List.map_cons, List.mem_cons, not_or] at h
    have hk : ¬ k = key := fun heq => h.1 heq.symm
    simp only [setKey, hk, if_false, ih h.2, List.cons_append]

theorem foldl_setKey_of_nodup {α β : Type} (f : β → String) (g : β → α) (values : List β)
    (acc : List (String × α)) (hnodup : (acc.map Prod.fst ++ values.map f).Nodup) :
    values.foldl (fun obj value => setKey (f value) (g value) obj) acc
      = acc ++ values.map fun value => (f value, g value) := by
  induction values generalizing acc with
  | nil => simp
  | cons value values ih =>
    have hnot : f value ∉ acc.map Prod.fst := by
      intro hmem
      exact (List.nodup_append.mp hnodup).2.2 hmem (List.mem_cons_self _ _)
    rw [List.foldl_cons, setKey_of_not_mem _ _ _ hnot, ih]
    · simp
    · have h : (acc.map Prod.fst ++ [f value] ++ values.map f).Nodup := by
        simpa using hnodup
      simpa using h

theorem toLowerCase_firstSpelling (toLowerCase : String → String)
    (occ : List MealIngredient) (key : String)
    (hmem : key ∈ occ.map (fun ing => toLowerCase ing.name)) :
    toLowerCase (firstSpelling toLowerCase occ key) = key := by
  unfold firstSpelling
  cases hfind : occ.find? (fun ing => toLowerCase ing.name = key) with
  | some ing => simpa using List.find?_some hfind
  | none =>
    rw [List.find?_eq_none] at hfind
    obtain ⟨ing, hing, heq⟩ := List.mem_map.mp hmem
    exact absurd (by simpa using heq) (hfind ing hing)

theorem map_toLowerCase_firstSpelling (toLowerCase : String → String)
    (occ : List MealIngredient) :
    (firstOccurrences (occ.map fun ing => toLowerCase ing.name)).map
        (fun key => toLowerCase (firstSpelling toLowerCase occ key))
      = firstOccurrences (occ.map fun ing => toLowerCase ing.name) := by
  conv_rhs => rw [← List.map_id (firstOccurrences (occ.map fun ing => toLowerCase ing.name))]
  apply List.map_congr_left
  intro key hkey
  rw [mem_firstOccurrences] at hkey
  exact toLowerCase_firstSpelling toLowerCase occ key hkey

/-- The object `aggregatedList`: one item per entry of `groceryList`, keyed
by its name, in the order of `Object.values(groceryList)`. -/
theorem aggregatedListOf_eq (numbers : NumberHost) (toLowerCase : String → String)
    (dateKey : Nat → String) (planDuration : Nat)
    (mealPlan : List (String × Meal)) (directory : List IngredientEntry) :
    aggregatedListOf numbers toLowerCase dateKey planDuration mealPlan directory
      = (objectValues
            (collectGroceryList toLowerCase dateKey planDuration mealPlan directory)).map
          fun item => (item.name, aggregatedItem numbers item) := by
  unfold aggregatedListOf
  rw [foldl_setKey_of_nodup (fun item : GroceryEntry => item.name) (aggregatedItem numbers)]
  · rfl
  · rw [List.map_nil, List.nil_append]
    apply List.Nodup.of_map toLowerCase
    have hperm : (objectValues
        (collectGroceryList toLowerCase dateKey planDuration mealPlan directory)).Perm
        ((collectGroceryList toLowerCase dateKey planDuration mealPlan directory).map Prod.snd) :=
      (objectEntries_perm _).map Prod.snd
    refine ((hperm.map (fun item : GroceryEntry => item.name)).map toLowerCase).nodup_iff.mpr ?_
    rw [collectGroceryList_eq toLowerCase, foldl_collectIngredient toLowerCase, List.map_map,
      List.map_map, List.map_map]
    show ((firstOccurrences ((horizonIngredients dateKey planDuration mealPlan).map
      fun ing => toLowerCase ing.name)).map fun key => toLowerCase
        (firstSpelling toLowerCase (horizonIngredients dateKey planDuration mealPlan) key)).Nodup
    rw [map_toLowerCase_firstSpelling toLowerCase]
    exact nodup_firstOccurrences _

theorem flatMap_congr_of_mem {α β : Type} (l : List α) (f g : α → List β)
    (h : ∀ x ∈ l, f x = g x) : l.flatMap f = l.flatMap g := by
  induction l with
  | nil => rfl
  | cons x l ih =>
    rw [List.flatMap_cons, List.flatMap_cons, h x (List.mem_cons_self _ _),
      ih fun y hy => h y (List.mem_cons_of_mem _ hy)]

theorem horizonIngredients_congr (dateKey : Nat → String) (planDuration : Nat)
    (mealPlan mealPlan' : List (String × Meal))
    (hagree : ∀ i < planDuration * 7, ∀ mealType ∈ mealTypes,
      mealPlan'.lookup (dateKey i ++ "-" ++ mealType)
        = mealPlan.lookup (dateKey i ++ "-" ++ mealType)) :
    horizonIngredients dateKey planDuration mealPlan'
      = horizonIngredients dateKey planDuration mealPlan := by
  unfold horizonIngredients
  apply flatMap_congr_of_mem
  intro i hi
  apply flatMap_congr_of_mem
  intro mealType hmealType
  rw [hagree i (List.mem_range.mp hi) mealType hmealType]

/-- C16: the aggregated list holds exactly one item for each distinct
lower-cased ingredient name occurring in a meal of the horizon
(`planDuration * 7` days, four meal types a day); the item carries the
spelling of the first occurrence, and its total is `aggregateQuantities`
applied to all occurrences of that name in day order, then meal-type order,
then ingredient order; a meal plan that differs only outside the horizon gives
the same list. -/
theorem generateGroceryList_aggregated (numbers : NumberHost) (toLowerCase : String → String)
    (dateKey : Nat → String) (planDuration : Nat)
    (mealPlan : List (String × Meal)) (directory : List IngredientEntry) :
    ((aggregatedListOf numbers toLowerCase dateKey planDuration mealPlan directory).map
          Prod.snd).Perm
        ((firstOccurrences ((horizonIngredients dateKey planDuration mealPlan).map
            fun ing => toLowerCase ing.name)).map
          (expectedItem numbers toLowerCase directory
            (horizonIngredients dateKey planDuration mealPlan)))
      ∧ ((aggregatedListOf numbers toLowerCase dateKey planDuration mealPlan directory).map
            fun p => toLowerCase p.2.name).Perm
          (firstOccurrences ((horizonIngredients dateKey planDuration mealPlan).map
            fun ing => toLowerCase ing.name))
      ∧ (∀ key,
          (expectedItem numbers toLowerCase directory
                (horizonIngredients dateKey planDuration mealPlan) key).name
              = firstSpelling toLowerCase (horizonIngredients dateKey planDuration mealPlan) key
            ∧ (expectedItem numbers toLowerCase directory
                (horizonIngredients dateKey planDuration mealPlan) key).totalQuantity
              = aggregateQuantities numbers
                  ((occurrencesOf toLowerCase
                      (horizonIngredients dateKey planDuration mealPlan) key).map
                    fun ing => { quantity := ing.quantity, unit := ing.unit }))
      ∧ (∀ mealPlan' : List (String × Meal),
          (∀ i < planDuration * 7, ∀ mealType ∈ mealTypes,
            mealPlan'.lookup (dateKey i ++ "-" ++ mealType)
              = mealPlan.lookup (dateKey i ++ "-" ++ mealType)) →
          aggregatedListOf numbers toLowerCase dateKey planDuration mealPlan' directory
            = aggregatedListOf numbers toLowerCase dateKey planDuration mealPlan directory) := by
  have hvalues : (objectValues
      (collectGroceryList toLowerCase dateKey planDuration mealPlan directory)).Perm
        ((firstOccurrences ((horizonIngredients dateKey planDuration mealPlan).map
            fun ing => toLowerCase ing.name)).map
          (expectedEntry toLowerCase directory
            (horizonIngredients dateKey planDuration mealPlan))) := by
    have h := (objectEntries_perm
      (collectGroceryList toLowerCase dateKey planDuration mealPlan directory)).map Prod.snd
    rw [collectGroceryList_eq toLowerCase, foldl_collectIngredient toLowerCase,
      List.map_map] at h
    rw [collectGroceryList_eq toLowerCase, foldl_collectIngredient toLowerCase]
    exact h
  refine ⟨?_, ?_, fun key => ⟨rfl, rfl⟩, fun mealPlan' hagree => ?_⟩
  · rw [aggregatedListOf_eq numbers toLowerCase, List.map_map]
    have h := hvalues.map (aggregatedItem numbers)
    rw [List.map_map] at h
    exact h
  · rw [aggregatedListOf_eq numbers toLowerCase, List.map_map]
    have h := hvalues.map fun item : GroceryEntry => toLowerCase item.name
    rw [List.map_map] at h
    have hrhs := map_toLowerCase_firstSpelling toLowerCase
      (horizonIngredients dateKey planDuration mealPlan)
    rw [← hrhs]
    exact h
  · rw [aggregatedListOf_eq numbers toLowerCase, aggregatedListOf_eq numbers toLowerCase,
      collectGroceryList_eq toLowerCase, collectGroceryList_eq toLowerCase,
      horizonIngredients_congr dateKey planDuration mealPlan mealPlan' hagree]

/-- On the sample plan with a horizon of one week, the list has the three
items `milk` (3 cups), `oats` and `flour`, and the meal of day 9 does not
count. -/
theorem generateGroceryList_aggregated_witness :
    (∀ i < 1 * 7, ∀ mealType ∈ mealTypes,
        (sampleMealPlan.take 2).lookup (sampleDateKey i ++ "-" ++ mealType)
          = sampleMealPlan.lookup (sampleDateKey i ++ "-" ++ mealType))
      ∧ (aggregatedListOf exactNumbers asciiToLowerCase sampleDateKey 1 sampleMealPlan
            sampleDirectory).map
          (fun p => (p.2.name, p.2.totalQuantity))
          = [("milk", "3.00 cups"), ("oats", "100 g"), ("flour", "500 g")]
      ∧ aggregatedListOf exactNumbers asciiToLowerCase sampleDateKey 1 (sampleMealPlan.take 2)
            sampleDirectory
          = aggregatedListOf exactNumbers asciiToLowerCase sampleDateKey 1 sampleMealPlan
              sampleDirectory :=
  ⟨by decide!, by decide!,
    (generateGroceryList_aggregated exactNumbers asciiToLowerCase sampleDateKey 1 sampleMealPlan
      sampleDirectory).2.2.2 (sampleMealPlan.take 2) (by decide!)⟩

/-! ## Lemmas on the recipe library -/

/-- The two outcomes of the update of the recipe library: the first recipe of
the given name is replaced in place, or, when there is none, the recipe is
appended. -/
theorem upsert_cases (lib : List Recipe) (name : String) (recipe : Recipe) :
    (∃ before old after, lib = before ++ old :: after
        ∧ (∀ r ∈ before, r.name ≠ name) ∧ old.name = name
        ∧ (match lib.findIdx? fun r => r.name == name with
            | some i => lib.set i recipe
            | none => lib ++ [recipe]) = before ++ recipe :: after)
      ∨ ((∀ r ∈ lib, r.name ≠ name)
        ∧ (match lib.findIdx? fun r => r.name == name with
            | some i => lib.set i recipe
            | none => lib ++ [recipe]) = lib ++ [recipe]) := by
  induction lib with
  | nil => exact Or.inr ⟨fun r hr => absurd hr (List.not_mem_nil r), rfl⟩
  | cons r rest ih =>
    by_cases hr : r.name = name
    · refine Or.inl ⟨[], r, rest, rfl, fun x hx => absurd hx (List.not_mem_nil x), hr, ?_⟩
      simp [List.findIdx?_cons, hr]
    · have hstep : (r :: rest).findIdx? (fun r => r.name == name)
          = (rest.findIdx? fun r => r.name == name).map fun i => i + 1 := by
        rw [List.findIdx?_cons, ← List.findIdx?_succ]
        simp [hr]
      cases hfind : rest.findIdx? (fun r => r.name == name) with
      | none =>
        rw [hfind] at ih
        rcases ih with ⟨before, old, after, hsplit, hbefore, hold, heq⟩ | ⟨hall, _⟩
        · refine Or.inl ⟨r :: before, old, after, by rw [hsplit]; rfl, ?_, hold, ?_⟩
          · intro x hx
            rcases List.mem_cons.mp hx with h | h
            · exact h ▸ hr
            · exact hbefore x h
          · rw [hstep, hfind]
            simp only [Option.map_none', List.cons_append]
            simp only at heq
            rw [heq]
        · refine Or.inr ⟨?_, by rw [hstep, hfind]; rfl⟩
          intro x hx
          rcases List.mem_cons.mp hx with h | h
          · exact h ▸ hr
          · exact hall x h
      | some i =>
        rw [hfind] at ih
        rcases ih with ⟨before, old, after, hsplit, hbefore, hold, heq⟩ | ⟨hall, heq⟩
        · refine Or.inl ⟨r :: before, old, after, by rw [hsplit]; rfl, ?_, hold, ?_⟩
          · intro x hx
            rcases List.mem_cons.mp hx with h | h
            · exact h ▸ hr
            · exact hbefore x h
          · rw [hstep, hfind]
            simp only [Option.map_some', List.set_cons_succ, List.cons_append]
            simp only at heq
            rw [heq]
        · exfalso
          have hnone : rest.findIdx? (fun r => r.name == name) = none := by
            rw [List.findIdx?_eq_none_iff]
            intro x hx
            simpa using hall x hx
          rw [hnone] at hfind
          exact Option.noConfusion hfind

theorem upsertRecipe_cases (lib : List Recipe) (meal : Meal)
    (hsave : meal.instructions ≠ "" ∨ meal.ingredients ≠ []) :
    (∃ before old after, lib = before ++ old :: after
        ∧ (∀ r ∈ before, r.name ≠ meal.name) ∧ old.name = meal.name
        ∧ upsertRecipe lib meal = before ++ recipeOfMeal meal :: after)
      ∨ ((∀ r ∈ lib, r.name ≠ meal.name)
        ∧ upsertRecipe lib meal = lib ++ [recipeOfMeal meal]) := by
  have hcond : meal.instructions ≠ "" ∨ meal.ingredients.length > 0 := by
    rcases hsave with h | h
    · exact Or.inl h
    · exact Or.inr (List.length_pos.mpr h)
  have h := upsert_cases lib meal.name (recipeOfMeal meal)
  unfold upsertRecipe
  simp only [hcond, if_true]
  exact h

theorem baseOrQuantity_of_scaled (numbers : NumberHost) (hzero : ∀ r : ℚ, numbers.mul 0 r = 0)
    (ing : MealIngredient) (ratio : ℚ) (h : ing.quantity = numbers.mul ing.baseQuantity ratio) :
    baseOrQuantity ing = ing.baseQuantity := by
  unfold baseOrQuantity
  by_cases h0 : ing.baseQuantity = 0
  · rw [if_pos h0, h, h0, hzero]
  · rw [if_neg h0]

theorem recipeOfMeal_ingredients (numbers : NumberHost) (hzero : ∀ r : ℚ, numbers.mul 0 r = 0)
    (directory : List IngredientEntry) (form : MealForm) :
    (recipeOfMeal (buildMeal numbers directory form).1).ingredients
      = (buildMeal numbers directory form).1.ingredients.map fun ing =>
          { name := ing.name, quantity := ing.baseQuantity, unit := ing.unit } := by
  unfold recipeOfMeal
  apply List.map_congr_left
  intro ing hing
  rw [baseOrQuantity_of_scaled numbers hzero ing _
    (buildMeal_scaled numbers directory form ing hing)]

/-! ## The claims on the recipe library and the ingredient directory -/

/-- C17: when the saved meal has instructions or at least one ingredient, the
recipe found in the library under the name of the meal lists the ingredients
of the meal in the same order, with the same name and unit, and each recipe
quantity is the base quantity of that ingredient, not the scaled quantity,
also when the base quantity is 0; these are the names, quantities and units
entered on the rows.  The host is assumed to compute the product of 0 and a
number as 0, as binary floating point does. -/
theorem saveMeal_recipe_base_quantities (numbers : NumberHost) (st : AppState) (form : MealForm)
    (hzero : ∀ r : ℚ, numbers.mul 0 r = 0)
    (hsave : (buildMeal numbers st.ingredientDirectory form).1.instructions ≠ ""
      ∨ (buildMeal numbers st.ingredientDirectory form).1.ingredients ≠ []) :
    ∃ recipe,
      (saveMeal numbers st form).recipeLibrary.find?
          (fun r => r.name == (buildMeal numbers st.ingredientDirectory form).1.name)
          = some recipe
        ∧ recipe.ingredients
            = (buildMeal numbers st.ingredientDirectory form).1.ingredients.map (fun ing =>
                { name := ing.name, quantity := ing.baseQuantity, unit := ing.unit })
        ∧ recipe.ingredients.map (fun ing => (ing.name, ing.quantity, ing.unit))
            = enteredIngredients form.ingredientRows := by
  refine ⟨recipeOfMeal (buildMeal numbers st.ingredientDirectory form).1, ?_,
    recipeOfMeal_ingredients numbers hzero _ form, ?_⟩
  · have hname : (recipeOfMeal (buildMeal numbers st.ingredientDirectory form).1).name
        = (buildMeal numbers st.ingredientDirectory form).1.name := rfl
    show (upsertRecipe st.recipeLibrary
      (buildMeal numbers st.ingredientDirectory form).1).find? _ = _
    rcases upsertRecipe_cases st.recipeLibrary _ hsave with
      ⟨before, old, after, _, hbefore, _, heq⟩ | ⟨hall, heq⟩
    · rw [heq, List.find?_append]
      have hnone : before.find?
          (fun r => r.name == (buildMeal numbers st.ingredientDirectory form).1.name) = none := by
        rw [List.find?_eq_none]
        intro r hr
        simpa using hbefore r hr
      rw [hnone]
      simp [hname]
    · rw [heq, List.find?_append]
      have hnone : st.recipeLibrary.find?
          (fun r => r.name == (buildMeal numbers st.ingredientDirectory form).1.name) = none := by
        rw [List.find?_eq_none]
        intro r hr
        simpa using hall r hr
      rw [hnone]
      simp [hname]
  · rw [recipeOfMeal_ingredients numbers hzero, List.map_map, ← map_rowIngredient numbers
      (numbers.div (parseIntOrFour form.actualServings : ℚ)
        (parseIntOrFour form.defaultServings : ℚ)),
      ← buildMeal_ingredients numbers st.ingredientDirectory form]
    rfl

/-- Saving 1 cup of rice for 8 servings of a recipe for 4 stores a recipe
with quantity 1, and saving 0 cups stores a recipe with quantity 0. -/
theorem saveMeal_recipe_base_quantities_witness :
    (∀ r : ℚ, exactNumbers.mul 0 r = 0)
      ∧ ((buildMeal exactNumbers sampleState.ingredientDirectory
            (sampleForm "4" "8")).1.instructions ≠ ""
        ∨ (buildMeal exactNumbers sampleState.ingredientDirectory
            (sampleForm "4" "8")).1.ingredients ≠ [])
      ∧ ((saveMeal exactNumbers sampleState (sampleForm "4" "8")).recipeLibrary.map fun r =>
          (r.name, r.ingredients.map fun ing => (ing.name, ing.quantity, ing.unit)))
          = [("Rice", [("rice", 1, "cup")])]
      ∧ ((saveMeal exactNumbers sampleState { sampleForm "4" "8" with
            ingredientRows := [{ name := "rice", quantity := some 0, unit := "cup" }] }
          ).recipeLibrary.map fun r =>
          (r.name, r.ingredients.map fun ing => (ing.name, ing.quantity, ing.unit)))
          = [("Rice", [("rice", 0, "cup")])]
      ∧ ∃ recipe,
        (saveMeal exactNumbers sampleState (sampleForm "4" "8")).recipeLibrary.find?
            (fun r => r.name
              == (buildMeal exactNumbers sampleState.ingredientDirectory
                    (sampleForm "4" "8")).1.name)
            = some recipe
          ∧ recipe.ingredients
              = (buildMeal exactNumbers sampleState.ingredientDirectory
                  (sampleForm "4" "8")).1.ingredients.map (fun ing =>
                  { name := ing.name, quantity := ing.baseQuantity, unit := ing.unit })
          ∧ recipe.ingredients.map (fun ing => (ing.name, ing.quantity, ing.unit))
              = enteredIngredients (sampleForm "4" "8").ingredientRows :=
  ⟨fun r => zero_mul r, by decide!, by decide!, by decide!,
    saveMeal_recipe_base_quantities exactNumbers sampleState (sampleForm "4" "8")
      (fun r => zero_mul r) (by decide!)⟩

/-- C18: `saveMeal` upserts recipes by name.  If the recipe names of the
library are pairwise distinct and the meal has instructions or ingredients,
then the recipe of the meal replaces the recipe of that name at its position,
or is appended when there is none, all other recipes are unchanged, the names
stay pairwise distinct and exactly one recipe has the name of the meal; a
meal with neither instructions nor ingredients leaves the library
unchanged. -/
theorem saveMeal_upserts_recipe (numbers : NumberHost) (st : AppState) (form : MealForm)
    (hnodup : (st.recipeLibrary.map fun r => r.name).Nodup) :
    ((buildMeal numbers st.ingredientDirectory form).1.instructions ≠ ""
        ∨ (buildMeal numbers st.ingredientDirectory form).1.ingredients ≠ [] →
      ((∃ before old after, st.recipeLibrary = before ++ old :: after
            ∧ old.name = (buildMeal numbers st.ingredientDirectory form).1.name
            ∧ (saveMeal numbers st form).recipeLibrary
                = before ++ recipeOfMeal (buildMeal numbers st.ingredientDirectory form).1 :: after)
          ∨ ((∀ r ∈ st.recipeLibrary,
                r.name ≠ (buildMeal numbers st.ingredientDirectory form).1.name)
            ∧ (saveMeal numbers st form).recipeLibrary
                = st.recipeLibrary
                    ++ [recipeOfMeal (buildMeal numbers st.ingredientDirectory form).1]))
        ∧ ((saveMeal numbers st form).recipeLibrary.map fun r => r.name).Nodup
        ∧ (saveMeal numbers st form).recipeLibrary.filter
              (fun r => r.name = (buildMeal numbers st.ingredientDirectory form).1.name)
            = [recipeOfMeal (buildMeal numbers st.ingredientDirectory form).1])
      ∧ ((buildMeal numbers st.ingredientDirectory form).1.instructions = ""
          ∧ (buildMeal numbers st.ingredientDirectory form).1.ingredients = [] →
        (saveMeal numbers st form).recipeLibrary = st.recipeLibrary) := by
  have hname : (recipeOfMeal (buildMeal numbers st.ingredientDirectory form).1).name
      = (buildMeal numbers st.ingredientDirectory form).1.name := rfl
  refine ⟨fun hsave => ?_, fun hno => ?_⟩
  · rcases upsertRecipe_cases st.recipeLibrary _ hsave with
      ⟨before, old, after, hsplit, _, hold, heq⟩ | ⟨hall, heq⟩
    · have hlib : (saveMeal numbers st form).recipeLibrary
          = before ++ recipeOfMeal (buildMeal numbers st.ingredientDirectory form).1 :: after := heq
      have hnames : (before ++ recipeOfMeal (buildMeal numbers st.ingredientDirectory form).1
          :: after).map (fun r => r.name) = st.recipeLibrary.map fun r => r.name := by
        rw [hsplit]
        simp [hname, hold]
      have hnodup' := hnodup
      rw [hsplit, List.map_append, List.map_cons, hold, List.nodup_append] at hnodup'
      obtain ⟨_, hafterNodup, hdisj⟩ := hnodup'
      refine ⟨Or.inl ⟨before, old, after, hsplit, hold, hlib⟩, ?_, ?_⟩
      · rw [hlib, hnames]
        exact hnodup
      · rw [hlib, List.filter_append, List.filter_cons]
        have hb : before.filter
            (fun r => r.name = (buildMeal numbers st.ingredientDirectory form).1.name) = [] := by
          rw [List.filter_eq_nil_iff]
          intro r hr hrname
          exact hdisj (List.mem_map.mpr ⟨r, hr, by simpa using hrname⟩)
            (List.mem_cons_self _ _)
        have ha : after.filter
            (fun r => r.name = (buildMeal numbers st.ingredientDirectory form).1.name) = [] := by
          rw [List.filter_eq_nil_iff]
          intro r hr hrname
          exact (List.nodup_cons.mp hafterNodup).1
            (List.mem_map.mpr ⟨r, hr, by simpa using hrname⟩)
        rw [hb, ha]
        simp [hname]
    · have hlib : (saveMeal numbers st form).recipeLibrary
          = st.recipeLibrary
              ++ [recipeOfMeal (buildMeal numbers st.ingredientDirectory form).1] := heq
      refine ⟨Or.inr ⟨hall, hlib⟩, ?_, ?_⟩
      · rw [hlib, List.map_append, List.nodup_append]
        refine ⟨hnodup, by simp, ?_⟩
        intro a ha hb
        obtain ⟨r, hr, hra⟩ := List.mem_map.mp ha
        simp only [List.map_cons, List.map_nil, List.mem_singleton] at hb
        exact hall r hr (by rw [hra, hb, hname])
      · rw [hlib, List.filter_append]
        have hb : st.recipeLibrary.filter
            (fun r => r.name = (buildMeal numbers st.ingredientDirectory form).1.name) = [] := by
          rw [List.filter_eq_nil_iff]
          intro r hr hrname
          exact hall r hr (by simpa using hrname)
        rw [hb]
        simp [hname]
  · show upsertRecipe st.recipeLibrary _ = _
    unfold upsertRecipe
    simp [hno.1, hno.2]

/-- Saving the sample meal twice leaves one recipe of its name; the second
save replaces the first. -/
theorem saveMeal_upserts_recipe_witness :
    ((saveMeal exactNumbers sampleState (sampleForm "4" "8")).recipeLibrary.map
        fun r => r.name).Nodup
      ∧ ((buildMeal exactNumbers
            (saveMeal exactNumbers sampleState (sampleForm "4" "8")).ingredientDirectory
            (sampleForm "2" "2")).1.instructions ≠ ""
          ∨ (buildMeal exactNumbers
            (saveMeal exactNumbers sampleState (sampleForm "4" "8")).ingredientDirectory
            (sampleForm "2" "2")).1.ingredients ≠ [])
      ∧ ((saveMeal exactNumbers (saveMeal exactNumbers sampleState (sampleForm "4" "8"))
            (sampleForm "2" "2")).recipeLibrary.map fun r => r.name).Nodup
      ∧ ((saveMeal exactNumbers (saveMeal exactNumbers sampleState (sampleForm "4" "8"))
            (sampleForm "2" "2")).recipeLibrary.map fun r => (r.name, r.defaultServings))
          = [("Rice", 2)] :=
  ⟨by decide!, by decide!,
    ((saveMeal_upserts_recipe exactNumbers
      (saveMeal exactNumbers sampleState (sampleForm "4" "8")) (sampleForm "2" "2")
      (by decide!)).1 (by decide!)).2.1,
    by decide!⟩

/-- C19 fails on the code: the duplicate check of `addNewIngredient` and of
`saveMeal` compares names exactly.  A directory holding only `Milk` has
names unique ignoring case; after adding `milk` through the ingredient form,
or after saving a meal with an ingredient row `milk`, it holds both `Milk`
and `milk`, which are equal ignoring case, and `getIngredientInfo` resolves
`milk` to the entry `Milk`. -/
theorem directory_unique_ignoring_case_fails :
    uniqueIgnoringCase asciiToLowerCase (sampleDirectory.take 1)
      ∧ (addNewIngredient (sampleDirectory.take 1) sampleIngredientForm).map (fun ing => ing.name)
          = ["Milk", "milk"]
      ∧ ¬ uniqueIgnoringCase asciiToLowerCase
          (addNewIngredient (sampleDirectory.take 1) sampleIngredientForm)
      ∧ (saveMeal exactNumbers { sampleState with ingredientDirectory := sampleDirectory.take 1 }
            { sampleForm "4" "4" with
              ingredientRows := [{ name := "milk", quantity := some 1, unit := "cup" }] }
          ).ingredientDirectory.map (fun ing => (ing.name, ing.category, ing.defaultUnit))
          = [("Milk", "dairy", some "gallon"), ("milk", "other", some "cup")]
      ∧ ¬ (uniqueIgnoringCase asciiToLowerCase)
          (saveMeal exactNumbers { sampleState with ingredientDirectory := sampleDirectory.take 1 }
            { sampleForm "4" "4" with
              ingredientRows := [{ name := "milk", quantity := some 1, unit := "cup" }] }
          ).ingredientDirectory
      ∧ (getIngredientInfo asciiToLowerCase
          (addNewIngredient (sampleDirectory.take 1) sampleIngredientForm) "milk").1.name
          = "Milk" := by
  decide!

/-- C20 fails on the code: `displayIngredientDirectory` numbers the entries of
a sorted copy, `deleteIngredient` removes at that number in the unsorted
directory.  In the default directory the entry displayed first, with index 0,
is `Apples`; deleting index 0 removes `Chicken Breast` and keeps `Apples`. -/
theorem deleteIngredient_removes_other_entry :
    ((displayIngredientDirectory codePointCompare defaultIngredients).map
        fun p => (p.1.name, p.2)).take 3 = [("Apples", 0), ("Bananas", 1), ("Black Pepper", 2)]
      ∧ (defaultIngredients.map fun ing => ing.name).take 3
          = ["Chicken Breast", "Rice", "Broccoli"]
      ∧ deleteIngredient true defaultIngredients 0 = defaultIngredients.tail
      ∧ "Apples" ∈ (deleteIngredient true defaultIngredients 0).map (fun ing => ing.name)
      ∧ "Chicken Breast" ∉ (deleteIngredient true defaultIngredients 0).map
          (fun ing => ing.name) := by
  decide!

/-! ## Further claims on `aggregateQuantities` and on the serving ratio -/

theorem mixedUnitsOf_cons (numbers : NumberHost) (first : Quantity) (rest : List Quantity) :
    mixedUnitsOf numbers (first :: rest)
      = ((first :: rest).foldl (sumStep numbers (findMeasurementType first.unit)) (0, false)).2 :=
  rfl

theorem mixedUnitsOf_eq_false_iff (numbers : NumberHost) (first : Quantity) (rest : List Quantity) :
    mixedUnitsOf numbers (first :: rest) = false
      ↔ ∃ type, ∀ q ∈ first :: rest, q.unit ∈ groups type := by
  rw [mixedUnitsOf_cons numbers, foldl_sumStep_snd numbers]
  constructor
  · intro h
    refine ⟨findMeasurementType first.unit, fun q hq => ?_⟩
    have hany : ((first :: rest).any fun q =>
        !(groups (findMeasurementType first.unit)).contains q.unit) = false := by
      simpa using h
    rw [List.any_eq_false] at hany
    simpa using hany q hq
  · rintro ⟨type, hall⟩
    have hfirst := findMeasurementType_of_mem type _ (hall first (List.mem_cons_self _ _))
    rw [hfirst]
    have hany : ((first :: rest).any fun q => !(groups type).contains q.unit) = false := by
      rw [List.any_eq_false]
      intro q hq
      simpa using hall q hq
    rw [hany]
    rfl

theorem mixedUnitsOf_perm (numbers : NumberHost) (qs qs' : List Quantity) (hperm : qs.Perm qs') :
    mixedUnitsOf numbers qs = mixedUnitsOf numbers qs' := by
  cases qs with
  | nil => rw [List.Perm.nil_eq hperm]
  | cons first rest =>
    cases qs' with
    | nil => exact absurd hperm.eq_nil (List.cons_ne_nil _ _)
    | cons first' rest' =>
      have hiff : mixedUnitsOf numbers (first :: rest) = false
          ↔ mixedUnitsOf numbers (first' :: rest') = false := by
        rw [mixedUnitsOf_eq_false_iff numbers, mixedUnitsOf_eq_false_iff numbers]
        constructor
        · rintro ⟨type, h⟩
          exact ⟨type, fun q hq => h q (hperm.mem_iff.mpr hq)⟩
        · rintro ⟨type, h⟩
          exact ⟨type, fun q hq => h q (hperm.mem_iff.mp hq)⟩
      cases h1 : mixedUnitsOf numbers (first :: rest) <;>
        cases h2 : mixedUnitsOf numbers (first' :: rest')
      · rfl
      · exact absurd (hiff.mp h1) (by simp [h2])
      · exact absurd (hiff.mpr h2) (by simp [h1])
      · rfl

theorem aggregateQuantities_of_mixedUnitsOf (numbers : NumberHost) (qs : List Quantity)
    (h : mixedUnitsOf numbers qs = true) :
    aggregateQuantities numbers qs = mixedListing numbers qs := by
  cases qs with
  | nil => simp [mixedUnitsOf] at h
  | cons first rest =>
    rw [mixedUnitsOf_cons numbers] at h
    unfold aggregateQuantities
    simp only [h, if_true, mixedListing]

/-- C26: whether `aggregateQuantities` takes the mixed-unit path does not
depend on the order of the entries: a sequence and any permutation of it have
the same value of `mixedUnits`, and when it is set the result is the mixed
listing. -/
theorem aggregateQuantities_mixed_order_independent (numbers : NumberHost) (qs qs' : List Quantity)
    (hperm : qs.Perm qs') :
    mixedUnitsOf numbers qs = mixedUnitsOf numbers qs'
      ∧ (mixedUnitsOf numbers qs = true →
          aggregateQuantities numbers qs = mixedListing numbers qs
            ∧ aggregateQuantities numbers qs' = mixedListing numbers qs') := by
  have h := mixedUnitsOf_perm numbers qs qs' hperm
  exact ⟨h, fun hmixed =>
    ⟨aggregateQuantities_of_mixedUnitsOf numbers qs hmixed,
      aggregateQuantities_of_mixedUnitsOf numbers qs' (h ▸ hmixed)⟩⟩

/-- A cup and a gram are listed in either order, although the family is
volume in one order and weight in the other. -/
theorem aggregateQuantities_mixed_order_independent_witness :
    ([⟨1, "cup"⟩, ⟨2, "gram"⟩] : List Quantity).Perm [⟨2, "gram"⟩, ⟨1, "cup"⟩]
      ∧ findMeasurementType "cup" = .volume ∧ findMeasurementType "gram" = .weight
      ∧ mixedUnitsOf exactNumbers [⟨1, "cup"⟩, ⟨2, "gram"⟩] = true
      ∧ mixedUnitsOf exactNumbers [⟨1, "cup"⟩, ⟨2, "gram"⟩]
          = mixedUnitsOf exactNumbers [⟨2, "gram"⟩, ⟨1, "cup"⟩]
      ∧ aggregateQuantities exactNumbers [⟨2, "gram"⟩, ⟨1, "cup"⟩] = "2 gram + 1 cup" :=
  ⟨List.Perm.swap _ _ _, by decide, by decide, by decide!,
    (aggregateQuantities_mixed_order_independent exactNumbers [⟨1, "cup"⟩, ⟨2, "gram"⟩]
      [⟨2, "gram"⟩, ⟨1, "cup"⟩] (List.Perm.swap _ _ _)).1,
    (((aggregateQuantities_mixed_order_independent exactNumbers [⟨1, "cup"⟩, ⟨2, "gram"⟩]
      [⟨2, "gram"⟩, ⟨1, "cup"⟩] (List.Perm.swap _ _ _)).2 (by decide!)).2).trans (by decide!)⟩

/-- C25 fails on the code: half a dozen is rendered as `6 dozens`.  The
total is kept in items (a dozen counting 12) and, below 12, is printed
unconverted in front of the unit `dozen`: the number printed is `12 * t`, not
`t`.  From 12 items on the rendering is right: a dozen and a half gives
`1 dozen + 6 pieces`. -/
theorem aggregateQuantities_dozen_below_twelve :
    aggregateQuantities exactNumbers [⟨0.5, "dozen"⟩] = "6 dozens"
      ∧ aggregateQuantities exactNumbers [⟨0.25, "dozen"⟩, ⟨0.25, "dozen"⟩] = "6 dozens"
      ∧ countTotal exactNumbers [⟨0.5, "dozen"⟩] = 12 * 0.5
      ∧ aggregateQuantities exactNumbers [⟨1, "dozen"⟩, ⟨0.5, "dozen"⟩]
          = "1 dozen + 6 pieces" := by
  decide!

theorem parseIntOrFour_ne_zero (value : String) : parseIntOrFour value ≠ 0 := by
  unfold parseIntOrFour
  cases parseInt value with
  | none => decide
  | some n =>
    by_cases h : n = 0
    · simp [h]
    · simp [h]

/-- C23: whatever the default-servings field holds, the denominator of the
serving ratio is a non-zero integer: 4 when the field is absent, not a number
or zero, and the number entered otherwise, positive or negative.  The ratio is
therefore a quotient by a non-zero number, and every stored quantity is the
product of the base quantity and that quotient; on a host whose product and
quotient are exact it is the number determined by `quantity * defaultServings
= baseQuantity * actualServings`. -/
theorem saveMeal_denominator_nonzero (numbers : NumberHost) (directory : List IngredientEntry)
    (form : MealForm) :
    (buildMeal numbers directory form).1.defaultServings ≠ 0
      ∧ (parseInt form.defaultServings = none →
          (buildMeal numbers directory form).1.defaultServings = 4)
      ∧ (parseInt form.defaultServings = some 0 →
          (buildMeal numbers directory form).1.defaultServings = 4)
      ∧ (∀ n : Int, n ≠ 0 → parseInt form.defaultServings = some n →
          (buildMeal numbers directory form).1.defaultServings = n)
      ∧ (∀ ing ∈ (buildMeal numbers directory form).1.ingredients,
          ing.quantity
            = numbers.mul ing.baseQuantity
                (numbers.div ((buildMeal numbers directory form).1.actualServings : ℚ)
                  ((buildMeal numbers directory form).1.defaultServings : ℚ)))
      ∧ ((∀ x y : ℚ, numbers.mul x y = x * y) → (∀ x y : ℚ, numbers.div x y = x / y) →
          ∀ ing ∈ (buildMeal numbers directory form).1.ingredients,
            ing.quantity * ((buildMeal numbers directory form).1.defaultServings : ℚ)
              = ing.baseQuantity
                  * ((buildMeal numbers directory form).1.actualServings : ℚ)) := by
  have hd : (buildMeal numbers directory form).1.defaultServings
      = parseIntOrFour form.defaultServings := rfl
  refine ⟨hd ▸ parseIntOrFour_ne_zero _, ?_, ?_, ?_, buildMeal_scaled numbers directory form,
    ?_⟩
  · intro h
    rw [hd]
    simp [parseIntOrFour, h]
  · intro h
    rw [hd]
    simp [parseIntOrFour, h]
  · intro n hn h
    rw [hd]
    simp [parseIntOrFour, h, hn]
  · intro hmul hdiv ing hing
    have hne : ((buildMeal numbers directory form).1.defaultServings : ℚ) ≠ 0 := by
      exact_mod_cast hd ▸ parseIntOrFour_ne_zero form.defaultServings
    rw [buildMeal_scaled numbers directory form ing hing, hmul, hdiv]
    field_simp

/-- The five kinds of content of the default-servings field. -/
theorem saveMeal_denominator_nonzero_witness :
    parseInt (sampleForm "" "8").defaultServings = none
      ∧ parseInt (sampleForm "four" "8").defaultServings = none
      ∧ parseInt (sampleForm "0" "8").defaultServings = some 0
      ∧ parseInt (sampleForm "-2" "8").defaultServings = some (-2)
      ∧ (buildMeal exactNumbers [] (sampleForm "" "8")).1.defaultServings = 4
      ∧ (buildMeal exactNumbers [] (sampleForm "four" "8")).1.defaultServings = 4
      ∧ (buildMeal exactNumbers [] (sampleForm "0" "8")).1.defaultServings = 4
      ∧ (buildMeal exactNumbers [] (sampleForm "-2" "8")).1.defaultServings = -2
      ∧ (buildMeal exactNumbers [] (sampleForm "3" "8")).1.defaultServings = 3 :=
  ⟨by decide, by decide, by decide, by decide,
    (saveMeal_denominator_nonzero exactNumbers [] (sampleForm "" "8")).2.1 (by decide),
    (saveMeal_denominator_nonzero exactNumbers [] (sampleForm "four" "8")).2.1 (by decide),
    (saveMeal_denominator_nonzero exactNumbers [] (sampleForm "0" "8")).2.2.1 (by decide),
    (saveMeal_denominator_nonzero exactNumbers [] (sampleForm "-2" "8")).2.2.2.1 (-2)
      (by decide) (by decide),
    (saveMeal_denominator_nonzero exactNumbers [] (sampleForm "3" "8")).2.2.2.1 3
      (by decide) (by decide)⟩

/-- C24 fails on the code: the form of an edited meal shows the scaled
`quantity` of each ingredient, and saving scales it again.  One cup of rice
saved for 8 servings of a recipe for 4 is stored with base quantity 1 and
quantity 2; after `editMeal` and `saveMeal` with no field changed it is stored
with base quantity 2 and quantity 4, and the recipe quantity has changed from
1 to 2.  With equal default and actual servings nothing changes. -/
theorem resave_rescales_quantities :
    ((saveMeal exactNumbers sampleState (sampleForm "4" "8")).mealPlan.lookup
          "2024-03-04-dinner").map
        (fun meal => meal.ingredients.map fun ing => (ing.baseQuantity, ing.quantity))
        = some [(1, 2)]
      ∧ ((editMeal exactNumbers (saveMeal exactNumbers sampleState (sampleForm "4" "8"))
            "2024-03-04-dinner").map
          fun p => (p.2.defaultServings, p.2.actualServings, p.2.ingredientRows))
          = some ("4", "8", [{ name := "rice", quantity := some 2, unit := "cup" }])
      ∧ ((editMeal exactNumbers (saveMeal exactNumbers sampleState (sampleForm "4" "8"))
            "2024-03-04-dinner").map
          fun p => ((saveMeal exactNumbers p.1 p.2).mealPlan.lookup "2024-03-04-dinner").map
            fun meal => meal.ingredients.map fun ing => (ing.baseQuantity, ing.quantity))
          = some (some [(2, 4)])
      ∧ (saveMeal exactNumbers sampleState (sampleForm "4" "8")).recipeLibrary.map
          (fun r => r.ingredients.map fun ing => ing.quantity) = [[1]]
      ∧ ((editMeal exactNumbers (saveMeal exactNumbers sampleState (sampleForm "4" "8"))
            "2024-03-04-dinner").map
          fun p => (saveMeal exactNumbers p.1 p.2).recipeLibrary.map
            fun r => r.ingredients.map fun ing => ing.quantity)
          = some [[2]]
      ∧ ((editMeal exactNumbers (saveMeal exactNumbers sampleState (sampleForm "4" "4"))
            "2024-03-04-dinner").map
          fun p => (saveMeal exactNumbers p.1 p.2).mealPlan)
          = some (saveMeal exactNumbers sampleState (sampleForm "4" "4")).mealPlan := by
  decide!

/-! ## The claims on export and import -/

/-- C21 fails on the code: the assignments of the import precede
`saveToLocalStorage`, whose failure is reported as a format error without
undoing them.  For a document that parses as JSON and whose `weekStart` is not
a date (here `x`), the handler reports the format error, and the meal plan,
the directory, the week start and the plan duration have been replaced by
those of the document.  A syntax error and the document `null` leave the state
unchanged. -/
theorem loadMealPlan_error_after_overwrite :
    sampleDateHost.parse "x" = none
      ∧ (loadMealPlan sampleDateHost samplePlanState
          (.object { mealPlan := some [], ingredientDirectory := some [],
                     weekStart := some "x", planDuration := some 1 })).2 = .formatError
      ∧ (loadMealPlan sampleDateHost samplePlanState
          (.object { mealPlan := some [], ingredientDirectory := some [],
                     weekStart := some "x", planDuration := some 1 })).1
          = { samplePlanState with mealPlan := [], ingredientDirectory := [],
                                   currentWeekStart := none, planDuration := 1 }
      ∧ samplePlanState.mealPlan ≠ [] ∧ samplePlanState.ingredientDirectory ≠ []
      ∧ samplePlanState.currentWeekStart ≠ none ∧ samplePlanState.planDuration ≠ 1
      ∧ loadMealPlan sampleDateHost samplePlanState .syntaxError
          = (samplePlanState, .formatError)
      ∧ loadMealPlan sampleDateHost samplePlanState .null = (samplePlanState, .formatError) := by
  decide!

/-- C22: for a state whose week start is a valid date and whose plan duration
is not 0, `saveMealPlan` produces a document, and importing that document,
into whatever state, is reported as loaded and yields the meal plan, the
ingredient directory, the week start and the plan duration that were
exported.  The host is assumed to read back the ISO string of the week start
as the same time value, and that string is not empty. -/
theorem export_import_round_trip (host : DateHost) (st st' : PlanState) (t : Int)
    (hdate : st.currentWeekStart = some t)
    (hparse : host.parse (host.toISOString t) = some t)
    (hiso : host.toISOString t ≠ "")
    (hduration : st.planDuration ≠ 0) :
    ∃ planData, saveMealPlan host st = some planData
      ∧ (loadMealPlan host st' (.object planData)).2 = .loaded
      ∧ (loadMealPlan host st' (.object planData)).1.mealPlan = st.mealPlan
      ∧ (loadMealPlan host st' (.object planData)).1.ingredientDirectory
          = st.ingredientDirectory
      ∧ (loadMealPlan host st' (.object planData)).1.currentWeekStart = st.currentWeekStart
      ∧ (loadMealPlan host st' (.object planData)).1.planDuration = st.planDuration := by
  refine ⟨{ mealPlan := some st.mealPlan, ingredientDirectory := some st.ingredientDirectory,
            weekStart := some (host.toISOString t), planDuration := some st.planDuration },
    by simp [saveMealPlan, hdate], ?_, ?_, ?_, ?_, ?_⟩
  all_goals simp [loadMealPlan, loadPlanData, hparse, hiso, hduration, hdate]

/-- The sample state exported and imported into the state of an empty
plan. -/
theorem export_import_round_trip_witness :
    samplePlanState.currentWeekStart = some 1709510400000
      ∧ sampleDateHost.parse (sampleDateHost.toISOString 1709510400000) = some 1709510400000
      ∧ sampleDateHost.toISOString 1709510400000 ≠ ""
      ∧ samplePlanState.planDuration ≠ 0
      ∧ ∃ planData, saveMealPlan sampleDateHost samplePlanState = some planData
        ∧ (loadMealPlan sampleDateHost { samplePlanState with
              mealPlan := [], ingredientDirectory := [], currentWeekStart := some 0,
              planDuration := 1 } (.object planData)).2 = .loaded
        ∧ (loadMealPlan sampleDateHost { samplePlanState with
              mealPlan := [], ingredientDirectory := [], currentWeekStart := some 0,
              planDuration := 1 } (.object planData)).1.mealPlan = samplePlanState.mealPlan
        ∧ (loadMealPlan sampleDateHost { samplePlanState with
              mealPlan := [], ingredientDirectory := [], currentWeekStart := some 0,
              planDuration := 1 } (.object planData)).1.ingredientDirectory
            = samplePlanState.ingredientDirectory
        ∧ (loadMealPlan sampleDateHost { samplePlanState with
              mealPlan := [], ingredientDirectory := [], currentWeekStart := some 0,
              planDuration := 1 } (.object planData)).1.currentWeekStart
            = samplePlanState.currentWeekStart
        ∧ (loadMealPlan sampleDateHost { samplePlanState with
              mealPlan := [], ingredientDirectory := [], currentWeekStart := some 0,
              planDuration := 1 } (.object planData)).1.planDuration
            = samplePlanState.planDuration :=
  ⟨rfl, by decide!, by decide!, by decide,
    export_import_round_trip sampleDateHost samplePlanState
      { samplePlanState with mealPlan := [], ingredientDirectory := [],
                             currentWeekStart := some 0, planDuration := 1 }
      1709510400000 rfl (by decide!) (by decide!) (by decide)⟩

/-! ## The claim that no item is dropped -/

theorem sum_map_ite_eq_count (keys : List String) (a : String) :
    (keys.map fun key => if a = key then 1 else 0).sum = keys.count a := by
  induction keys with
  | nil => rfl
  | cons k keys ih =>
    rw [List.map_cons, List.sum_cons, ih, List.count_cons]
    by_cases h : a = k
    · subst h
      simp [Nat.add_comm]
    · have hb : (k == a) = false := by simpa using fun h' => h h'.symm
      simp [h, hb]

theorem sum_filter_length {α : Type} (f : α → String) (keys : List String)
    (hnodup : keys.Nodup) (items : List α) (hmem : ∀ item ∈ items, f item ∈ keys) :
    (keys.map fun key => (items.filter fun item => f item = key).length).sum
      = items.length := by
  induction items with
  | nil => simp
  | cons x xs ih =>
    have hstep : (keys.map fun key => ((x :: xs).filter fun item => f item = key).length)
        = keys.map fun key =>
            (if f x = key then 1 else 0) + (xs.filter fun item => f item = key).length := by
      apply List.map_congr_left
      intro key _
      by_cases h : f x = key
      · simp [List.filter_cons, h, Nat.add_comm]
      · simp [List.filter_cons, h]
    rw [hstep, List.sum_map_add, sum_map_ite_eq_count,
      List.count_eq_one_of_mem hnodup (hmem x (List.mem_cons_self _ _)),
      ih fun item hitem => hmem item (List.mem_cons_of_mem _ hitem), List.length_cons,
      Nat.add_comm]

/-- In every section the displayed item count is the total number of items
over its location groups. -/
theorem renderStoreSection_itemCount (localeCompare : String → String → Int)
    (storeName : String) (items : List GroceryItem) (isBestStore : Bool) :
    (renderStoreSection localeCompare storeName items isBestStore).itemCount
      = ((renderStoreSection localeCompare storeName items isBestStore).locationGroups.map
          fun group => group.items.length).sum := by
  have hnodup : (objectKeys (groupByLocation items)).Nodup :=
    nodup_objectKeys _ (by rw [keys_groupByLocation]; exact nodup_firstOccurrences _)
  have hlengths :
      (renderStoreSection localeCompare storeName items isBestStore).locationGroups.map
          (fun group => group.items.length)
        = (sortBy compareLocations (objectKeys (groupByLocation items))).map fun location =>
            (items.filter fun item => locationOrOther item = location).length := by
    simp only [renderStoreSection, List.map_map]
    apply List.map_congr_left
    intro location _
    show (sortBy (fun a b : GroceryItem => localeCompare a.name b.name)
      (bucketOf location (groupByLocation items))).length = _
    rw [bucketOf_groupByLocation]
    exact List.length_insertionSort _ _
  rw [hlengths, ((sortBy_perm compareLocations (objectKeys (groupByLocation items))).map _).sum_eq,
    sum_filter_length locationOrOther _ hnodup items fun item hitem =>
      (mem_objectKeys_groupByLocation items _).mpr (List.mem_map_of_mem _ hitem)]
  rfl

/-- Every item handed to `renderStoreSection` appears in the group of its
location. -/
theorem mem_group_renderStoreSection (localeCompare : String → String → Int)
    (storeName : String) (items : List GroceryItem) (isBestStore : Bool) (item : GroceryItem)
    (hitem : item ∈ items) :
    ∃ group ∈ (renderStoreSection localeCompare storeName items isBestStore).locationGroups,
      group.location = locationOrOther item ∧ item ∈ group.items := by
  have hkey : locationOrOther item ∈ sortBy compareLocations (objectKeys (groupByLocation items)) :=
    (sortBy_perm _ _).mem_iff.mpr
      ((mem_objectKeys_groupByLocation items _).mpr (List.mem_map_of_mem _ hitem))
  refine ⟨_, List.mem_map.mpr ⟨locationOrOther item, hkey, rfl⟩, rfl, ?_⟩
  show item ∈ sortBy (fun a b : GroceryItem => localeCompare a.name b.name)
    (bucketOf (locationOrOther item) (groupByLocation items))
  rw [(sortBy_perm _ _).mem_iff, bucketOf_groupByLocation]
  exact List.mem_filter.mpr ⟨hitem, by simp⟩

/-- When the name of the best store is not empty, no item is dropped: every
item appears in the section of each store it lists, and every item without a
store appears in the `Other Items` section, in the group of its location. -/
theorem displayGroceryList_keeps_items (localeCompare : String → String → Int)
    (groceryList : List (String × GroceryItem)) (item : GroceryItem)
    (hitem : item ∈ objectValues groceryList) :
    (bestStoreOf (storeGroupsOf groceryList) ≠ "" → ∀ store ∈ storesOrEmpty item,
        ∃ sec ∈ displayGroceryList localeCompare groceryList, sec.storeName = store
          ∧ ∃ group ∈ sec.locationGroups,
              group.location = locationOrOther item ∧ item ∈ group.items)
      ∧ (storesOrEmpty item = [] →
        ∃ sec ∈ displayGroceryList localeCompare groceryList, sec.storeName = "Other Items"
          ∧ ∃ group ∈ sec.locationGroups,
              group.location = locationOrOther item ∧ item ∈ group.items) := by
  constructor
  · intro hbest store hstore
    have hbucket : item ∈ bucketOf store (storeGroupsOf groceryList) := by
      rw [bucketOf_storeGroupsOf, List.mem_flatMap]
      refine ⟨item, hitem, ?_⟩
      rw [List.mem_replicate]
      exact ⟨Nat.pos_iff_ne_zero.mp (List.count_pos_iff.mpr hstore), rfl⟩
    rw [displayGroceryList_of_best localeCompare groceryList hbest]
    by_cases hs : store = bestStoreOf (storeGroupsOf groceryList)
    · refine ⟨_, List.mem_cons_self _ _, hs.symm, ?_⟩
      exact mem_group_renderStoreSection localeCompare _ _ true item (hs ▸ hbucket)
    · cases hl : (storeGroupsOf groceryList).lookup store with
      | none =>
        unfold bucketOf at hbucket
        simp [hl] at hbucket
      | some items =>
        have hitems : bucketOf store (storeGroupsOf groceryList) = items := by
          unfold bucketOf
          rw [hl]
          rfl
        have hentry : (store, items) ∈ (objectEntries (storeGroupsOf groceryList)).filter
            fun entry => entry.1 ≠ bestStoreOf (storeGroupsOf groceryList) := by
          rw [List.mem_filter]
          exact ⟨(mem_objectEntries _ _).mpr (mem_of_lookup _ _ _ hl), by simpa using hs⟩
        refine ⟨renderStoreSection localeCompare store items false, ?_, rfl, ?_⟩
        · apply List.mem_cons_of_mem
          apply List.mem_append_left
          exact List.mem_map.mpr ⟨(store, items), hentry, rfl⟩
        · exact mem_group_renderStoreSection localeCompare _ _ false item (hitems ▸ hbucket)
  · intro hnone
    have hmem : item ∈ noStoreItemsOf groceryList := by
      rw [noStoreItemsOf_eq]
      exact List.mem_filter.mpr ⟨hitem, by simpa using hnone⟩
    refine ⟨renderStoreSection localeCompare "Other Items" (noStoreItemsOf groceryList) false,
      ?_, rfl, mem_group_renderStoreSection localeCompare _ _ false item hmem⟩
    unfold displayGroceryList
    apply List.mem_append_right
    have hpos : (noStoreItemsOf groceryList).length > 0 := List.length_pos_of_mem hmem
    simp only [hpos, if_true, List.mem_singleton]

/-- C27 fails on the code: the test `if (bestStore)` is on the name of the
best store, so when that name is the empty string no store section is
rendered.  An item whose only store has the empty name appears nowhere in the
output; with two items at the store of empty name and one of them also at `A`,
the section of `A` is missing as well.  The item without a store is still
rendered under `Other Items`. -/
theorem displayGroceryList_drops_items :
    storesOrEmpty (sampleItem "bread" (some "bakery") (some [""])) = [""]
      ∧ displayGroceryList codePointCompare
          (sampleList [sampleItem "bread" (some "bakery") (some [""])]) = []
      ∧ bestStoreOf (storeGroupsOf (sampleList [sampleItem "bread" none (some ["", "A"]),
          sampleItem "milk" none (some [""]), sampleItem "salt" none none])) = ""
      ∧ (displayGroceryList codePointCompare
          (sampleList [sampleItem "bread" none (some ["", "A"]),
            sampleItem "milk" none (some [""]), sampleItem "salt" none none])).map
          (fun sec => (sec.storeName, sec.itemCount,
            sec.locationGroups.map fun group => group.items.map fun item => item.name))
          = [("Other Items", 1, [["salt"]])] := by
  decide!

end MealPlanner
